import Mathlib

/-!
# libsmb2: credit sequencer, DER codec and NTLMSSP records

A shallow embedding of `smb2_connection.c`, `smb2_der.c` and `smb2_ntlmssp.c`.

Conventions of the embedding.

* A C function that mutates `*conn` or `*d` becomes a function returning the new
  state next to its result.
* `errx(1, ...)` / `err(1, ...)` terminate the process.  They are embedded as an
  `Except.error` carrying the condition, with the state as it stood at the call.
* A `-1` / `NULL` return is embedded as `Except.error` too; the constructor tells
  which branch of the C function produced it.
* `int64_t` and `int` values are integers reduced to the two's-complement range
  after every arithmetic step (`wrapInt64`, `wrapInt32`).  ISO C leaves signed
  overflow undefined; wrapping is what the targets of this code do.
* Bytes are natural numbers below 256; `size_t` quantities are natural numbers
  (buffer sizes never approach `2^64`).
-/

namespace Smb2

/-! ## Outcomes -/

/-- Failure conditions of the three source files.  The last constructor is not a
value the C code returns: it marks a store outside an allocation. -/
inductive Smb2Error where
  | EndOfData
  | Truncated
  | UnsupportedLongLength
  | WrongTag
  | BufferOverflow
  | AllocationFailure
  | SignatureMismatch
  | SizeTooSmall
  | OutOfCredits
  | OutOfBoundsWrite
  deriving DecidableEq, Repr

instance instDecidableEqExcept {ε α : Type} [DecidableEq ε] [DecidableEq α] :
    DecidableEq (Except ε α)
  | .ok a, .ok b => if h : a = b then isTrue (by rw [h]) else isFalse (fun c => h (Except.ok.inj c))
  | .error a, .error b =>
    if h : a = b then isTrue (by rw [h]) else isFalse (fun c => h (Except.error.inj c))
  | .ok _, .error _ => isFalse (fun c => Except.noConfusion c)
  | .error _, .ok _ => isFalse (fun c => Except.noConfusion c)

/-! ## Machine integers -/

def INT64_MAX : Int := 9223372036854775807

def INT64_MIN : Int := -9223372036854775808

/-- Reduction of an integer to the `int64_t` range (two's complement). -/
def wrapInt64 (x : Int) : Int := (x + 9223372036854775808) % 18446744073709551616 - 9223372036854775808

/-- Addition of two `int64_t` values. -/
def int64_add (x y : Int) : Int := wrapInt64 (x + y)

/-- Membership in the `int64_t` range. -/
def isInt64 (x : Int) : Prop := INT64_MIN ≤ x ∧ x ≤ INT64_MAX

instance (x : Int) : Decidable (isInt64 x) := by
  unfold isInt64; exact inferInstance

/-! ## smb2_connection.c -/

/-- Modelled from the spec: `struct smb2_connection` (its header, `smb2_connection.h`,
is not among the sources).  The fields are those the three source files touch:
the transport handle, the credit window `[c_credits_first, c_credits_after_last)`
of `int64_t` message ids, and the stored NTLMSSP negotiate flags (kept as the
32-bit pattern read from the record). -/
structure smb2_connection where
  c_fd : Int
  c_credits_first : Int
  c_credits_after_last : Int
  c_ntlmssp_negotiate_flags : Nat
  deriving DecidableEq, Repr

/-- Embedding of `smb2_connection_add_credits`: `conn->c_credits_after_last += credits`. -/
def smb2_connection_add_credits (conn : smb2_connection) (credits : Int) : smb2_connection :=
  { conn with c_credits_after_last := int64_add conn.c_credits_after_last credits }

/-- Embedding of `smb2_connection_next_message_id`.  With an empty window the C
function calls `errx(1, "out of credits")` before touching the connection. -/
def smb2_connection_next_message_id (conn : smb2_connection) :
    Except Smb2Error Int × smb2_connection :=
  if conn.c_credits_first = conn.c_credits_after_last then
    (.error .OutOfCredits, conn)
  else
    let msgid := conn.c_credits_first
    let conn := { conn with c_credits_first := int64_add conn.c_credits_first 1 }
    (.ok msgid, conn)

/-- The credit-window invariant `first ≤ afterLast`. -/
def creditInv (conn : smb2_connection) : Prop :=
  conn.c_credits_first ≤ conn.c_credits_after_last

instance (conn : smb2_connection) : Decidable (creditInv conn) := by
  unfold creditInv; exact inferInstance

/-- Both window fields hold `int64_t` values. -/
def creditsInRange (conn : smb2_connection) : Prop :=
  isInt64 conn.c_credits_first ∧ isInt64 conn.c_credits_after_last

instance (conn : smb2_connection) : Decidable (creditsInRange conn) := by
  unfold creditsInRange; exact inferInstance

/-- One call on the sequencer. -/
inductive CreditOp where
  | add (n : Int)
  | next
  deriving DecidableEq, Repr

/-- Runs a sequence of calls; returns the final connection and, in call order, the
result of every `smb2_connection_next_message_id` call.  A failed call leaves the
connection as it was, so the run continues after it. -/
def runCreditOps : smb2_connection → List CreditOp → smb2_connection × List (Except Smb2Error Int)
  | conn, [] => (conn, [])
  | conn, .add n :: ops => runCreditOps (smb2_connection_add_credits conn n) ops
  | conn, .next :: ops =>
    let r := smb2_connection_next_message_id conn
    let rest := runCreditOps r.2 ops
    (rest.1, r.1 :: rest.2)

/-- The ids handed out by the successful calls, in order. -/
def issuedIds : List (Except Smb2Error Int) → List Int
  | [] => []
  | .ok v :: rs => v :: issuedIds rs
  | .error _ :: rs => issuedIds rs

/-- Sum of the credits granted by the `add` calls of a sequence. -/
def grantedCredits : List CreditOp → Int
  | [] => 0
  | .add n :: ops => n + grantedCredits ops
  | .next :: ops => grantedCredits ops

/-- Every grant of the sequence is non-negative. -/
def grantsNonneg : List CreditOp → Prop
  | [] => True
  | .add n :: ops => 0 ≤ n ∧ grantsNonneg ops
  | .next :: ops => grantsNonneg ops

instance grantsNonneg.dec : (ops : List CreditOp) → Decidable (grantsNonneg ops)
  | [] => isTrue trivial
  | .add n :: ops =>
    match (inferInstance : Decidable (0 ≤ n)), grantsNonneg.dec ops with
    | isTrue h, isTrue h' => isTrue ⟨h, h'⟩
    | isFalse h, _ => isFalse (fun c => h c.1)
    | _, isFalse h' => isFalse (fun c => h' c.2)
  | .next :: ops =>
    match grantsNonneg.dec ops with
    | isTrue h => isTrue h
    | isFalse h => isFalse h

/-! ## Memory helpers -/

/-- Store of the bytes `data` at offset `off` of `buf`; the stores of the source
always lie inside the allocation, where this is the in-place update. -/
def writeAt (buf : List Nat) (off : Nat) (data : List Nat) : List Nat :=
  buf.take off ++ data ++ buf.drop (off + data.length)

/-- The C string held by a byte block: the bytes before the first NUL. -/
def cstr (buf : List Nat) : List Nat := buf.takeWhile (fun b => b ≠ 0)

/-- Result of `strlen`. -/
def strlen (s : List Nat) : Nat := (cstr s).length

/-- The bytes of a string literal. -/
def bytesOf (s : String) : List Nat := s.toList.map Char.toNat

/-! ## smb2_der.c -/

/-- Value of `SMB2_DER_OID_LEN`. -/
def SMB2_DER_OID_LEN : Nat := 256

/-- Modelled from the spec: the tag constant `SMB2_DER_OID` of `smb2_der.h` (the header
is not among the sources); the spec gives OID = 0x06. -/
def SMB2_DER_OID : Nat := 0x06

/-- Modelled from the spec: the tag constant `SMB2_DER_GENERAL_STRING` of `smb2_der.h`;
the spec gives GENERAL_STRING = 0x1B. -/
def SMB2_DER_GENERAL_STRING : Nat := 0x1B

/-- Modelled from the spec: the tag constant `SMB2_DER_SEQUENCE` of `smb2_der.h`; the
spec gives SEQUENCE = 0x30. -/
def SMB2_DER_SEQUENCE : Nat := 0x30

/-- Embedding of `struct smb2_der`.  `d_buf` is the memory `d->d_buf` points to, from
that address onwards; `d_len`, `d_next` and `d_own_buf` are the C fields. -/
structure smb2_der where
  d_buf : List Nat
  d_len : Nat
  d_next : Nat
  d_own_buf : Bool
  deriving DecidableEq, Repr

/-- Embedding of `smb2_der_new`: a zeroed structure that owns its (still absent) buffer. -/
def smb2_der_new : smb2_der :=
  { d_buf := [], d_len := 0, d_next := 0, d_own_buf := true }

/-- Embedding of `smb2_der_new_from_buf`. -/
def smb2_der_new_from_buf (buf : List Nat) (len : Nat) : smb2_der :=
  { smb2_der_new with d_own_buf := false, d_buf := buf, d_len := len, d_next := 0 }

/-- Embedding of `smb2_der_get_off`. -/
def smb2_der_get_off (d : smb2_der) : Nat := d.d_next

/-- Embedding of `smb2_der_set_off`; an offset past `d_len` ends in `errx`. -/
def smb2_der_set_off (d : smb2_der) (off : Nat) : Except Smb2Error smb2_der :=
  if off > d.d_len then .error .Truncated
  else .ok { d with d_next := off }

/-- Embedding of `smb2_der_rewind`. -/
def smb2_der_rewind (d : smb2_der) : smb2_der := { d with d_next := 0 }

/-- Embedding of `smb2_der_get_next_id`: the next tag byte, without consuming it. -/
def smb2_der_get_next_id (d : smb2_der) : Except Smb2Error Nat :=
  if d.d_next = d.d_len then .error .EndOfData
  else if d.d_next + 2 > d.d_len then .error .Truncated
  else .ok (d.d_buf.getD d.d_next 0)

/-- Embedding of `smb2_der_extract`: returns `(id, len)`.  The cursor is moved past the
two header bytes before the length octet is examined. -/
def smb2_der_extract (d : smb2_der) : Except Smb2Error (Nat × Nat) × smb2_der :=
  match smb2_der_get_next_id d with
  | .error e => (.error e, d)
  | .ok _ =>
    let id := d.d_buf.getD d.d_next 0
    let length_octet := d.d_buf.getD (d.d_next + 1) 0
    let d := { d with d_next := d.d_next + 2 }
    if length_octet &&& 0x80 ≠ 0 then (.error .UnsupportedLongLength, d)
    else
      let len := length_octet &&& 0x7F
      if d.d_next + len > d.d_len then (.error .Truncated, d)
      else (.ok (id, len), d)

/-- Embedding of `smb2_der_get_constructed`: returns the identifier and the view over
the payload, which starts at `&d->d_buf[d->d_next]`. -/
def smb2_der_get_constructed (d : smb2_der) : Except Smb2Error (Nat × smb2_der) × smb2_der :=
  match smb2_der_get_next_id d with
  | .error e => (.error e, d)
  | .ok id =>
    if id &&& 0x20 = 0 then (.error .WrongTag, d)
    else
      match smb2_der_extract d with
      | (.error e, d) => (.error e, d)
      | (.ok (id, len), d) =>
        let c := smb2_der_new_from_buf (d.d_buf.drop d.d_next) len
        (.ok (id, c), { d with d_next := d.d_next + len })

/-- Embedding of `smb2_der_get_sequence`. -/
def smb2_der_get_sequence (d : smb2_der) : Except Smb2Error smb2_der × smb2_der :=
  match smb2_der_get_next_id d with
  | .error e => (.error e, d)
  | .ok id =>
    if id ≠ SMB2_DER_SEQUENCE then (.error .WrongTag, d)
    else
      match smb2_der_get_constructed d with
      | (.error e, d) => (.error e, d)
      | (.ok (_, c), d) => (.ok c, d)

/-- Reduction of an integer to the range of `int` (32 bits, two's complement). -/
def wrapInt32 (x : Int) : Int := (x + 2147483648) % 4294967296 - 2147483648

/-- Decimal digits of a natural number, most significant first, as character codes. -/
def decDigits : Nat → Nat → List Nat
  | 0, _ => []
  | fuel + 1, n => if n < 10 then [48 + n] else decDigits fuel (n / 10) ++ [48 + n % 10]

/-- Modelled from the C library: the text the `%d` conversion of `snprintf` produces. -/
def fmt_d (x : Int) : List Nat :=
  if x < 0 then 45 :: decDigits (x.natAbs + 1) x.natAbs else decDigits (x.natAbs + 1) x.natAbs

/-- Modelled from the C library: `snprintf(str + stroff, SMB2_DER_OID_LEN - stroff, ...)`
where `text` is the complete formatted output.  At most `size - 1` characters and a
NUL are stored; the return value is the length of the complete output.  With
`stroff > SMB2_DER_OID_LEN` the `size_t` size wraps around and the destination lies
past the `SMB2_DER_OID_LEN + 1` bytes of `str`. -/
def oid_snprintf (str : List Nat) (stroff : Nat) (text : List Nat) :
    Except Smb2Error (List Nat × Nat) :=
  if stroff > SMB2_DER_OID_LEN then .error .OutOfBoundsWrite
  else
    let size := SMB2_DER_OID_LEN - stroff
    let str := if size = 0 then str else writeAt str stroff (text.take (size - 1) ++ [0])
    .ok (str, stroff + text.length)

/-- The `for (; len > 0; len--)` loop of `smb2_der_get_oid`.  `subid <<= 7` followed by
`subid |= byte & 0x7F` is `subid * 128 + (byte & 0x7F)` on `int`, the low seven bits of
the shifted value being clear. -/
def oid_loop (d_buf : List Nat) :
    Nat → Nat → Int → List Nat → Nat → Except Smb2Error (List Nat × Nat) × Nat
  | 0, d_next, _, str, stroff => (.ok (str, stroff), d_next)
  | len + 1, d_next, subid, str, stroff =>
    let subid := wrapInt32 (subid * 128)
    let subid := subid + ((d_buf.getD d_next 0 &&& 0x7F : Nat) : Int)
    if d_buf.getD d_next 0 &&& 0x80 = 0 then
      let text :=
        if stroff = 0 then fmt_d (subid.tdiv 40) ++ [46] ++ fmt_d (subid.tmod 40) ++ [46]
        else fmt_d subid ++ [46]
      match oid_snprintf str stroff text with
      | .error e => (.error e, d_next)
      | .ok (str, stroff) => oid_loop d_buf len (d_next + 1) 0 str stroff
    else
      oid_loop d_buf len (d_next + 1) subid str stroff

/-- Embedding of `smb2_der_get_oid`.  `heap` is the content of the block
`malloc(SMB2_DER_OID_LEN + 1)` returns, which C leaves unspecified.  The result is
the whole block; the string returned to the caller is its `cstr`. -/
def smb2_der_get_oid (heap : List Nat) (d : smb2_der) : Except Smb2Error (List Nat) × smb2_der :=
  match smb2_der_get_next_id d with
  | .error e => (.error e, d)
  | .ok id =>
    if id ≠ SMB2_DER_OID then (.error .WrongTag, d)
    else
      match smb2_der_extract d with
      | (.error e, d) => (.error e, d)
      | (.ok (_, len), d) =>
        match oid_loop d.d_buf len d.d_next 0 heap 0 with
        | (.error e, d_next) => (.error e, { d with d_next := d_next })
        | (.ok (str, stroff), d_next) =>
          let d := { d with d_next := d_next }
          if stroff > 0 then
            if stroff - 1 > SMB2_DER_OID_LEN then (.error .OutOfBoundsWrite, d)
            else (.ok (str.set (stroff - 1) 0), d)
          else (.ok str, d)

/-- Embedding of `smb2_der_get_general_string`: the result is the block of `len + 1`
bytes holding the payload and a terminating NUL. -/
def smb2_der_get_general_string (d : smb2_der) : Except Smb2Error (List Nat) × smb2_der :=
  match smb2_der_get_next_id d with
  | .error e => (.error e, d)
  | .ok id =>
    if id ≠ SMB2_DER_GENERAL_STRING then (.error .WrongTag, d)
    else
      match smb2_der_extract d with
      | (.error e, d) => (.error e, d)
      | (.ok (_, len), d) =>
        let str := (d.d_buf.drop d.d_next).take len ++ [0]
        (.ok str, { d with d_next := d.d_next + len })

/-- Embedding of `smb2_der_get_whatever`: returns the identifier, the payload address
(as the memory from `&d->d_buf[d->d_next]` onwards) and the length. -/
def smb2_der_get_whatever (d : smb2_der) :
    Except Smb2Error (Nat × List Nat × Nat) × smb2_der :=
  match smb2_der_extract d with
  | (.error e, d) => (.error e, d)
  | (.ok (id, len), d) =>
    (.ok (id, d.d_buf.drop d.d_next, len), { d with d_next := d.d_next + len })

/-- Embedding of `realloc(d->d_buf, n)`: the old content is kept; the bytes added are
unspecified in C and are 0 here. -/
def realloc (buf : List Nat) (n : Nat) : List Nat :=
  buf.take n ++ List.replicate (n - buf.length) 0

/-- The `while (d->d_next + 2 + len > d->d_len)` loop of `smb2_der_add_whatever`, with
`need = d->d_next + 2 + len`.  The first argument bounds the number of iterations;
`need + 1` of them always suffice (`add_whatever_grow_enough`). -/
def add_whatever_grow : Nat → smb2_der → Nat → Except Smb2Error smb2_der
  | 0, d, _ => .ok d
  | fuel + 1, d, need =>
    if need > d.d_len then
      if d.d_own_buf then
        let d := { d with d_len := if d.d_len = 0 then 1 else d.d_len * 2 }
        let d := { d with d_buf := realloc d.d_buf d.d_len }
        add_whatever_grow fuel d need
      else .error .BufferOverflow
    else .ok d

/-- Embedding of `smb2_der_add_whatever`.  The two header bytes and the `len` payload
bytes are stored at consecutive offsets from `d_next`. -/
def smb2_der_add_whatever (d : smb2_der) (id : Nat) (buf : List Nat) (len : Nat) :
    Except Smb2Error smb2_der :=
  match add_whatever_grow (d.d_next + 2 + len + 1) d (d.d_next + 2 + len) with
  | .error e => .error e
  | .ok d =>
    .ok { d with
      d_buf := writeAt d.d_buf d.d_next ([id, len &&& 0x7F] ++ buf.take len)
      d_next := d.d_next + 2 + len }

/-- Embedding of `smb2_der_get_buffer`: the buffer and the number of bytes written. -/
def smb2_der_get_buffer (d : smb2_der) : List Nat × Nat := (d.d_buf, d.d_next)

/-- Embedding of `smb2_der_add_constructed`; without the constructed bit the function
warns and returns, leaving `d` alone. -/
def smb2_der_add_constructed (d c : smb2_der) (id : Nat) : Except Smb2Error smb2_der :=
  if id &&& 0x20 = 0 then .ok d
  else
    let (buf, len) := smb2_der_get_buffer c
    smb2_der_add_whatever d id buf len

/-- Embedding of `smb2_der_add_sequence`. -/
def smb2_der_add_sequence (d c : smb2_der) : Except Smb2Error smb2_der :=
  smb2_der_add_constructed d c SMB2_DER_SEQUENCE

/-- Embedding of `smb2_der_add_general_string`. -/
def smb2_der_add_general_string (d : smb2_der) (str : List Nat) : Except Smb2Error smb2_der :=
  smb2_der_add_whatever d SMB2_DER_GENERAL_STRING str (strlen str)

/-- Embedding of `smb2_der_add_oid`. -/
def smb2_der_add_oid (d : smb2_der) (oid : List Nat) : Except Smb2Error smb2_der :=
  smb2_der_add_general_string d oid

/-- The written bytes of a buffer: the first `len` bytes of what `smb2_der_get_buffer`
exposes. -/
def writtenBytes (d : smb2_der) : List Nat :=
  (smb2_der_get_buffer d).1.take (smb2_der_get_buffer d).2

/-- Well-formedness of an Owned buffer: `d_buf` is an allocation of exactly `d_len`
bytes and the cursor lies inside it. -/
def ownedWf (d : smb2_der) : Prop :=
  d.d_own_buf = true ∧ d.d_buf.length = d.d_len ∧ d.d_next ≤ d.d_len

instance (d : smb2_der) : Decidable (ownedWf d) := by
  unfold ownedWf; exact inferInstance

/-- Encode-then-decode of a general string: `smb2_der_add_general_string` on a fresh
Owned buffer, `smb2_der_get_buffer`, a view over the bytes it exposes, and
`smb2_der_get_general_string` on that view; the result is the C string returned. -/
def generalStringRoundTrip (S : List Nat) : Except Smb2Error (List Nat) :=
  match smb2_der_add_general_string smb2_der_new S with
  | .error e => .error e
  | .ok d =>
    match (smb2_der_get_general_string
        (smb2_der_new_from_buf (smb2_der_get_buffer d).1 (smb2_der_get_buffer d).2)).1 with
    | .error e => .error e
    | .ok str => .ok (cstr str)

/-- The view a decoder gets over the bytes `smb2_der_get_buffer` exposes. -/
def viewOfWritten (d : smb2_der) : smb2_der :=
  smb2_der_new_from_buf (smb2_der_get_buffer d).1 (smb2_der_get_buffer d).2

/-- Builds a SEQUENCE of two OID children: a child buffer with `smb2_der_add_oid` of `a`
then of `b`, wrapped into a fresh parent with `smb2_der_add_sequence`; returns the
parent. -/
def sequenceOfTwoOids (a b : List Nat) : Except Smb2Error smb2_der :=
  match smb2_der_add_oid smb2_der_new a with
  | .error e => .error e
  | .ok c =>
    match smb2_der_add_oid c b with
    | .error e => .error e
    | .ok c => smb2_der_add_sequence smb2_der_new c

/-- Decodes the parent's written bytes with `smb2_der_get_sequence` followed by two
`smb2_der_get_oid` calls on the returned view; returns the two strings and what
`smb2_der_get_next_id` reports on the view afterwards. -/
def decodeTwoOids (heap : List Nat) (p : smb2_der) :
    Except Smb2Error (List Nat × List Nat × Except Smb2Error Nat) :=
  match smb2_der_get_sequence (viewOfWritten p) with
  | (.error e, _) => .error e
  | (.ok c, _) =>
    match smb2_der_get_oid heap c with
    | (.error e, _) => .error e
    | (.ok s1, c) =>
      match smb2_der_get_oid heap c with
      | (.error e, _) => .error e
      | (.ok s2, c) => .ok (cstr s1, cstr s2, smb2_der_get_next_id c)

/-- Same as `decodeTwoOids` with `smb2_der_get_general_string` as the getter of the two
children. -/
def decodeTwoGeneralStrings (p : smb2_der) :
    Except Smb2Error (List Nat × List Nat × Except Smb2Error Nat) :=
  match smb2_der_get_sequence (viewOfWritten p) with
  | (.error e, _) => .error e
  | (.ok c, _) =>
    match smb2_der_get_general_string c with
    | (.error e, _) => .error e
    | (.ok s1, c) =>
      match smb2_der_get_general_string c with
      | (.error e, _) => .error e
      | (.ok s2, c) => .ok (cstr s1, cstr s2, smb2_der_get_next_id c)

/-- A complete base-128 group: bytes with the continuation flag (0x80) set, closed by
one byte with the flag clear. -/
def isGroup : List Nat → Bool
  | [] => false
  | [b] => decide (b < 128)
  | b :: rest => decide (128 ≤ b) && decide (b < 256) && isGroup rest

/-- Value of a run of base-128 bytes read after the accumulated value `acc`: seven bits
per byte, most significant group first. -/
def groupValueFrom (acc : Nat) (g : List Nat) : Nat :=
  g.foldl (fun v b => v * 128 + b % 128) acc

/-- Value of a base-128 group. -/
def groupValue (g : List Nat) : Nat := groupValueFrom 0 g

/-- Dotted components of an OID whose encoded integers are `vs`: the first integer is
split into `v0 div 40` and `v0 mod 40`. -/
def oidComponents : List Nat → List Nat
  | [] => []
  | v :: vs => (v / 40) :: (v % 40) :: vs

/-- Decimal text of the components, each followed by the separator `.` (code 46). -/
def dottedWithSeparators : List Nat → List Nat
  | [] => []
  | c :: cs => fmt_d (c : Int) ++ 46 :: dottedWithSeparators cs

/-- Dotted-decimal text of the components, with no trailing separator. -/
def dottedDecimal : List Nat → List Nat
  | [] => []
  | [c] => fmt_d (c : Int)
  | c :: cs => fmt_d (c : Int) ++ 46 :: dottedDecimal cs

/-- A buffer whose only content is one OID TLV with the given payload. -/
def oidTlv (payload : List Nat) : smb2_der :=
  smb2_der_new_from_buf (SMB2_DER_OID :: payload.length :: payload) (2 + payload.length)

/-- The separator-terminated text of one closed integer of value `v`: the first one
(`stroff = 0`) yields two components. -/
def closedText (stroff v : Nat) : List Nat :=
  if stroff = 0 then dottedWithSeparators [v / 40, v % 40] else dottedWithSeparators [v]

/-- Relation between the block `str` of `smb2_der_get_oid` and the text `R` formatted
so far: `str` has `SMB2_DER_OID_LEN + 1` bytes, `R` has at most `SMB2_DER_OID_LEN`
characters, and `str` holds `R`, possibly short of its 256th character. -/
def oidStrInv (str R : List Nat) : Prop :=
  str.length = SMB2_DER_OID_LEN + 1 ∧ R.length ≤ SMB2_DER_OID_LEN ∧
    str.take (min R.length 255) = R.take 255

/-- Capacity reached from `L` by `j` doublings, a capacity of 0 becoming 1. -/
def doubled (L : Nat) : Nat → Nat
  | 0 => L
  | j + 1 => if doubled L j = 0 then 1 else doubled L j * 2

/-- The cursor invariant of a DER buffer: `d_next ≤ d_len`. -/
def cursorInv (d : smb2_der) : Prop := d.d_next ≤ d.d_len

instance (d : smb2_der) : Decidable (cursorInv d) := by
  unfold cursorInv; exact inferInstance

/-- The encoding of a list of (tag, payload) pairs: each pair as tag byte, length byte
and payload, in order. -/
def tlvBytes : List (Nat × List Nat) → List Nat
  | [] => []
  | (tag, payload) :: rest => tag :: payload.length :: (payload ++ tlvBytes rest)

/-- Appends the pairs in order with `smb2_der_add_whatever`. -/
def addAll : smb2_der → List (Nat × List Nat) → Except Smb2Error smb2_der
  | d, [] => .ok d
  | d, (tag, payload) :: rest =>
    match smb2_der_add_whatever d tag payload payload.length with
    | .error e => .error e
    | .ok d => addAll d rest

/-- Calls `smb2_der_get_whatever` `n` times; returns, for each call, the tag, the `len`
bytes at the payload address and `len`. -/
def getAll : Nat → smb2_der → Except Smb2Error (List (Nat × List Nat × Nat)) × smb2_der
  | 0, d => (.ok [], d)
  | n + 1, d =>
    match smb2_der_get_whatever d with
    | (.error e, d) => (.error e, d)
    | (.ok (id, buf, len), d) =>
      match getAll n d with
      | (.error e, d) => (.error e, d)
      | (.ok items, d) => (.ok ((id, buf.take len, len) :: items), d)

mutual

/-- The `for (;;)` loop of `smb2_der_print_indent`.  The first argument bounds the number
of iterations and nested calls still allowed; `none` means the bound was reached.  The
text printed is not part of the state and is left out.  A child view is `NULL` when
its getter failed: `smb2_der_print_indent(NULL, ...)` reads offset 0, fails in
`smb2_der_get_next_id` and changes nothing.  Every `smb2_der_get_oid` call gets the
block content `heap`. -/
def print_indent_loop (heap : List Nat) : Nat → smb2_der → Option (Except Smb2Error smb2_der)
  | 0, _ => none
  | fuel + 1, d =>
    match smb2_der_get_next_id d with
    | .error _ => some (.ok d)
    | .ok id =>
      if id = SMB2_DER_OID then
        match smb2_der_get_oid heap d with
        | (.error .OutOfBoundsWrite, _) => some (.error .OutOfBoundsWrite)
        | (_, d) => print_indent_loop heap fuel d
      else if id = SMB2_DER_GENERAL_STRING then
        print_indent_loop heap fuel (smb2_der_get_general_string d).2
      else if id = SMB2_DER_SEQUENCE then
        match smb2_der_get_sequence d with
        | (.error _, d) => print_indent_loop heap fuel d
        | (.ok c, d) =>
          match smb2_der_print_indent heap fuel c with
          | none => none
          | some (.error e) => some (.error e)
          | some (.ok _) => print_indent_loop heap fuel d
      else if id &&& 0x20 ≠ 0 then
        match smb2_der_get_constructed d with
        | (.error _, d) => print_indent_loop heap fuel d
        | (.ok (_, c), d) =>
          match smb2_der_print_indent heap fuel c with
          | none => none
          | some (.error e) => some (.error e)
          | some (.ok _) => print_indent_loop heap fuel d
      else
        print_indent_loop heap fuel (smb2_der_get_whatever d).2

/-- Embedding of `smb2_der_print_indent`: the offset is saved, the buffer is walked from
offset 0, and the offset is restored with `smb2_der_set_off`.  The first argument is the
same bound as in `print_indent_loop`. -/
def smb2_der_print_indent (heap : List Nat) :
    Nat → smb2_der → Option (Except Smb2Error smb2_der)
  | 0, _ => none
  | fuel + 1, d =>
    let off := smb2_der_get_off d
    match smb2_der_set_off d 0 with
    | .error e => some (.error e)
    | .ok d =>
      match print_indent_loop heap fuel d with
      | none => none
      | some (.error e) => some (.error e)
      | some (.ok d) => some (smb2_der_set_off d off)

end

/-- Embedding of `smb2_der_print`.  The bound `d_len + 2` always suffices: an iteration
moves the cursor by at least 2 and a child view is shorter than the rest of its
parent. -/
def smb2_der_print (heap : List Nat) (d : smb2_der) : Option (Except Smb2Error smb2_der) :=
  smb2_der_print_indent heap (d.d_len + 2) d

/-! ## smb2_ntlmssp.c -/

/-- Rounds `off` up to a multiple of the alignment `a`. -/
def alignUp (off a : Nat) : Nat := (off + a - 1) / a * a

/-- Offsets of the fields of a C struct, each given as `(alignment, size)`, laid out in
declaration order from `off` with every field at the next multiple of its alignment. -/
def fieldOffsets : Nat → List (Nat × Nat) → List Nat
  | _, [] => []
  | off, (a, sz) :: fs => alignUp off a :: fieldOffsets (alignUp off a + sz) fs

/-- Offset just past the last field. -/
def fieldsEnd : Nat → List (Nat × Nat) → Nat
  | off, [] => off
  | off, (a, sz) :: fs => fieldsEnd (alignUp off a + sz) fs

/-- The value of `sizeof` for a struct: the end of the last field rounded up to the
largest field alignment. -/
def sizeofStruct (fs : List (Nat × Nat)) : Nat :=
  alignUp (fieldsEnd 0 fs) ((fs.map Prod.fst).foldl max 1)

def int64_field : Nat × Nat := (8, 8)

def int32_field : Nat × Nat := (4, 4)

def int16_field : Nat × Nat := (2, 2)

/-- Fields of `struct smb2_ntlmssp_negotiate`, in declaration order. -/
def smb2_ntlmssp_negotiate_fields : List (Nat × Nat) :=
  [int64_field, int32_field, int32_field, int16_field, int16_field, int32_field,
   int16_field, int16_field, int32_field, int64_field]

/-- Fields of `struct smb2_ntlmssp_challenge`, in declaration order. -/
def smb2_ntlmssp_challenge_fields : List (Nat × Nat) :=
  [int64_field, int32_field, int16_field, int16_field, int32_field, int32_field,
   int64_field, int64_field, int16_field, int16_field, int32_field, int64_field]

/-- Fields of `struct smb2_ntlmssp_authenticate`, in declaration order; the last one is
`int8_t na_mic[16]`. -/
def smb2_ntlmssp_authenticate_fields : List (Nat × Nat) :=
  [int64_field, int32_field,
   int16_field, int16_field, int32_field,
   int16_field, int16_field, int32_field,
   int16_field, int16_field, int32_field,
   int16_field, int16_field, int32_field,
   int16_field, int16_field, int32_field,
   int16_field, int16_field, int32_field,
   int32_field, int64_field, (1, 16)]

/-- Value of `sizeof(struct smb2_ntlmssp_negotiate)`. -/
def sizeof_negotiate : Nat := sizeofStruct smb2_ntlmssp_negotiate_fields

/-- Value of `sizeof(struct smb2_ntlmssp_challenge)`. -/
def sizeof_challenge : Nat := sizeofStruct smb2_ntlmssp_challenge_fields

/-- Value of `sizeof(struct smb2_ntlmssp_authenticate)`. -/
def sizeof_authenticate : Nat := sizeofStruct smb2_ntlmssp_authenticate_fields

/-- Offset of `nn_message_type`, `nc_message_type` and `na_message_type` (field 1). -/
def offsetof_message_type : Nat := (fieldOffsets 0 smb2_ntlmssp_negotiate_fields).getD 1 0

/-- Offset of `nn_negotiate_flags` (field 2 of the negotiate record). -/
def offsetof_nn_negotiate_flags : Nat := (fieldOffsets 0 smb2_ntlmssp_negotiate_fields).getD 2 0

/-- Offset of `nc_negotiate_flags` (field 5 of the challenge record). -/
def offsetof_nc_negotiate_flags : Nat := (fieldOffsets 0 smb2_ntlmssp_challenge_fields).getD 5 0

/-- Offset of `na_negotiate_flags` (field 20 of the authenticate record). -/
def offsetof_na_negotiate_flags : Nat :=
  (fieldOffsets 0 smb2_ntlmssp_authenticate_fields).getD 20 0

/-- The first eight bytes of the literal `SMB2_NTLMSSP_SIGNATURE`, `"NTLMSSP\0"`. -/
def SMB2_NTLMSSP_SIGNATURE : List Nat := [78, 84, 76, 77, 83, 83, 80, 0]

def SMB2_NTLMSSP_NEGOTIATE : Nat := 1

def SMB2_NTLMSSP_CHALLENGE : Nat := 2

def SMB2_NTLMSSP_AUTHENTICATE : Nat := 3

def SMB2_NTLMSSP_NEGOTIATE_128 : Nat := 1 <<< 2

def SMB2_NTLMSSP_REQUEST_TARGET : Nat := 1 <<< 29

def SMB2_NTLMSSP_NEGOTIATE_NTLM : Nat := 1 <<< 22

def SMB2_NTLMSSP_NEGOTIATE_ALWAYS_SIGN : Nat := 1 <<< 16

def SMB2_NTLMSSP_NEGOTIATE_UNICODE : Nat := 1 <<< 31

/-- The four bytes of a 32-bit value in memory (little-endian host). -/
def le32 (x : Nat) : List Nat := [x % 256, x / 256 % 256, x / 65536 % 256, x / 16777216 % 256]

/-- The 32-bit pattern held by the four bytes at `off`. -/
def read_le32 (buf : List Nat) (off : Nat) : Nat :=
  buf.getD off 0 + 256 * buf.getD (off + 1) 0 + 65536 * buf.getD (off + 2) 0 +
    16777216 * buf.getD (off + 3) 0

/-- Embedding of `smb2_ntlmssp_make_negotiate`: returns `(*buf, *len)`. -/
def smb2_ntlmssp_make_negotiate (_conn : smb2_connection) : List Nat × Nat :=
  let nn := List.replicate sizeof_negotiate 0
  let nn := writeAt nn 0 (SMB2_NTLMSSP_SIGNATURE.take 8)
  let nn := writeAt nn offsetof_message_type (le32 SMB2_NTLMSSP_NEGOTIATE)
  let nn := writeAt nn offsetof_nn_negotiate_flags
    (le32 (SMB2_NTLMSSP_REQUEST_TARGET ||| SMB2_NTLMSSP_NEGOTIATE_NTLM |||
      SMB2_NTLMSSP_NEGOTIATE_ALWAYS_SIGN ||| SMB2_NTLMSSP_NEGOTIATE_UNICODE))
  (nn, sizeof_negotiate)

/-- Embedding of `smb2_ntlmssp_take_challenge`. -/
def smb2_ntlmssp_take_challenge (conn : smb2_connection) (buf : List Nat) (len : Nat) :
    Except Smb2Error smb2_connection :=
  if len < sizeof_challenge then .error .SizeTooSmall
  else if buf.take 8 ≠ SMB2_NTLMSSP_SIGNATURE.take 8 then .error .SignatureMismatch
  else .ok conn

/-- Embedding of `smb2_ntlmssp_make_authenticate`. -/
def smb2_ntlmssp_make_authenticate (_conn : smb2_connection) : List Nat × Nat :=
  let na := List.replicate sizeof_authenticate 0
  let na := writeAt na 0 (SMB2_NTLMSSP_SIGNATURE.take 8)
  let na := writeAt na offsetof_message_type (le32 SMB2_NTLMSSP_AUTHENTICATE)
  let na := writeAt na offsetof_na_negotiate_flags (le32 0xe2088297)
  (na, sizeof_authenticate)

/-- Embedding of `smb2_ntlmssp_take_negotiate`; on success the flags of the record are
stored on the connection. -/
def smb2_ntlmssp_take_negotiate (conn : smb2_connection) (buf : List Nat) (len : Nat) :
    Except Smb2Error smb2_connection :=
  if len < sizeof_negotiate then .error .SizeTooSmall
  else if buf.take 8 ≠ SMB2_NTLMSSP_SIGNATURE.take 8 then .error .SignatureMismatch
  else .ok { conn with c_ntlmssp_negotiate_flags := read_le32 buf offsetof_nn_negotiate_flags }

/-- Embedding of `smb2_ntlmssp_make_challenge`. -/
def smb2_ntlmssp_make_challenge (_conn : smb2_connection) : List Nat × Nat :=
  let nc := List.replicate sizeof_challenge 0
  let nc := writeAt nc 0 (SMB2_NTLMSSP_SIGNATURE.take 8)
  let nc := writeAt nc offsetof_message_type (le32 SMB2_NTLMSSP_CHALLENGE)
  let nc := writeAt nc offsetof_nc_negotiate_flags
    (le32 (SMB2_NTLMSSP_REQUEST_TARGET ||| SMB2_NTLMSSP_NEGOTIATE_NTLM |||
      SMB2_NTLMSSP_NEGOTIATE_ALWAYS_SIGN ||| SMB2_NTLMSSP_NEGOTIATE_UNICODE))
  (nc, sizeof_challenge)

/-- Embedding of `smb2_ntlmssp_take_authenticate`. -/
def smb2_ntlmssp_take_authenticate (conn : smb2_connection) (buf : List Nat) (len : Nat) :
    Except Smb2Error smb2_connection :=
  if len < sizeof_authenticate then .error .SizeTooSmall
  else if buf.take 8 ≠ SMB2_NTLMSSP_SIGNATURE.take 8 then .error .SignatureMismatch
  else .ok conn

/-! # Theorems -/

/-! ## Credit sequencer -/

theorem wrapInt64_of_isInt64 {x : Int} (h : isInt64 x) : wrapInt64 x = x := by
  unfold isInt64 INT64_MIN INT64_MAX at h
  unfold wrapInt64
  omega

theorem isInt64_wrapInt64 (x : Int) : isInt64 (wrapInt64 x) := by
  unfold isInt64 INT64_MIN INT64_MAX wrapInt64
  omega

theorem next_message_id_empty (conn : smb2_connection)
    (h : conn.c_credits_first = conn.c_credits_after_last) :
    smb2_connection_next_message_id conn = (.error .OutOfCredits, conn) := by
  simp [smb2_connection_next_message_id, h]

theorem next_message_id_nonempty (conn : smb2_connection)
    (h : conn.c_credits_first ≠ conn.c_credits_after_last) :
    smb2_connection_next_message_id conn =
      (.ok conn.c_credits_first,
        { conn with c_credits_first := int64_add conn.c_credits_first 1 }) := by
  simp [smb2_connection_next_message_id, h]

theorem next_message_id_error_iff (conn : smb2_connection) :
    (smb2_connection_next_message_id conn).1 = .error .OutOfCredits ↔
      conn.c_credits_first = conn.c_credits_after_last := by
  by_cases h : conn.c_credits_first = conn.c_credits_after_last
  · simp [next_message_id_empty conn h, h]
  · simp [next_message_id_nonempty conn h, h]

/-- Claim C1.  `smb2_connection_next_message_id` fails with `OutOfCredits` exactly
when `first == afterLast`, and then leaves the connection untouched; in every
other state it returns the old `first`, stores the `int64_t` increment of `first`
and changes no other field.  The increment is `first + 1` for every `first` below
`INT64_MAX`. -/
theorem next_message_id_contract (conn : smb2_connection) :
    ((smb2_connection_next_message_id conn).1 = .error .OutOfCredits ↔
        conn.c_credits_first = conn.c_credits_after_last) ∧
    (conn.c_credits_first = conn.c_credits_after_last →
        (smb2_connection_next_message_id conn).2 = conn) ∧
    (conn.c_credits_first ≠ conn.c_credits_after_last →
        (smb2_connection_next_message_id conn).1 = .ok conn.c_credits_first ∧
        (smb2_connection_next_message_id conn).2 =
          { conn with c_credits_first := int64_add conn.c_credits_first 1 }) ∧
    (isInt64 conn.c_credits_first → conn.c_credits_first ≠ INT64_MAX →
        int64_add conn.c_credits_first 1 = conn.c_credits_first + 1) := by
  refine ⟨next_message_id_error_iff conn, ?_, ?_, ?_⟩
  · intro h
    rw [next_message_id_empty conn h]
  · intro h
    rw [next_message_id_nonempty conn h]
    exact ⟨rfl, rfl⟩
  · intro hr hm
    unfold isInt64 INT64_MIN INT64_MAX at hr
    unfold INT64_MAX at hm
    unfold int64_add wrapInt64
    omega

/-- Claim C1 at two states: an empty window `[5,5)` and the window `[5,9)`. -/
theorem next_message_id_contract_witness :
    smb2_connection_next_message_id ⟨3, 5, 5, 0⟩ = (.error .OutOfCredits, ⟨3, 5, 5, 0⟩) ∧
    smb2_connection_next_message_id ⟨3, 5, 9, 0⟩ = (.ok 5, ⟨3, 6, 9, 0⟩) ∧
    ((smb2_connection_next_message_id ⟨3, 5, 9, 0⟩).1 = .error .OutOfCredits ↔ (5 : Int) = 9) :=
  ⟨by decide, by decide, (next_message_id_contract ⟨3, 5, 9, 0⟩).1⟩

theorem runCreditOps_append (conn : smb2_connection) (pre post : List CreditOp) :
    runCreditOps conn (pre ++ post) =
      ((runCreditOps (runCreditOps conn pre).1 post).1,
       (runCreditOps conn pre).2 ++ (runCreditOps (runCreditOps conn pre).1 post).2) := by
  induction pre generalizing conn with
  | nil => simp [runCreditOps]
  | cons op pre ih =>
    cases op with
    | add n => simp [runCreditOps, ih]
    | next => simp [runCreditOps, ih]

theorem grantedCredits_append (pre post : List CreditOp) :
    grantedCredits (pre ++ post) = grantedCredits pre + grantedCredits post := by
  induction pre with
  | nil => simp [grantedCredits]
  | cons op pre ih =>
    cases op with
    | add n => simp [grantedCredits, ih]; omega
    | next => simp [grantedCredits, ih]

theorem grantsNonneg_append (pre post : List CreditOp) :
    grantsNonneg (pre ++ post) ↔ grantsNonneg pre ∧ grantsNonneg post := by
  induction pre with
  | nil => simp [grantsNonneg]
  | cons op pre ih =>
    cases op with
    | add n => simp [grantsNonneg, ih, and_assoc]
    | next => simp [grantsNonneg, ih]

theorem grantedCredits_nonneg (ops : List CreditOp) (h : grantsNonneg ops) :
    0 ≤ grantedCredits ops := by
  induction ops with
  | nil => simp [grantedCredits]
  | cons op ops ih =>
    cases op with
    | add n =>
      simp only [grantsNonneg] at h
      have := ih h.2
      simp only [grantedCredits]
      omega
    | next => exact ih h

/-- State reached by an overflow-free run: `first` has moved by the number of ids
issued, `afterLast` by the credits granted, and the ids issued are consecutive. -/
theorem runCreditOps_state (ops : List CreditOp) :
    ∀ conn : smb2_connection, creditsInRange conn → creditInv conn → grantsNonneg ops →
      conn.c_credits_after_last + grantedCredits ops ≤ INT64_MAX →
      (runCreditOps conn ops).1.c_credits_first =
          conn.c_credits_first + ((issuedIds (runCreditOps conn ops).2).length : Int) ∧
      (runCreditOps conn ops).1.c_credits_after_last =
          conn.c_credits_after_last + grantedCredits ops ∧
      creditsInRange (runCreditOps conn ops).1 ∧ creditInv (runCreditOps conn ops).1 ∧
      issuedIds (runCreditOps conn ops).2 =
        (List.range (issuedIds (runCreditOps conn ops).2).length).map
          (fun (i : Nat) => conn.c_credits_first + (i : Int)) := by
  induction ops with
  | nil =>
    intro conn hr hi _ _
    simp [runCreditOps, issuedIds, grantedCredits, hr, hi]
  | cons op ops ih =>
    intro conn hr hi hn hb
    cases op with
    | add n =>
      simp only [grantsNonneg] at hn
      simp only [grantedCredits] at hb
      have hg := grantedCredits_nonneg ops hn.2
      have hadd : int64_add conn.c_credits_after_last n = conn.c_credits_after_last + n := by
        have h1 := hr.2
        unfold isInt64 INT64_MIN INT64_MAX at h1
        unfold INT64_MAX at hb
        unfold int64_add wrapInt64
        omega
      have hr' : creditsInRange (smb2_connection_add_credits conn n) := by
        refine ⟨hr.1, ?_⟩
        show isInt64 (int64_add conn.c_credits_after_last n)
        exact isInt64_wrapInt64 _
      have hi' : creditInv (smb2_connection_add_credits conn n) := by
        show conn.c_credits_first ≤ int64_add conn.c_credits_after_last n
        rw [hadd]
        have := hi
        unfold creditInv at this
        omega
      have hb' : (smb2_connection_add_credits conn n).c_credits_after_last + grantedCredits ops
          ≤ INT64_MAX := by
        show int64_add conn.c_credits_after_last n + grantedCredits ops ≤ INT64_MAX
        rw [hadd]; omega
      have := ih (smb2_connection_add_credits conn n) hr' hi' hn.2 hb'
      have e1 : (smb2_connection_add_credits conn n).c_credits_first = conn.c_credits_first := rfl
      have e2 : (smb2_connection_add_credits conn n).c_credits_after_last =
          conn.c_credits_after_last + n := hadd
      rw [e1, e2] at this
      simp only [runCreditOps, grantedCredits]
      refine ⟨this.1, ?_, this.2.2.1, this.2.2.2.1, this.2.2.2.2⟩
      rw [this.2.1]; omega
    | next =>
      simp only [grantsNonneg] at hn
      simp only [grantedCredits] at hb
      have hg := grantedCredits_nonneg ops hn
      by_cases heq : conn.c_credits_first = conn.c_credits_after_last
      · have hstep : smb2_connection_next_message_id conn = (.error .OutOfCredits, conn) := by
          simp [smb2_connection_next_message_id, heq]
        have := ih conn hr hi hn hb
        simp only [runCreditOps, hstep, issuedIds, grantedCredits]
        exact this
      · have hlt : conn.c_credits_first < conn.c_credits_after_last := by
          have := hi
          unfold creditInv at this
          omega
        have hinc : int64_add conn.c_credits_first 1 = conn.c_credits_first + 1 := by
          have h1 := hr.1
          have h2 := hr.2
          unfold isInt64 INT64_MIN INT64_MAX at h1 h2
          unfold int64_add wrapInt64
          omega
        have hstep : smb2_connection_next_message_id conn =
            (.ok conn.c_credits_first,
              { conn with c_credits_first := conn.c_credits_first + 1 }) := by
          simp [smb2_connection_next_message_id, heq, hinc]
        have hr' : creditsInRange { conn with c_credits_first := conn.c_credits_first + 1 } := by
          refine ⟨?_, hr.2⟩
          show isInt64 (conn.c_credits_first + 1)
          have h1 := hr.1
          have h2 := hr.2
          unfold isInt64 INT64_MIN INT64_MAX at h1 h2 ⊢
          omega
        have hi' : creditInv { conn with c_credits_first := conn.c_credits_first + 1 } := by
          show conn.c_credits_first + 1 ≤ conn.c_credits_after_last
          omega
        have := ih { conn with c_credits_first := conn.c_credits_first + 1 } hr' hi' hn hb
        simp only [runCreditOps, hstep, issuedIds, grantedCredits, List.length_cons]
        simp only at this
        refine ⟨?_, this.2.1, this.2.2.1, this.2.2.2.1, ?_⟩
        · rw [this.1]; push_cast; omega
        · rw [List.range_succ_eq_map, List.map_cons, List.map_map]
          congr 1
          · simp
          · rw [this.2.2.2.2]
            simp only [List.length_map, List.length_range]
            apply List.map_congr_left
            intro i _
            simp only [Function.comp]
            push_cast
            omega

/-- Claim C2, as stated, fails once the granted credits leave the `int64_t` range:
from the window `[0,0)` three non-negative grants adding up to `2^64` bring
`afterLast` back to `0`, and the next call fails with `OutOfCredits` although no
id has been issued and `2^64` credits were granted. -/
theorem credit_sequence_overflow_counterexample :
    (0 : Int) ≤ 0 ∧
    grantsNonneg [.add 9223372036854775807, .add 9223372036854775807, .add 2] ∧
    (smb2_connection_next_message_id
      (runCreditOps ⟨0, 0, 0, 0⟩
        [.add 9223372036854775807, .add 9223372036854775807, .add 2]).1).1
      = .error .OutOfCredits ∧
    ((issuedIds (runCreditOps ⟨0, 0, 0, 0⟩
        [.add 9223372036854775807, .add 9223372036854775807, .add 2]).2).length : Int) ≠
      (0 - 0) + grantedCredits [.add 9223372036854775807, .add 9223372036854775807, .add 2] := by
  decide

/-- Claim C2 (amended).  For every credit window `[f, a)` of `int64_t` values with
`f ≤ a` and every sequence of `addCredits(n)` (`n ≥ 0`) and `nextMessageId` calls
whose grants keep `a + granted` within `INT64_MAX`: the `i`-th successful call
returns `f + i`, no id is issued twice, and a `nextMessageId` call (the one after
any prefix `pre` of the sequence) fails with `OutOfCredits` exactly when the number
of ids already issued equals `(a - f)` plus the credits granted so far; otherwise it
returns `f` plus the number of ids already issued. -/
theorem credit_sequence_ids (fd : Int) (flags : Nat) (f a : Int) (ops : List CreditOp)
    (hf : isInt64 f) (ha : isInt64 a) (hfa : f ≤ a) (hn : grantsNonneg ops)
    (hb : a + grantedCredits ops ≤ INT64_MAX) :
    (∀ i (h : i < (issuedIds (runCreditOps ⟨fd, f, a, flags⟩ ops).2).length),
        (issuedIds (runCreditOps ⟨fd, f, a, flags⟩ ops).2).get ⟨i, h⟩ = f + (i : Int)) ∧
    (issuedIds (runCreditOps ⟨fd, f, a, flags⟩ ops).2).Nodup ∧
    (∀ pre post, ops = pre ++ CreditOp.next :: post →
      (runCreditOps ⟨fd, f, a, flags⟩ ops).2 =
        (runCreditOps ⟨fd, f, a, flags⟩ pre).2 ++
          (smb2_connection_next_message_id (runCreditOps ⟨fd, f, a, flags⟩ pre).1).1 ::
          (runCreditOps
            (smb2_connection_next_message_id (runCreditOps ⟨fd, f, a, flags⟩ pre).1).2 post).2 ∧
      ((smb2_connection_next_message_id (runCreditOps ⟨fd, f, a, flags⟩ pre).1).1
          = .error .OutOfCredits ↔
        ((issuedIds (runCreditOps ⟨fd, f, a, flags⟩ pre).2).length : Int) =
          (a - f) + grantedCredits pre) ∧
      (((issuedIds (runCreditOps ⟨fd, f, a, flags⟩ pre).2).length : Int) ≠
          (a - f) + grantedCredits pre →
        (smb2_connection_next_message_id (runCreditOps ⟨fd, f, a, flags⟩ pre).1).1 =
          .ok (f + ((issuedIds (runCreditOps ⟨fd, f, a, flags⟩ pre).2).length : Int)))) := by
  have hmain := runCreditOps_state ops ⟨fd, f, a, flags⟩ ⟨hf, ha⟩ hfa hn hb
  have hids := hmain.2.2.2.2
  simp only at hids
  refine ⟨?_, ?_, ?_⟩
  · intro i h
    have hget : ∀ (l l' : List Int) (e : l = l') (j : Nat) (hj : j < l.length),
        l.get ⟨j, hj⟩ = l'.get ⟨j, by rw [← e]; exact hj⟩ := by
      intro l l' e j hj; subst e; rfl
    rw [hget _ _ hids i h]
    simp
  · rw [hids]
    apply List.Nodup.map
    · intro x y hxy
      simp only at hxy
      omega
    · exact List.nodup_range _
  · intro pre post hsplit
    subst hsplit
    have hnp := (grantsNonneg_append pre (CreditOp.next :: post)).1 hn
    have hpost : grantsNonneg post := hnp.2
    have hgp := grantedCredits_nonneg post hpost
    have hbp : a + grantedCredits pre ≤ INT64_MAX := by
      rw [grantedCredits_append] at hb
      simp only [grantedCredits] at hb
      omega
    have hpre := runCreditOps_state pre ⟨fd, f, a, flags⟩ ⟨hf, ha⟩ hfa hnp.1 hbp
    simp only at hpre
    refine ⟨?_, ?_, ?_⟩
    · rw [runCreditOps_append]
      simp [runCreditOps]
    · have h1 := next_message_id_error_iff (runCreditOps ⟨fd, f, a, flags⟩ pre).1
      rw [h1, hpre.1, hpre.2.1]
      constructor <;> intro h <;> omega
    · intro hne
      have hne' : (runCreditOps ⟨fd, f, a, flags⟩ pre).1.c_credits_first ≠
          (runCreditOps ⟨fd, f, a, flags⟩ pre).1.c_credits_after_last := by
        rw [hpre.1, hpre.2.1]
        omega
      rw [next_message_id_nonempty _ hne', hpre.1]

/-- Claim C2 (amended) at the window `[0,2)`: the calls yield `0`, `1`, then
`OutOfCredits`; after `addCredits(1)` one further call succeeds, returning `2`, and
the next one fails. -/
theorem credit_sequence_ids_witness :
    runCreditOps ⟨0, 0, 2, 0⟩ [.next, .next, .next, .add 1, .next, .next] =
      (⟨0, 3, 3, 0⟩, [.ok 0, .ok 1, .error .OutOfCredits, .ok 2, .error .OutOfCredits]) ∧
    (issuedIds (runCreditOps ⟨0, 0, 2, 0⟩
      [.next, .next, .next, .add 1, .next, .next]).2).Nodup :=
  ⟨by decide,
   (credit_sequence_ids 0 0 0 2 [.next, .next, .next, .add 1, .next, .next]
      (by decide) (by decide) (by decide) (by decide) (by decide)).2.1⟩

/-- Claim C3, as stated, fails for a negative grant: the window `[0,0)` satisfies
`first ≤ afterLast`, and after `addCredits(-1)` it is `[0,-1)`.  It also fails for a
grant that overflows: `[0, INT64_MAX)` becomes `[0, INT64_MIN)` after `addCredits(1)`. -/
theorem credit_invariant_counterexample :
    creditInv ⟨0, 0, 0, 0⟩ ∧ ¬ creditInv (smb2_connection_add_credits ⟨0, 0, 0, 0⟩ (-1)) ∧
    creditInv ⟨0, 0, 9223372036854775807, 0⟩ ∧
    ¬ creditInv (smb2_connection_add_credits ⟨0, 0, 9223372036854775807, 0⟩ 1) := by
  decide

/-- Claim C3 (amended).  For every connection state of `int64_t` fields satisfying
`first ≤ afterLast`: the state after `addCredits(n)` with `n ≥ 0` and
`afterLast + n ≤ INT64_MAX` still satisfies it, and so does the state after
`nextMessageId`, whether the call succeeds or fails.  Both keep the fields in range. -/
theorem credit_invariant_preserved (conn : smb2_connection) (n : Int)
    (hr : creditsInRange conn) (hi : creditInv conn) (hn : 0 ≤ n)
    (hb : conn.c_credits_after_last + n ≤ INT64_MAX) :
    creditInv (smb2_connection_add_credits conn n) ∧
    creditsInRange (smb2_connection_add_credits conn n) ∧
    creditInv (smb2_connection_next_message_id conn).2 ∧
    creditsInRange (smb2_connection_next_message_id conn).2 := by
  have h1 := hr.1
  have h2 := hr.2
  have h3 := hi
  unfold isInt64 INT64_MIN INT64_MAX at h1 h2
  unfold creditInv at h3
  unfold INT64_MAX at hb
  have hadd : int64_add conn.c_credits_after_last n = conn.c_credits_after_last + n := by
    unfold int64_add wrapInt64
    omega
  refine ⟨?_, ⟨hr.1, isInt64_wrapInt64 _⟩, ?_, ?_⟩
  · show conn.c_credits_first ≤ int64_add conn.c_credits_after_last n
    rw [hadd]; omega
  · by_cases heq : conn.c_credits_first = conn.c_credits_after_last
    · rw [next_message_id_empty conn heq]; exact hi
    · rw [next_message_id_nonempty conn heq]
      show int64_add conn.c_credits_first 1 ≤ conn.c_credits_after_last
      unfold int64_add wrapInt64
      omega
  · by_cases heq : conn.c_credits_first = conn.c_credits_after_last
    · rw [next_message_id_empty conn heq]; exact hr
    · rw [next_message_id_nonempty conn heq]
      exact ⟨isInt64_wrapInt64 _, hr.2⟩

/-- Claim C3 (amended) at the window `[4,6)` with a grant of `3`. -/
theorem credit_invariant_preserved_witness :
    creditInv (smb2_connection_add_credits ⟨0, 4, 6, 0⟩ 3) ∧
    creditsInRange (smb2_connection_add_credits ⟨0, 4, 6, 0⟩ 3) ∧
    creditInv (smb2_connection_next_message_id ⟨0, 4, 6, 0⟩).2 ∧
    creditsInRange (smb2_connection_next_message_id ⟨0, 4, 6, 0⟩).2 :=
  credit_invariant_preserved ⟨0, 4, 6, 0⟩ 3 (by decide) (by decide) (by decide) (by decide)

/-! ## DER codec: header extraction -/

theorem and_pow_two_eq (b i : Nat) : b &&& 2 ^ i = if b / 2 ^ i % 2 = 1 then 2 ^ i else 0 := by
  rw [Nat.and_comm, Nat.two_pow_and, Nat.testBit_to_div_mod]
  by_cases h : b / 2 ^ i % 2 = 1 <;> simp [h]

theorem and_0x80_eq_zero_iff (b : Nat) : b &&& 0x80 = 0 ↔ b % 256 < 128 := by
  have h := and_pow_two_eq b 7
  norm_num at h
  rw [h]
  split <;> omega

theorem and_0x20_eq_zero_iff (b : Nat) : b &&& 0x20 = 0 ↔ b / 32 % 2 = 0 := by
  have h := and_pow_two_eq b 5
  norm_num at h
  rw [h]
  split <;> omega

theorem and_0x7F_eq (b : Nat) : b &&& 0x7F = b % 128 :=
  Nat.and_pow_two_sub_one_eq_mod b 7

theorem get_next_id_ok (d : smb2_der) (h : d.d_next + 2 ≤ d.d_len) :
    smb2_der_get_next_id d = .ok (d.d_buf.getD d.d_next 0) := by
  unfold smb2_der_get_next_id
  have h1 : d.d_next ≠ d.d_len := by omega
  have h2 : ¬ d.d_next + 2 > d.d_len := by omega
  rw [if_neg h1, if_neg h2]

theorem get_next_id_short (d : smb2_der) (h : d.d_len < d.d_next + 2) :
    smb2_der_get_next_id d =
      .error (if d.d_next = d.d_len then Smb2Error.EndOfData else Smb2Error.Truncated) := by
  unfold smb2_der_get_next_id
  by_cases h1 : d.d_next = d.d_len
  · rw [if_pos h1, if_pos h1]
  · have h2 : d.d_next + 2 > d.d_len := by omega
    rw [if_neg h1, if_pos h2, if_neg h1]

theorem extract_short (d : smb2_der) (h : d.d_len < d.d_next + 2) :
    smb2_der_extract d =
      (.error (if d.d_next = d.d_len then Smb2Error.EndOfData else Smb2Error.Truncated), d) := by
  unfold smb2_der_extract
  rw [get_next_id_short d h]

theorem extract_long (d : smb2_der) (h : d.d_next + 2 ≤ d.d_len)
    (hl : d.d_buf.getD (d.d_next + 1) 0 &&& 0x80 ≠ 0) :
    smb2_der_extract d = (.error .UnsupportedLongLength, { d with d_next := d.d_next + 2 }) := by
  unfold smb2_der_extract
  rw [get_next_id_ok d h]
  simp only [hl, ne_eq, not_false_eq_true, if_true]

theorem extract_truncated (d : smb2_der) (h : d.d_next + 2 ≤ d.d_len)
    (hl : d.d_buf.getD (d.d_next + 1) 0 &&& 0x80 = 0)
    (ht : d.d_len < d.d_next + 2 + (d.d_buf.getD (d.d_next + 1) 0 &&& 0x7F)) :
    smb2_der_extract d = (.error .Truncated, { d with d_next := d.d_next + 2 }) := by
  unfold smb2_der_extract
  rw [get_next_id_ok d h]
  have ht' : d.d_next + 2 + (d.d_buf.getD (d.d_next + 1) 0 &&& 0x7F) > d.d_len := ht
  simp only [hl, ne_eq, not_true_eq_false, if_false, ht', if_true]

theorem extract_ok (d : smb2_der) (h : d.d_next + 2 ≤ d.d_len)
    (hl : d.d_buf.getD (d.d_next + 1) 0 &&& 0x80 = 0)
    (ht : d.d_next + 2 + (d.d_buf.getD (d.d_next + 1) 0 &&& 0x7F) ≤ d.d_len) :
    smb2_der_extract d =
      (.ok (d.d_buf.getD d.d_next 0, d.d_buf.getD (d.d_next + 1) 0 &&& 0x7F),
        { d with d_next := d.d_next + 2 }) := by
  unfold smb2_der_extract
  rw [get_next_id_ok d h]
  have ht' : ¬ d.d_next + 2 + (d.d_buf.getD (d.d_next + 1) 0 &&& 0x7F) > d.d_len := by omega
  simp only [hl, ne_eq, not_true_eq_false, if_false, ht']

theorem short_form_length (b : Nat) (hb : b < 256) (hl : b &&& 0x80 = 0) :
    b &&& 0x7F = b ∧ b ≤ 127 := by
  have h1 := (and_0x80_eq_zero_iff b).1 hl
  rw [and_0x7F_eq]
  omega

/-- Claim C6.  `smb2_der_extract` succeeds exactly when at least 2 bytes remain at the
cursor, the length byte has its high bit clear, and cursor + 2 + length byte does not
exceed the buffer length; it then returns the tag byte and the length byte (at most
127) and advances the cursor by exactly 2.  With at least 2 bytes remaining, a length
byte with the high bit set is rejected with `UnsupportedLongLength`, and one with the
high bit clear whose payload exceeds the remaining bytes with `Truncated`. -/
theorem extract_contract (d : smb2_der) (hbyte : d.d_buf.getD (d.d_next + 1) 0 < 256) :
    ((∃ r, (smb2_der_extract d).1 = .ok r) ↔
      (d.d_next + 2 ≤ d.d_len ∧ d.d_buf.getD (d.d_next + 1) 0 &&& 0x80 = 0 ∧
        d.d_next + 2 + d.d_buf.getD (d.d_next + 1) 0 ≤ d.d_len)) ∧
    ((d.d_next + 2 ≤ d.d_len ∧ d.d_buf.getD (d.d_next + 1) 0 &&& 0x80 = 0 ∧
        d.d_next + 2 + d.d_buf.getD (d.d_next + 1) 0 ≤ d.d_len) →
      smb2_der_extract d =
        (.ok (d.d_buf.getD d.d_next 0, d.d_buf.getD (d.d_next + 1) 0),
          { d with d_next := d.d_next + 2 }) ∧
      d.d_buf.getD (d.d_next + 1) 0 ≤ 127) ∧
    (d.d_next + 2 ≤ d.d_len → d.d_buf.getD (d.d_next + 1) 0 &&& 0x80 ≠ 0 →
      (smb2_der_extract d).1 = .error .UnsupportedLongLength) ∧
    (d.d_next + 2 ≤ d.d_len → d.d_buf.getD (d.d_next + 1) 0 &&& 0x80 = 0 →
      d.d_len < d.d_next + 2 + d.d_buf.getD (d.d_next + 1) 0 →
      (smb2_der_extract d).1 = .error .Truncated) := by
  have hok : (d.d_next + 2 ≤ d.d_len ∧ d.d_buf.getD (d.d_next + 1) 0 &&& 0x80 = 0 ∧
        d.d_next + 2 + d.d_buf.getD (d.d_next + 1) 0 ≤ d.d_len) →
      smb2_der_extract d =
        (.ok (d.d_buf.getD d.d_next 0, d.d_buf.getD (d.d_next + 1) 0),
          { d with d_next := d.d_next + 2 }) ∧
      d.d_buf.getD (d.d_next + 1) 0 ≤ 127 := by
    rintro ⟨h, hl, ht⟩
    have hs := short_form_length _ hbyte hl
    have := extract_ok d h hl (by rw [hs.1]; exact ht)
    rw [hs.1] at this
    exact ⟨this, hs.2⟩
  refine ⟨⟨?_, fun h => ⟨_, by rw [(hok h).1]⟩⟩, hok, ?_, ?_⟩
  · rintro ⟨r, hr⟩
    by_cases h : d.d_next + 2 ≤ d.d_len
    · by_cases hl : d.d_buf.getD (d.d_next + 1) 0 &&& 0x80 = 0
      · have hs := short_form_length _ hbyte hl
        by_cases ht : d.d_next + 2 + d.d_buf.getD (d.d_next + 1) 0 ≤ d.d_len
        · exact ⟨h, hl, ht⟩
        · rw [extract_truncated d h hl (by rw [hs.1]; omega)] at hr
          cases hr
      · rw [extract_long d h hl] at hr
        cases hr
    · rw [extract_short d (by omega)] at hr
      cases hr
  · intro h hl
    rw [extract_long d h hl]
  · intro h hl ht
    have hs := short_form_length _ hbyte hl
    rw [extract_truncated d h hl (by rw [hs.1]; exact ht)]

/-- Claim C6 on three buffers: a well-formed TLV, a length byte of `0x80`, and a
length byte of 5 with only 2 payload bytes left. -/
theorem extract_contract_witness :
    smb2_der_extract (smb2_der_new_from_buf [0x04, 2, 7, 9] 4) =
      (.ok (0x04, 2), { smb2_der_new_from_buf [0x04, 2, 7, 9] 4 with d_next := 2 }) ∧
    (smb2_der_extract (smb2_der_new_from_buf [0x04, 0x80, 7, 9] 4)).1
      = .error .UnsupportedLongLength ∧
    (smb2_der_extract (smb2_der_new_from_buf [0x04, 5, 7, 9] 4)).1 = .error .Truncated :=
  ⟨((extract_contract (smb2_der_new_from_buf [0x04, 2, 7, 9] 4) (by decide)).2.1
      (by decide)).1,
   (extract_contract (smb2_der_new_from_buf [0x04, 0x80, 7, 9] 4) (by decide)).2.2.1
      (by decide) (by decide),
   (extract_contract (smb2_der_new_from_buf [0x04, 5, 7, 9] 4) (by decide)).2.2.2
      (by decide) (by decide) (by decide)⟩

/-! ## DER codec: appending a TLV -/

theorem realloc_of_le (buf : List Nat) (n : Nat) (h : buf.length ≤ n) :
    realloc buf n = buf ++ List.replicate (n - buf.length) 0 := by
  unfold realloc
  rw [List.take_of_length_le h]

theorem length_realloc (buf : List Nat) (n : Nat) (h : buf.length ≤ n) :
    (realloc buf n).length = n := by
  rw [realloc_of_le buf n h]
  simp
  omega

theorem add_whatever_grow_fits (fuel : Nat) (d : smb2_der) (need : Nat) (h : need ≤ d.d_len) :
    add_whatever_grow fuel d need = .ok d := by
  cases fuel with
  | zero => rfl
  | succ fuel =>
    unfold add_whatever_grow
    have : ¬ need > d.d_len := by omega
    rw [if_neg this]

theorem add_whatever_grow_borrowed (fuel : Nat) (d : smb2_der) (need : Nat)
    (h : d.d_len < need) (hown : d.d_own_buf = false) :
    add_whatever_grow (fuel + 1) d need = .error .BufferOverflow := by
  unfold add_whatever_grow
  have : need > d.d_len := h
  rw [if_pos this]
  simp [hown]

/-- The growth loop of an Owned buffer ends, within the iterations allotted, with a
capacity that fits `need`; the old content is kept. -/
theorem add_whatever_grow_enough (fuel : Nat) :
    ∀ (d : smb2_der) (need : Nat), d.d_own_buf = true → d.d_buf.length = d.d_len →
      need < fuel + d.d_len →
      ∃ d', add_whatever_grow fuel d need = .ok d' ∧ need ≤ d'.d_len ∧
        d'.d_buf.length = d'.d_len ∧ d'.d_next = d.d_next ∧ d'.d_own_buf = true ∧
        d'.d_buf.take d.d_len = d.d_buf ∧ d.d_len ≤ d'.d_len := by
  induction fuel with
  | zero =>
    intro d need hown hlen hf
    refine ⟨d, rfl, by omega, hlen, rfl, hown, ?_, le_refl _⟩
    rw [← hlen, List.take_length]
  | succ fuel ih =>
    intro d need hown hlen hf
    by_cases hfit : need ≤ d.d_len
    · refine ⟨d, add_whatever_grow_fits _ d need hfit, hfit, hlen, rfl, hown, ?_, le_refl _⟩
      rw [← hlen, List.take_length]
    · have hgt : need > d.d_len := by omega
      have hnew : d.d_len + 1 ≤ (if d.d_len = 0 then 1 else d.d_len * 2) := by
        split <;> omega
      have hle : d.d_buf.length ≤ (if d.d_len = 0 then 1 else d.d_len * 2) := by
        rw [hlen]; omega
      obtain ⟨d', h1, h2, h3, h4, h5, h6, h7⟩ :=
        ih { d with d_len := if d.d_len = 0 then 1 else d.d_len * 2,
                    d_buf := realloc d.d_buf (if d.d_len = 0 then 1 else d.d_len * 2) }
          need hown (length_realloc _ _ hle) (by simp only; omega)
      refine ⟨d', ?_, h2, h3, h4, h5, ?_, ?_⟩
      · rw [add_whatever_grow, if_pos hgt, if_pos hown]
        exact h1
      · simp only at h6
        have : d'.d_buf.take d.d_len =
            (d'.d_buf.take (if d.d_len = 0 then 1 else d.d_len * 2)).take d.d_len := by
          rw [List.take_take]
          congr 1
          omega
        rw [this, h6, realloc_of_le _ _ hle, ← hlen, List.take_left']
        rfl
      · simp only at h7
        omega

theorem writeAt_take (buf : List Nat) (off : Nat) (data : List Nat) (h : off ≤ buf.length) :
    (writeAt buf off data).take (off + data.length) = buf.take off ++ data := by
  unfold writeAt
  have h1 : (buf.take off ++ data).length = off + data.length := by
    simp [List.length_take, Nat.min_eq_left h]
  rw [← h1, List.take_left']
  rfl

theorem length_writeAt (buf : List Nat) (off : Nat) (data : List Nat)
    (h : off + data.length ≤ buf.length) :
    (writeAt buf off data).length = buf.length := by
  unfold writeAt
  simp [List.length_take, List.length_drop]
  omega

/-- Effect of `smb2_der_add_whatever` on an Owned buffer: the call returns, the cursor
moves by `2 + len`, and the written bytes are extended by the tag, the byte
`len & 0x7F` and the payload. -/
theorem add_whatever_owned (d : smb2_der) (id : Nat) (buf : List Nat) (len : Nat)
    (hwf : ownedWf d) (hlen : len ≤ buf.length) :
    ∃ d', smb2_der_add_whatever d id buf len = .ok d' ∧ ownedWf d' ∧
      d'.d_next = d.d_next + 2 + len ∧
      writtenBytes d' = writtenBytes d ++ [id, len &&& 0x7F] ++ buf.take len := by
  obtain ⟨hown, hbl, hnext⟩ := hwf
  obtain ⟨g, h1, h2, h3, h4, h5, h6, h7⟩ :=
    add_whatever_grow_enough (d.d_next + 2 + len + 1) d (d.d_next + 2 + len) hown hbl (by omega)
  have hdata : ([id, len &&& 0x7F] ++ buf.take len).length = 2 + len := by
    simp [List.length_take, Nat.min_eq_left hlen]
    omega
  refine ⟨{ g with
      d_buf := writeAt g.d_buf g.d_next ([id, len &&& 0x7F] ++ buf.take len)
      d_next := g.d_next + 2 + len },
    by unfold smb2_der_add_whatever; rw [h1], ⟨h5, ?_, ?_⟩, ?_, ?_⟩
  · show (writeAt g.d_buf g.d_next _).length = g.d_len
    rw [length_writeAt _ _ _ (by rw [hdata, h3, h4]; omega), h3]
  · show g.d_next + 2 + len ≤ g.d_len
    rw [h4]; exact h2
  · show g.d_next + 2 + len = d.d_next + 2 + len
    rw [h4]
  · show (writeAt g.d_buf g.d_next _).take (g.d_next + 2 + len) = _
    have e : g.d_next + 2 + len = g.d_next + ([id, len &&& 0x7F] ++ buf.take len).length := by
      rw [hdata]; omega
    rw [e, writeAt_take _ _ _ (by rw [h3, h4]; omega), h4]
    have hpre : g.d_buf.take d.d_next = d.d_buf.take d.d_next := by
      have : g.d_buf.take d.d_next = (g.d_buf.take d.d_len).take d.d_next := by
        rw [List.take_take]
        congr 1
        omega
      rw [this, h6]
    rw [hpre]
    simp [writtenBytes, smb2_der_get_buffer]

/-! ## DER codec: general strings -/

theorem cstr_append_nul (S rest : List Nat) (h : ∀ b ∈ S, b ≠ 0) :
    cstr (S ++ 0 :: rest) = S := by
  induction S with
  | nil => simp [cstr]
  | cons x xs ih =>
    have hx : decide (x ≠ 0) = true := by
      simpa using h x (List.mem_cons_self _ _)
    have := ih (fun b hb => h b (List.mem_cons_of_mem _ hb))
    unfold cstr at this ⊢
    rw [List.cons_append, List.takeWhile_cons]
    show (if decide (x ≠ 0) = true then _ else _) = _
    rw [if_pos hx, this]

theorem cstr_of_nul_free (S : List Nat) (h : ∀ b ∈ S, b ≠ 0) : cstr S = S := by
  induction S with
  | nil => simp [cstr]
  | cons x xs ih =>
    have hx : decide (x ≠ 0) = true := by
      simpa using h x (List.mem_cons_self _ _)
    have := ih (fun b hb => h b (List.mem_cons_of_mem _ hb))
    unfold cstr at this ⊢
    rw [List.takeWhile_cons]
    show (if decide (x ≠ 0) = true then _ else _) = _
    rw [if_pos hx, this]

theorem strlen_of_nul_free (S : List Nat) (h : ∀ b ∈ S, b ≠ 0) : strlen S = S.length := by
  unfold strlen
  rw [cstr_of_nul_free S h]

theorem getD_at_cursor (pre : List Nat) (x : Nat) (rest : List Nat) (n : Nat)
    (h : pre.length = n) : (pre ++ x :: rest).getD n 0 = x := by
  subst h
  rw [List.getD_eq_getElem?_getD, List.getElem?_append_right (Nat.le_refl _)]
  simp

theorem getD_after_cursor (pre : List Nat) (x y : Nat) (rest : List Nat) (n : Nat)
    (h : pre.length = n) : (pre ++ x :: y :: rest).getD (n + 1) 0 = y := by
  subst h
  rw [List.getD_eq_getElem?_getD, List.getElem?_append_right (Nat.le_add_right _ _)]
  simp

theorem drop_after_header (pre : List Nat) (x y : Nat) (rest : List Nat) (n : Nat)
    (h : pre.length = n) : (pre ++ x :: y :: rest).drop (n + 2) = rest := by
  subst h
  have : pre ++ x :: y :: rest = (pre ++ [x, y]) ++ rest := by simp
  rw [this]
  have hl : (pre ++ [x, y]).length = pre.length + 2 := by simp
  rw [← hl, List.drop_left']
  rfl

/-- Header extraction on a buffer that holds, at the cursor, a TLV with tag `tag`,
short-form length `l` and room for the payload. -/
theorem extract_at_tlv (d : smb2_der) (pre rest : List Nat) (tag l : Nat)
    (hbuf : d.d_buf = pre ++ tag :: l :: rest) (hpre : pre.length = d.d_next)
    (hl : l < 128) (hfit : d.d_next + 2 + l ≤ d.d_len) :
    smb2_der_get_next_id d = .ok tag ∧
    smb2_der_extract d = (.ok (tag, l), { d with d_next := d.d_next + 2 }) := by
  have h0 : d.d_buf.getD d.d_next 0 = tag := by rw [hbuf]; exact getD_at_cursor _ _ _ _ hpre
  have h1 : d.d_buf.getD (d.d_next + 1) 0 = l := by
    rw [hbuf]; exact getD_after_cursor _ _ _ _ _ hpre
  have hs : l &&& 0x80 = 0 := (and_0x80_eq_zero_iff l).2 (by omega)
  have hm : l &&& 0x7F = l := by rw [and_0x7F_eq]; omega
  constructor
  · rw [get_next_id_ok d (by omega), h0]
  · have := extract_ok d (by omega) (by rw [h1]; exact hs) (by rw [h1, hm]; exact hfit)
    rw [h0, h1, hm] at this
    exact this

/-- Decoding of a GENERAL_STRING TLV at the cursor. -/
theorem get_general_string_at_tlv (d : smb2_der) (pre payload rest : List Nat)
    (hbuf : d.d_buf = pre ++ SMB2_DER_GENERAL_STRING :: payload.length :: (payload ++ rest))
    (hpre : pre.length = d.d_next) (hl : payload.length < 128)
    (hfit : d.d_next + 2 + payload.length ≤ d.d_len) :
    smb2_der_get_general_string d =
      (.ok (payload ++ [0]), { d with d_next := d.d_next + 2 + payload.length }) := by
  obtain ⟨h1, h2⟩ := extract_at_tlv d pre (payload ++ rest) _ _ hbuf hpre hl hfit
  unfold smb2_der_get_general_string
  rw [h1]
  simp only [ne_eq, not_true_eq_false, if_false, h2]
  rw [hbuf, drop_after_header _ _ _ _ _ hpre, List.take_left']
  rfl

theorem written_split (d : smb2_der) :
    d.d_buf = writtenBytes d ++ d.d_buf.drop d.d_next := by
  simp [writtenBytes, smb2_der_get_buffer]

theorem writtenBytes_new : writtenBytes smb2_der_new = [] := rfl

theorem ownedWf_new : ownedWf smb2_der_new := by decide

set_option maxRecDepth 100000 in
/-- Claim C4, as stated, fails for a text of 128 bytes: the length byte written is
`128 & 0x7F = 0`, and decoding returns the empty string. -/
theorem general_string_roundtrip_counterexample :
    (∀ b ∈ List.replicate 128 65, b ≠ 0) ∧
    generalStringRoundTrip (List.replicate 128 65) = .ok [] ∧
    generalStringRoundTrip (List.replicate 128 65) ≠ .ok (List.replicate 128 65) := by
  decide

/-- Claim C4 (amended).  For any NUL-free text `S` of at most 127 bytes, appending `S`
to an empty Owned buffer with `addGeneralString` and decoding the bytes
`smb2_der_get_buffer` exposes, from offset 0, with `getGeneralString` succeeds and
returns exactly `S`; the bytes written are the tag 0x1B, the length and `S`. -/
theorem general_string_roundtrip (S : List Nat) (hnul : ∀ b ∈ S, b ≠ 0)
    (hlen : S.length ≤ 127) :
    generalStringRoundTrip S = .ok S ∧
    ∃ d, smb2_der_add_general_string smb2_der_new S = .ok d ∧
      writtenBytes d = 0x1B :: S.length :: S := by
  have hs := strlen_of_nul_free S hnul
  obtain ⟨d, h1, hwf, h3, h4⟩ :=
    add_whatever_owned smb2_der_new SMB2_DER_GENERAL_STRING S (strlen S) ownedWf_new
      (by rw [hs])
  have hm : S.length &&& 0x7F = S.length := by rw [and_0x7F_eq]; omega
  rw [hs, List.take_length, writtenBytes_new, hm] at h4
  rw [hs] at h3
  have hd : smb2_der_add_general_string smb2_der_new S = .ok d := h1
  have hsplit := written_split d
  rw [h4] at hsplit
  have hdec := get_general_string_at_tlv
    (smb2_der_new_from_buf (smb2_der_get_buffer d).1 (smb2_der_get_buffer d).2)
    [] S (d.d_buf.drop d.d_next) (by simpa [smb2_der_new_from_buf, smb2_der_get_buffer,
      SMB2_DER_GENERAL_STRING] using hsplit) rfl (by omega)
    (by simp [smb2_der_new_from_buf, smb2_der_get_buffer, h3, smb2_der_new])
  refine ⟨?_, d, hd, by simpa [SMB2_DER_GENERAL_STRING] using h4⟩
  unfold generalStringRoundTrip
  rw [hd]
  simp only [hdec]
  rw [cstr_append_nul S [] hnul]

/-- Claim C4 (amended) on the text "hello". -/
theorem general_string_roundtrip_witness :
    generalStringRoundTrip (bytesOf "hello") = .ok (bytesOf "hello") :=
  (general_string_roundtrip (bytesOf "hello") (by decide) (by decide)).1

/-! ## DER codec: long payloads -/

set_option maxRecDepth 100000 in
/-- Claim C7 at its failing input: on a fresh Owned buffer `smb2_der_add_whatever` with
tag 0x04 and a payload of 128 bytes returns normally, moves the cursor to 130 and has
written the tag, the length byte `128 & 0x7F = 0` and the 128 payload bytes. -/
theorem add_whatever_long_payload_accepted :
    (smb2_der_add_whatever smb2_der_new 0x04 (List.replicate 128 65) 128).map
        (fun d => (d.d_next, writtenBytes d)) =
      .ok (130, 0x04 :: 0 :: List.replicate 128 65) := by
  decide

/-- A payload longer than 127 bytes is accepted by `smb2_der_add_whatever` on every
well-formed Owned buffer; the length byte written is `len % 128`, which differs from
`len`. -/
theorem add_whatever_long_payload_truncates (d : smb2_der) (id : Nat) (buf : List Nat)
    (len : Nat) (hwf : ownedWf d) (hlen : len ≤ buf.length) (hlong : 127 < len) :
    ∃ d', smb2_der_add_whatever d id buf len = .ok d' ∧
      writtenBytes d' = writtenBytes d ++ [id, len % 128] ++ buf.take len ∧
      len % 128 ≠ len := by
  obtain ⟨d', h1, _, _, h4⟩ := add_whatever_owned d id buf len hwf hlen
  rw [and_0x7F_eq] at h4
  exact ⟨d', h1, h4, by omega⟩

/-! ## DER codec: sequences -/

/-- Decoding of a constructed TLV at the cursor. -/
theorem get_constructed_at_tlv (d : smb2_der) (pre rest : List Nat) (tag l : Nat)
    (hbuf : d.d_buf = pre ++ tag :: l :: rest) (hpre : pre.length = d.d_next)
    (hc : tag &&& 0x20 ≠ 0) (hl : l < 128) (hfit : d.d_next + 2 + l ≤ d.d_len) :
    smb2_der_get_constructed d =
      (.ok (tag, smb2_der_new_from_buf rest l), { d with d_next := d.d_next + 2 + l }) := by
  obtain ⟨h1, h2⟩ := extract_at_tlv d pre rest _ _ hbuf hpre hl hfit
  unfold smb2_der_get_constructed
  rw [h1]
  simp only [hc, if_false, h2]
  rw [hbuf, drop_after_header _ _ _ _ _ hpre]

/-- Decoding of a SEQUENCE TLV at the cursor. -/
theorem get_sequence_at_tlv (d : smb2_der) (pre rest : List Nat) (l : Nat)
    (hbuf : d.d_buf = pre ++ SMB2_DER_SEQUENCE :: l :: rest) (hpre : pre.length = d.d_next)
    (hl : l < 128) (hfit : d.d_next + 2 + l ≤ d.d_len) :
    smb2_der_get_sequence d =
      (.ok (smb2_der_new_from_buf rest l), { d with d_next := d.d_next + 2 + l }) := by
  have h1 := (extract_at_tlv d pre rest _ _ hbuf hpre hl hfit).1
  have h2 := get_constructed_at_tlv d pre rest _ _ hbuf hpre (by decide) hl hfit
  unfold smb2_der_get_sequence
  rw [h1]
  simp only [ne_eq, not_true_eq_false, if_false, h2]

/-- A getter for OIDs rejects a GENERAL_STRING TLV without moving the cursor. -/
theorem get_oid_wrong_tag (heap : List Nat) (d : smb2_der) (tag : Nat)
    (h : smb2_der_get_next_id d = .ok tag) (ht : tag ≠ SMB2_DER_OID) :
    smb2_der_get_oid heap d = (.error .WrongTag, d) := by
  unfold smb2_der_get_oid
  rw [h]
  simp only [ne_eq, ht, not_false_eq_true, if_true]

/-- Claim C8, as stated, fails: for the OID strings "1.2" and "1.3", the first
`smb2_der_get_oid` on the view returned by `smb2_der_get_sequence` fails with
`WrongTag`, the children having been written with tag 0x1B. -/
theorem sequence_of_oids_counterexample :
    (sequenceOfTwoOids (bytesOf "1.2") (bytesOf "1.3")).bind
        (decodeTwoOids (List.replicate 257 0)) = .error .WrongTag ∧
    (sequenceOfTwoOids (bytesOf "1.2") (bytesOf "1.3")).map writtenBytes =
      .ok [0x30, 10, 0x1B, 3, 49, 46, 50, 0x1B, 3, 49, 46, 51] := by
  decide

/-- Claim C8 (amended).  For every two NUL-free strings `a` and `b` whose encoded
children together take at most 127 bytes, building a child buffer with `addOid(a)`
then `addOid(b)` and wrapping it in a parent with `addSequence` succeeds; decoding
the parent's written bytes with `getSequence` followed by two `getGeneralString`
calls on the returned view yields exactly `a` and then `b`, after which the view is
at `EndOfData`.  Two `getOid` calls instead fail with `WrongTag`: `addOid` writes its
argument as a GENERAL_STRING TLV. -/
theorem sequence_of_oids_roundtrip (a b : List Nat) (ha : ∀ x ∈ a, x ≠ 0)
    (hb : ∀ x ∈ b, x ≠ 0) (hlen : (2 + a.length) + (2 + b.length) ≤ 127) :
    ∃ p, sequenceOfTwoOids a b = .ok p ∧
      writtenBytes p =
        0x30 :: ((2 + a.length) + (2 + b.length)) :: (0x1B :: a.length :: a ++
          0x1B :: b.length :: b) ∧
      decodeTwoGeneralStrings p = .ok (a, b, .error .EndOfData) ∧
      ∀ heap, decodeTwoOids heap p = .error .WrongTag := by
  have hsa := strlen_of_nul_free a ha
  have hsb := strlen_of_nul_free b hb
  have hma : a.length &&& 0x7F = a.length := by rw [and_0x7F_eq]; omega
  have hmb : b.length &&& 0x7F = b.length := by rw [and_0x7F_eq]; omega
  obtain ⟨c1, e1, wf1, n1, w1⟩ :=
    add_whatever_owned smb2_der_new SMB2_DER_GENERAL_STRING a (strlen a) ownedWf_new
      (by rw [hsa])
  rw [hsa, List.take_length, writtenBytes_new, hma] at w1
  rw [hsa] at n1
  obtain ⟨c2, e2, wf2, n2, w2⟩ :=
    add_whatever_owned c1 SMB2_DER_GENERAL_STRING b (strlen b) wf1 (by rw [hsb])
  rw [hsb, List.take_length, hmb, w1] at w2
  rw [hsb, n1] at n2
  have hn2 : c2.d_next = (2 + a.length) + (2 + b.length) := by
    rw [n2]; simp [smb2_der_new]; omega
  have hmc : c2.d_next &&& 0x7F = c2.d_next := by rw [and_0x7F_eq]; omega
  obtain ⟨p, e3, wf3, n3, w3⟩ :=
    add_whatever_owned smb2_der_new SMB2_DER_SEQUENCE c2.d_buf c2.d_next ownedWf_new
      (by rw [wf2.2.1]; exact wf2.2.2)
  rw [writtenBytes_new, hmc] at w3
  have w3' : writtenBytes p = SMB2_DER_SEQUENCE :: c2.d_next ::
      (SMB2_DER_GENERAL_STRING :: a.length :: (a ++
        SMB2_DER_GENERAL_STRING :: b.length :: (b ++ []))) := by
    rw [w3]
    have : c2.d_buf.take c2.d_next = writtenBytes c2 := rfl
    rw [this, w2]
    simp
  have hbuild : sequenceOfTwoOids a b = .ok p := by
    unfold sequenceOfTwoOids smb2_der_add_oid smb2_der_add_general_string
    rw [e1]
    simp only [e2]
    unfold smb2_der_add_sequence smb2_der_add_constructed
    simpa [smb2_der_get_buffer, SMB2_DER_SEQUENCE] using e3
  have hview : (viewOfWritten p).d_buf = [] ++ SMB2_DER_SEQUENCE :: c2.d_next ::
      (SMB2_DER_GENERAL_STRING :: a.length :: (a ++
        SMB2_DER_GENERAL_STRING :: b.length :: (b ++ p.d_buf.drop p.d_next))) := by
    have := written_split p
    rw [w3'] at this
    simpa [viewOfWritten, smb2_der_new_from_buf, smb2_der_get_buffer] using this
  have hpn : p.d_next = 2 + c2.d_next := by
    rw [n3]; simp [smb2_der_new]
  have hseq := get_sequence_at_tlv (viewOfWritten p) [] _ c2.d_next hview rfl (by omega)
    (by simp [viewOfWritten, smb2_der_new_from_buf, smb2_der_get_buffer, hpn])
  have hs1 := get_general_string_at_tlv
    (smb2_der_new_from_buf (SMB2_DER_GENERAL_STRING :: a.length :: (a ++
        SMB2_DER_GENERAL_STRING :: b.length :: (b ++ p.d_buf.drop p.d_next))) c2.d_next)
    [] a (SMB2_DER_GENERAL_STRING :: b.length :: (b ++ p.d_buf.drop p.d_next))
    rfl rfl (by omega) (by simp [smb2_der_new_from_buf, smb2_der_new]; omega)
  have hs2 := get_general_string_at_tlv
    { smb2_der_new_from_buf (SMB2_DER_GENERAL_STRING :: a.length :: (a ++
        SMB2_DER_GENERAL_STRING :: b.length :: (b ++ p.d_buf.drop p.d_next))) c2.d_next with
      d_next := 0 + 2 + a.length }
    (SMB2_DER_GENERAL_STRING :: a.length :: a) b (p.d_buf.drop p.d_next)
    (by simp [smb2_der_new_from_buf]) (by simp; omega) (by omega)
    (by simp [smb2_der_new_from_buf, smb2_der_new]; omega)
  have htag : smb2_der_get_next_id
      (smb2_der_new_from_buf (SMB2_DER_GENERAL_STRING :: a.length :: (a ++
        SMB2_DER_GENERAL_STRING :: b.length :: (b ++ p.d_buf.drop p.d_next))) c2.d_next)
      = .ok SMB2_DER_GENERAL_STRING :=
    (extract_at_tlv _ [] _ _ _ rfl rfl (by omega)
      (by simp [smb2_der_new_from_buf, smb2_der_new]; omega)).1
  refine ⟨p, hbuild, ?_, ?_, ?_⟩
  · rw [w3', hn2]
    simp [SMB2_DER_SEQUENCE, SMB2_DER_GENERAL_STRING]
  · unfold decodeTwoGeneralStrings
    rw [hseq]
    simp only [hs1]
    simp only [smb2_der_new_from_buf, smb2_der_new] at hs2 ⊢
    simp only [hs2]
    rw [cstr_append_nul a [] ha, cstr_append_nul b [] hb]
    have hend : smb2_der_get_next_id
        { d_buf := SMB2_DER_GENERAL_STRING :: a.length :: (a ++
            SMB2_DER_GENERAL_STRING :: b.length :: (b ++ p.d_buf.drop p.d_next)),
          d_len := c2.d_next, d_next := 0 + 2 + a.length + 2 + b.length,
          d_own_buf := false } = .error .EndOfData := by
      unfold smb2_der_get_next_id
      simp only
      rw [if_pos (by rw [hn2]; omega)]
    rw [hend]
  · intro heap
    unfold decodeTwoOids
    rw [hseq]
    simp only [get_oid_wrong_tag heap _ _ htag (by decide)]

/-- Claim C8 (amended) on the OID strings "1.2.840" and "1.3". -/
theorem sequence_of_oids_roundtrip_witness :
    ∃ p, sequenceOfTwoOids (bytesOf "1.2.840") (bytesOf "1.3") = .ok p ∧
      writtenBytes p =
        0x30 :: ((2 + (bytesOf "1.2.840").length) + (2 + (bytesOf "1.3").length)) ::
          (0x1B :: (bytesOf "1.2.840").length :: bytesOf "1.2.840" ++
            0x1B :: (bytesOf "1.3").length :: bytesOf "1.3") ∧
      decodeTwoGeneralStrings p = .ok (bytesOf "1.2.840", bytesOf "1.3", .error .EndOfData) ∧
      ∀ heap, decodeTwoOids heap p = .error .WrongTag :=
  sequence_of_oids_roundtrip (bytesOf "1.2.840") (bytesOf "1.3") (by decide) (by decide)
    (by decide)

/-! ## DER codec: object identifiers -/

theorem decDigits_nul_free (fuel n : Nat) : ∀ c ∈ decDigits fuel n, c ≠ 0 := by
  induction fuel generalizing n with
  | zero => intro c hc; simp [decDigits] at hc
  | succ fuel ih =>
    intro c hc
    unfold decDigits at hc
    split at hc
    · simp at hc; omega
    · rw [List.mem_append] at hc
      rcases hc with hc | hc
      · exact ih _ c hc
      · simp at hc; omega

theorem fmt_d_natCast (n : Nat) : fmt_d (n : Int) = decDigits (n + 1) n := by
  unfold fmt_d
  have : ¬ ((n : Int) < 0) := by omega
  rw [if_neg this]
  simp

theorem fmt_d_nul_free (n : Nat) : ∀ c ∈ fmt_d (n : Int), c ≠ 0 := by
  rw [fmt_d_natCast]
  exact decDigits_nul_free _ _

theorem dottedDecimal_cons_cons (c c' : Nat) (cs : List Nat) :
    dottedDecimal (c :: c' :: cs) = fmt_d (c : Int) ++ 46 :: dottedDecimal (c' :: cs) := rfl

theorem dottedWithSeparators_eq (c : Nat) (cs : List Nat) :
    dottedWithSeparators (c :: cs) = dottedDecimal (c :: cs) ++ [46] := by
  induction cs generalizing c with
  | nil => simp [dottedWithSeparators, dottedDecimal]
  | cons c' cs ih =>
    rw [dottedWithSeparators, ih c', dottedDecimal_cons_cons]
    simp

theorem dottedDecimal_nul_free (cs : List Nat) : ∀ x ∈ dottedDecimal cs, x ≠ 0 := by
  induction cs with
  | nil => intro x hx; simp [dottedDecimal] at hx
  | cons c cs ih =>
    cases cs with
    | nil =>
      intro x hx
      exact fmt_d_nul_free c x (by simpa [dottedDecimal] using hx)
    | cons c' cs =>
      intro x hx
      rw [dottedDecimal_cons_cons, List.mem_append] at hx
      rcases hx with hx | hx
      · exact fmt_d_nul_free c x hx
      · rw [List.mem_cons] at hx
        rcases hx with hx | hx
        · omega
        · exact ih x hx

theorem le_groupValueFrom (g : List Nat) : ∀ acc, acc ≤ groupValueFrom acc g := by
  induction g with
  | nil => intro acc; simp [groupValueFrom]
  | cons b rest ih =>
    intro acc
    have := ih (acc * 128 + b % 128)
    simp only [groupValueFrom, List.foldl_cons] at this ⊢
    omega

theorem groupValueFrom_cons (acc b : Nat) (rest : List Nat) :
    groupValueFrom acc (b :: rest) = groupValueFrom (acc * 128 + b % 128) rest := rfl

theorem getD_of_drop (buf : List Nat) (n x : Nat) (t : List Nat) (h : buf.drop n = x :: t) :
    buf.getD n 0 = x ∧ buf.drop (n + 1) = t := by
  constructor
  · rw [List.getD_eq_getElem?_getD, ← List.head?_drop, h]
    rfl
  · rw [← List.drop_drop 1 n buf, h]
    rfl

theorem wrapInt32_small (x : Nat) (h : x < 2 ^ 31) : wrapInt32 (x : Int) = (x : Int) := by
  unfold wrapInt32
  norm_num at h
  omega

/-- The text `smb2_der_get_oid` formats when it closes an integer of value `v`. -/
theorem oid_loop_close (buf : List Nat) (n next b : Nat) (subid : Int) (str : List Nat)
    (stroff : Nat) (hb : buf.getD next 0 = b) (hclose : b &&& 0x80 = 0) :
    oid_loop buf (n + 1) next subid str stroff =
      match oid_snprintf str stroff
        (if stroff = 0 then
          fmt_d ((wrapInt32 (subid * 128) + ((b &&& 0x7F : Nat) : Int)).tdiv 40) ++ [46] ++
            fmt_d ((wrapInt32 (subid * 128) + ((b &&& 0x7F : Nat) : Int)).tmod 40) ++ [46]
         else fmt_d (wrapInt32 (subid * 128) + ((b &&& 0x7F : Nat) : Int)) ++ [46]) with
      | .error e => (.error e, next)
      | .ok (str, stroff) => oid_loop buf n (next + 1) 0 str stroff := by
  rw [oid_loop]
  simp only [hb, hclose, if_true]

theorem oid_loop_continue (buf : List Nat) (n next b : Nat) (subid : Int) (str : List Nat)
    (stroff : Nat) (hb : buf.getD next 0 = b) (hcont : b &&& 0x80 ≠ 0) :
    oid_loop buf (n + 1) next subid str stroff =
      oid_loop buf n (next + 1) (wrapInt32 (subid * 128) + ((b &&& 0x7F : Nat) : Int))
        str stroff := by
  rw [oid_loop]
  simp only [hb, hcont, if_false]

/-- One complete base-128 group is consumed by the loop; its value is formatted by one
`snprintf` call. -/
theorem oid_loop_group (buf : List Nat) (g : List Nat) :
    isGroup g = true → ∀ (acc n next : Nat) (tail str : List Nat) (stroff : Nat)
      (str' : List Nat) (stroff' : Nat),
      buf.drop next = g ++ tail → groupValueFrom acc g < 2 ^ 31 →
      oid_snprintf str stroff (closedText stroff (groupValueFrom acc g)) = .ok (str', stroff') →
      oid_loop buf (g.length + n) next (acc : Int) str stroff =
        oid_loop buf n (next + g.length) 0 str' stroff' := by
  induction g with
  | nil => intro h; simp [isGroup] at h
  | cons b rest ih =>
    intro hg acc n next tail str stroff str' stroff' hbuf hv hs
    have hacc : acc * 128 + b % 128 < 2 ^ 31 := by
      have := le_groupValueFrom rest (acc * 128 + b % 128)
      rw [groupValueFrom_cons] at hv
      omega
    have hd := getD_of_drop buf next b (rest ++ tail) (by simpa using hbuf)
    have hsub : wrapInt32 ((acc : Int) * 128) + ((b &&& 0x7F : Nat) : Int) =
        ((acc * 128 + b % 128 : Nat) : Int) := by
      have := wrapInt32_small (acc * 128) (by omega)
      rw [and_0x7F_eq]
      push_cast at this ⊢
      rw [this]
    cases rest with
    | nil =>
      have hb : b < 128 := by simpa [isGroup] using hg
      have hclose : b &&& 0x80 = 0 := (and_0x80_eq_zero_iff b).2 (by omega)
      have e : [b].length + n = n + 1 := by simp; omega
      rw [e, oid_loop_close buf n next b _ str stroff hd.1 hclose, hsub]
      have hv' : groupValueFrom acc [b] = acc * 128 + b % 128 := rfl
      rw [hv'] at hs
      have htext : (if stroff = 0 then
            fmt_d (((acc * 128 + b % 128 : Nat) : Int).tdiv 40) ++ [46] ++
              fmt_d (((acc * 128 + b % 128 : Nat) : Int).tmod 40) ++ [46]
           else fmt_d ((acc * 128 + b % 128 : Nat) : Int) ++ [46]) =
          closedText stroff (acc * 128 + b % 128) := by
        unfold closedText
        by_cases h0 : stroff = 0
        · rw [if_pos h0, if_pos h0]
          have h1 : ((acc * 128 + b % 128 : Nat) : Int).tdiv 40 =
              (((acc * 128 + b % 128) / 40 : Nat) : Int) := by
            rw [Int.ofNat_tdiv]; rfl
          have h2 : ((acc * 128 + b % 128 : Nat) : Int).tmod 40 =
              (((acc * 128 + b % 128) % 40 : Nat) : Int) := by
            rw [Int.ofNat_tmod]; rfl
          rw [h1, h2]
          simp [dottedWithSeparators]
        · rw [if_neg h0, if_neg h0]
          simp [dottedWithSeparators]
      rw [htext, hs]
      rfl
    | cons b' rest' =>
      have hg' : (128 ≤ b ∧ b < 256) ∧ isGroup (b' :: rest') = true := by
        simpa [isGroup] using hg
      have hcont : b &&& 0x80 ≠ 0 := by
        intro h
        have := (and_0x80_eq_zero_iff b).1 h
        omega
      have e : (b :: b' :: rest').length + n = ((b' :: rest').length + n) + 1 := by
        simp; omega
      rw [e, oid_loop_continue buf _ next b _ str stroff hd.1 hcont, hsub]
      rw [groupValueFrom_cons] at hv hs
      have := ih hg'.2 (acc * 128 + b % 128) n (next + 1) tail str stroff str' stroff'
        (by simpa using hd.2) hv hs
      rw [this]
      have e2 : next + 1 + (b' :: rest').length = next + (b :: b' :: rest').length := by
        simp only [List.length_cons]
        omega
      rw [e2]

theorem oid_snprintf_step (str R chunk : List Nat) (hinv : oidStrInv str R)
    (hchunk : chunk ≠ []) (hroom : R.length + chunk.length ≤ 256) :
    ∃ str', oid_snprintf str R.length chunk = .ok (str', (R ++ chunk).length) ∧
      oidStrInv str' (R ++ chunk) := by
  have hoid : SMB2_DER_OID_LEN = 256 := rfl
  unfold oidStrInv at hinv ⊢
  rw [hoid] at hinv ⊢
  obtain ⟨hlen, _, htake⟩ := hinv
  have hcl : 0 < chunk.length := List.length_pos.2 hchunk
  have hR : R.length ≤ 255 := by omega
  have hstrR : str.take R.length = R := by
    have e1 : R.take 255 = R := List.take_of_length_le hR
    rw [Nat.min_eq_left hR, e1] at htake
    exact htake
  have hk : 256 - R.length - 1 = 255 - R.length := by omega
  have hdl : (chunk.take (255 - R.length) ++ [0]).length ≤ 256 - R.length := by
    simp [List.length_take]
    omega
  refine ⟨writeAt str R.length (chunk.take (255 - R.length) ++ [0]), ?_, ?_, ?_, ?_⟩
  · unfold oid_snprintf
    rw [hoid]
    have h1 : ¬ R.length > 256 := by omega
    have h2 : ¬ 256 - R.length = 0 := by omega
    rw [if_neg h1]
    simp only [h2, if_false, List.length_append, hk]
  · rw [length_writeAt _ _ _ (by rw [hlen]; omega), hlen]
  · simp; omega
  · have hm : min (R ++ chunk).length 255 = (R ++ chunk.take (255 - R.length)).length := by
      simp [List.length_take]
      omega
    rw [hm]
    unfold writeAt
    rw [hstrR]
    have e : R ++ (chunk.take (255 - R.length) ++ [0]) ++
        List.drop (R.length + (chunk.take (255 - R.length) ++ [0]).length) str =
        (R ++ chunk.take (255 - R.length)) ++ ([0] ++
          List.drop (R.length + (chunk.take (255 - R.length) ++ [0]).length) str) := by
      simp
    rw [e, List.take_left' rfl, List.take_append_eq_append_take,
      List.take_of_length_le (by omega : R.length ≤ 255)]

theorem oidStrInv_empty (heap : List Nat) (h : heap.length = SMB2_DER_OID_LEN + 1) :
    oidStrInv heap [] := by
  refine ⟨h, by simp, by simp⟩

theorem dottedWithSeparators_ne_nil (c : Nat) (cs : List Nat) :
    dottedWithSeparators (c :: cs) ≠ [] := by
  rw [dottedWithSeparators_eq]
  simp

theorem dottedWithSeparators_append (xs ys : List Nat) :
    dottedWithSeparators (xs ++ ys) = dottedWithSeparators xs ++ dottedWithSeparators ys := by
  induction xs with
  | nil => simp [dottedWithSeparators]
  | cons x xs ih => simp [dottedWithSeparators, ih]

/-- The loop over the groups that follow the first one: each is formatted as one
further component. -/
theorem oid_loop_groups (buf : List Nat) (gs : List (List Nat)) :
    (∀ g ∈ gs, isGroup g = true ∧ groupValue g < 2 ^ 31) →
    ∀ (next : Nat) (tail str R : List Nat), R ≠ [] → oidStrInv str R →
      R.length + (dottedWithSeparators (gs.map groupValue)).length ≤ 256 →
      buf.drop next = gs.flatten ++ tail →
      ∃ str', oid_loop buf gs.flatten.length next 0 str R.length =
          (.ok (str', (R ++ dottedWithSeparators (gs.map groupValue)).length),
            next + gs.flatten.length) ∧
        oidStrInv str' (R ++ dottedWithSeparators (gs.map groupValue)) := by
  induction gs with
  | nil =>
    intro _ next tail str R _ hinv _ _
    refine ⟨str, ?_, by simpa [dottedWithSeparators] using hinv⟩
    simp [dottedWithSeparators, oid_loop]
  | cons g gs ih =>
    intro hall next tail str R hR hinv hroom hbuf
    have hg := hall g (List.mem_cons_self _ _)
    have hRl : R.length ≠ 0 := by
      intro h; exact hR (List.length_eq_zero.1 h)
    have hmap : dottedWithSeparators ((g :: gs).map groupValue) =
        dottedWithSeparators [groupValue g] ++ dottedWithSeparators (gs.map groupValue) := by
      rw [List.map_cons, ← dottedWithSeparators_append]
      rfl
    rw [hmap, List.length_append] at hroom
    obtain ⟨str1, hs1, hinv1⟩ := oid_snprintf_step str R (dottedWithSeparators [groupValue g])
      hinv (dottedWithSeparators_ne_nil _ _) (by omega)
    have hct : closedText R.length (groupValueFrom 0 g) = dottedWithSeparators [groupValue g] := by
      unfold closedText
      rw [if_neg hRl]
      rfl
    have hstep := oid_loop_group buf g hg.1 0 gs.flatten.length next (gs.flatten ++ tail)
      str R.length str1 _ (by simpa using hbuf) hg.2 (by rw [hct]; exact hs1)
    obtain ⟨str', h1, h2⟩ := ih (fun g' hg' => hall g' (List.mem_cons_of_mem _ hg'))
      (next + g.length) tail str1 (R ++ dottedWithSeparators [groupValue g])
      (by simp [hR]) hinv1 (by rw [List.length_append]; omega)
      (by
        have : buf.drop (next + g.length) = (buf.drop next).drop g.length := by
          rw [List.drop_drop, Nat.add_comm]
        rw [this, hbuf]
        simp)
    refine ⟨str', ?_, ?_⟩
    · rw [List.flatten_cons, List.length_append]
      have hz : ((0 : Nat) : Int) = 0 := rfl
      rw [hz] at hstep
      rw [hstep, h1, hmap]
      simp [Nat.add_assoc]
    · rw [hmap, ← List.append_assoc]
      exact h2

theorem cstr_after_strip (str R : List Nat) (c : Nat) (cs : List Nat)
    (hR : R = dottedWithSeparators (c :: cs)) (hinv : oidStrInv str R) :
    R.length - 1 ≤ SMB2_DER_OID_LEN ∧ 0 < R.length ∧
    cstr (str.set (R.length - 1) 0) = dottedDecimal (c :: cs) := by
  have hoid : SMB2_DER_OID_LEN = 256 := rfl
  unfold oidStrInv at hinv
  rw [hoid] at hinv ⊢
  obtain ⟨hlen, hRl, htake⟩ := hinv
  have hR' : R = dottedDecimal (c :: cs) ++ [46] := by rw [hR, dottedWithSeparators_eq]
  have hl : R.length = (dottedDecimal (c :: cs)).length + 1 := by rw [hR']; simp
  refine ⟨by omega, by omega, ?_⟩
  rw [List.set_eq_take_append_cons_drop, if_pos (by rw [hlen]; omega)]
  have h1 : str.take (R.length - 1) = dottedDecimal (c :: cs) := by
    have e1 : str.take (R.length - 1) = (str.take (min R.length 255)).take (R.length - 1) := by
      rw [List.take_take]
      congr 1
      omega
    rw [e1, htake, List.take_take, hR']
    have e2 : min ((dottedDecimal (c :: cs) ++ [46]).length - 1) 255 =
        (dottedDecimal (c :: cs)).length := by
      simp; omega
    rw [e2, List.take_left' rfl]
  rw [h1]
  exact cstr_append_nul _ _ (dottedDecimal_nul_free _)

set_option maxRecDepth 1000000 in
/-- Claim C5, as stated, fails when the rendered text has exactly 256 characters: for
the payload of 64 bytes `100` (text `2.20.100. ... .100`, 256 characters) the string
returned is the first 255 characters, the last digit being cut by `snprintf`. -/
theorem get_oid_text_bound_counterexample :
    (∀ g ∈ List.replicate 64 [100], isGroup g = true ∧ groupValue g < 2 ^ 31) ∧
    (List.replicate 64 [100]).flatten.length ≤ 127 ∧
    (dottedDecimal (oidComponents ((List.replicate 64 [100]).map groupValue))).length = 256 ∧
    (smb2_der_get_oid (List.replicate 257 0)
        (oidTlv (List.replicate 64 [100]).flatten)).1.map cstr =
      .ok ((dottedDecimal (oidComponents ((List.replicate 64 [100]).map groupValue))).take 255) ∧
    (smb2_der_get_oid (List.replicate 257 0)
        (oidTlv (List.replicate 64 [100]).flatten)).1.map cstr ≠
      .ok (dottedDecimal (oidComponents ((List.replicate 64 [100]).map groupValue))) := by
  decide

/-- Claim C5 (amended).  For every buffer whose next TLV has tag 0x06 and a payload of at
most 127 bytes made of `k ≥ 1` complete base-128 groups `gs` with values below `2^31`,
whose dotted-decimal text has at most 255 characters (256 with the separator that
follows the last component), `smb2_der_get_oid` returns the string
`(v0 div 40).(v0 mod 40).v1. ... .v(k-1)` with no trailing separator and advances the
cursor past the whole TLV, whatever the initial content of the allocated block. -/
theorem get_oid_decodes (heap : List Nat) (d : smb2_der) (pre rest : List Nat)
    (gs : List (List Nat)) (hheap : heap.length = SMB2_DER_OID_LEN + 1) (hne : gs ≠ [])
    (hall : ∀ g ∈ gs, isGroup g = true ∧ groupValue g < 2 ^ 31)
    (hbuf : d.d_buf = pre ++ SMB2_DER_OID :: gs.flatten.length :: (gs.flatten ++ rest))
    (hpre : pre.length = d.d_next) (hlen : gs.flatten.length ≤ 127)
    (hfit : d.d_next + 2 + gs.flatten.length ≤ d.d_len)
    (htext : (dottedDecimal (oidComponents (gs.map groupValue))).length ≤ 255) :
    ∃ str, smb2_der_get_oid heap d =
        (.ok str, { d with d_next := d.d_next + 2 + gs.flatten.length }) ∧
      cstr str = dottedDecimal (oidComponents (gs.map groupValue)) := by
  cases gs with
  | nil => exact absurd rfl hne
  | cons g gs =>
    obtain ⟨h1, h2⟩ := extract_at_tlv d pre _ _ _ hbuf hpre (by omega) hfit
    have hdrop : d.d_buf.drop (d.d_next + 2) = g ++ (gs.flatten ++ rest) := by
      rw [hbuf, drop_after_header _ _ _ _ _ hpre]
      simp
    have hg := hall g (List.mem_cons_self _ _)
    have hcomp : oidComponents ((g :: gs).map groupValue) =
        [groupValue g / 40, groupValue g % 40] ++ gs.map groupValue := rfl
    have htotal : dottedWithSeparators (oidComponents ((g :: gs).map groupValue)) =
        dottedWithSeparators [groupValue g / 40, groupValue g % 40] ++
          dottedWithSeparators (gs.map groupValue) := by
      rw [hcomp, dottedWithSeparators_append]
    have hsep : dottedWithSeparators (oidComponents ((g :: gs).map groupValue)) =
        dottedDecimal (oidComponents ((g :: gs).map groupValue)) ++ [46] :=
      dottedWithSeparators_eq _ _
    have hroom : (dottedWithSeparators [groupValue g / 40, groupValue g % 40]).length +
        (dottedWithSeparators (gs.map groupValue)).length ≤ 256 := by
      have e := congrArg List.length htotal
      rw [hsep] at e
      simp only [List.length_append, List.length_singleton] at e
      omega
    obtain ⟨str1, hs1, hinv1⟩ := oid_snprintf_step heap []
      (dottedWithSeparators [groupValue g / 40, groupValue g % 40])
      (oidStrInv_empty heap hheap) (dottedWithSeparators_ne_nil _ _) (by simp; omega)
    have hs1' : oid_snprintf heap 0 (dottedWithSeparators [groupValue g / 40, groupValue g % 40])
        = .ok (str1, (dottedWithSeparators [groupValue g / 40, groupValue g % 40]).length) := by
      simpa using hs1
    have hinv1' : oidStrInv str1 (dottedWithSeparators [groupValue g / 40, groupValue g % 40]) := by
      simpa using hinv1
    have hct : closedText 0 (groupValueFrom 0 g) =
        dottedWithSeparators [groupValue g / 40, groupValue g % 40] := rfl
    have hfirst := oid_loop_group d.d_buf g hg.1 0 gs.flatten.length (d.d_next + 2)
      (gs.flatten ++ rest) heap 0 str1 _ hdrop hg.2 (by rw [hct]; exact hs1')
    obtain ⟨str2, hl2, hinv2⟩ := oid_loop_groups d.d_buf gs
      (fun g' hg' => hall g' (List.mem_cons_of_mem _ hg')) (d.d_next + 2 + g.length) rest str1
      (dottedWithSeparators [groupValue g / 40, groupValue g % 40])
      (dottedWithSeparators_ne_nil _ _) hinv1' hroom
      (by
        have : d.d_buf.drop (d.d_next + 2 + g.length) =
            (d.d_buf.drop (d.d_next + 2)).drop g.length := by
          rw [List.drop_drop, Nat.add_comm]
        rw [this, hdrop]
        simp)
    have hR : dottedWithSeparators [groupValue g / 40, groupValue g % 40] ++
        dottedWithSeparators (gs.map groupValue) =
        dottedWithSeparators ((groupValue g / 40) :: (groupValue g % 40) :: gs.map groupValue) := by
      rw [← dottedWithSeparators_append]
      rfl
    rw [hR] at hl2 hinv2
    obtain ⟨hb1, hb2, hstr⟩ := cstr_after_strip str2 _ _ _ rfl hinv2
    have hloop : oid_loop d.d_buf (g :: gs).flatten.length (d.d_next + 2) 0 heap 0 =
        (.ok (str2, (dottedWithSeparators
            ((groupValue g / 40) :: (groupValue g % 40) :: gs.map groupValue)).length),
          d.d_next + 2 + (g :: gs).flatten.length) := by
      rw [List.flatten_cons, List.length_append]
      have hz : ((0 : Nat) : Int) = 0 := rfl
      rw [hz] at hfirst
      rw [hfirst, hl2]
      simp [Nat.add_assoc]
    refine ⟨str2.set ((dottedWithSeparators
      ((groupValue g / 40) :: (groupValue g % 40) :: gs.map groupValue)).length - 1) 0, ?_, hstr⟩
    unfold smb2_der_get_oid
    rw [h1]
    simp only [ne_eq, not_true_eq_false, if_false, h2, hloop]
    rw [if_pos hb2, if_neg (by omega)]

set_option maxRecDepth 100000 in
/-- Claim C5 (amended) on the payload `2A 86 48 86 F7 0D 01 02 02`, which decodes to
"1.2.840.113549.1.2.2". -/
theorem get_oid_decodes_witness :
    (∃ str, smb2_der_get_oid (List.replicate 257 0)
          (oidTlv [0x2A, 0x86, 0x48, 0x86, 0xF7, 0x0D, 0x01, 0x02, 0x02]) =
        (.ok str, { oidTlv [0x2A, 0x86, 0x48, 0x86, 0xF7, 0x0D, 0x01, 0x02, 0x02] with
                    d_next := 11 }) ∧
      cstr str = dottedDecimal (oidComponents
        ([[0x2A], [0x86, 0x48], [0x86, 0xF7, 0x0D], [0x01], [0x02], [0x02]].map groupValue))) ∧
    dottedDecimal (oidComponents
        ([[0x2A], [0x86, 0x48], [0x86, 0xF7, 0x0D], [0x01], [0x02], [0x02]].map groupValue)) =
      bytesOf "1.2.840.113549.1.2.2" :=
  ⟨get_oid_decodes (List.replicate 257 0)
      (oidTlv [0x2A, 0x86, 0x48, 0x86, 0xF7, 0x0D, 0x01, 0x02, 0x02]) [] []
      [[0x2A], [0x86, 0x48], [0x86, 0xF7, 0x0D], [0x01], [0x02], [0x02]]
      (by decide) (by decide) (by decide) (by decide) (by decide) (by decide) (by decide)
      (by decide),
   by decide⟩

/-! ## NTLMSSP records -/

theorem sizeof_negotiate_eq : sizeof_negotiate = 40 := by decide

theorem sizeof_challenge_eq : sizeof_challenge = 56 := by decide

theorem sizeof_authenticate_eq : sizeof_authenticate = 88 := by decide

/-- Claim C9.  Each of `takeNegotiate`, `takeChallenge`, `takeAuthenticate` (minimum
record sizes 40, 56 and 88) fails with `SizeTooSmall` exactly when the length is
below the minimum, fails with `SignatureMismatch` exactly when the length suffices
and the first 8 bytes differ from `"NTLMSSP\0"`, and succeeds in every other case;
a record of sufficient size whose first signature byte alone is corrupted is
rejected with `SignatureMismatch`. -/
theorem ntlmssp_take_checks (conn : smb2_connection) (buf : List Nat) (len : Nat) :
    ((smb2_ntlmssp_take_negotiate conn buf len = .error .SizeTooSmall ↔ len < 40) ∧
     (smb2_ntlmssp_take_negotiate conn buf len = .error .SignatureMismatch ↔
        40 ≤ len ∧ buf.take 8 ≠ bytesOf "NTLMSSP\x00") ∧
     ((∃ c, smb2_ntlmssp_take_negotiate conn buf len = .ok c) ↔
        40 ≤ len ∧ buf.take 8 = bytesOf "NTLMSSP\x00")) ∧
    ((smb2_ntlmssp_take_challenge conn buf len = .error .SizeTooSmall ↔ len < 56) ∧
     (smb2_ntlmssp_take_challenge conn buf len = .error .SignatureMismatch ↔
        56 ≤ len ∧ buf.take 8 ≠ bytesOf "NTLMSSP\x00") ∧
     ((∃ c, smb2_ntlmssp_take_challenge conn buf len = .ok c) ↔
        56 ≤ len ∧ buf.take 8 = bytesOf "NTLMSSP\x00")) ∧
    ((smb2_ntlmssp_take_authenticate conn buf len = .error .SizeTooSmall ↔ len < 88) ∧
     (smb2_ntlmssp_take_authenticate conn buf len = .error .SignatureMismatch ↔
        88 ≤ len ∧ buf.take 8 ≠ bytesOf "NTLMSSP\x00") ∧
     ((∃ c, smb2_ntlmssp_take_authenticate conn buf len = .ok c) ↔
        88 ≤ len ∧ buf.take 8 = bytesOf "NTLMSSP\x00")) ∧
    smb2_ntlmssp_take_negotiate conn
      (0 :: (smb2_ntlmssp_make_negotiate conn).1.tail) 40 = .error .SignatureMismatch ∧
    smb2_ntlmssp_take_negotiate conn (smb2_ntlmssp_make_negotiate conn).1 39
      = .error .SizeTooSmall := by
  have hsig : SMB2_NTLMSSP_SIGNATURE.take 8 = bytesOf "NTLMSSP\x00" := by decide
  refine ⟨?_, ?_, ?_, ?_, ?_⟩
  · unfold smb2_ntlmssp_take_negotiate
    rw [sizeof_negotiate_eq, hsig]
    by_cases h1 : len < 40
    · simp [h1]
    · by_cases h2 : buf.take 8 = bytesOf "NTLMSSP\x00"
      · simp [h1, h2]; omega
      · simp [h1, h2]; omega
  · unfold smb2_ntlmssp_take_challenge
    rw [sizeof_challenge_eq, hsig]
    by_cases h1 : len < 56
    · simp [h1]
    · by_cases h2 : buf.take 8 = bytesOf "NTLMSSP\x00"
      · simp [h1, h2]; omega
      · simp [h1, h2]; omega
  · unfold smb2_ntlmssp_take_authenticate
    rw [sizeof_authenticate_eq, hsig]
    by_cases h1 : len < 88
    · simp [h1]
    · by_cases h2 : buf.take 8 = bytesOf "NTLMSSP\x00"
      · simp [h1, h2]; omega
      · simp [h1, h2]; omega
  · rfl
  · rfl

/-- Claim C10.  For every connection state, the buffer returned by `makeNegotiate`
passes `takeNegotiate`, after which the stored negotiate flags are
`REQUEST_TARGET | NEGOTIATE_NTLM | NEGOTIATE_ALWAYS_SIGN | NEGOTIATE_UNICODE`
(0xA0410000) and nothing else on the connection has changed; the buffer from
`makeChallenge` passes `takeChallenge` and the buffer from `makeAuthenticate` passes
`takeAuthenticate`. -/
theorem ntlmssp_make_take_roundtrip (conn : smb2_connection) :
    smb2_ntlmssp_take_negotiate conn (smb2_ntlmssp_make_negotiate conn).1
        (smb2_ntlmssp_make_negotiate conn).2 =
      .ok { conn with c_ntlmssp_negotiate_flags :=
              SMB2_NTLMSSP_REQUEST_TARGET ||| SMB2_NTLMSSP_NEGOTIATE_NTLM |||
              SMB2_NTLMSSP_NEGOTIATE_ALWAYS_SIGN ||| SMB2_NTLMSSP_NEGOTIATE_UNICODE } ∧
    SMB2_NTLMSSP_REQUEST_TARGET ||| SMB2_NTLMSSP_NEGOTIATE_NTLM |||
        SMB2_NTLMSSP_NEGOTIATE_ALWAYS_SIGN ||| SMB2_NTLMSSP_NEGOTIATE_UNICODE = 0xA0410000 ∧
    read_le32 (smb2_ntlmssp_make_negotiate conn).1 offsetof_nn_negotiate_flags = 0xA0410000 ∧
    smb2_ntlmssp_take_challenge conn (smb2_ntlmssp_make_challenge conn).1
        (smb2_ntlmssp_make_challenge conn).2 = .ok conn ∧
    smb2_ntlmssp_take_authenticate conn (smb2_ntlmssp_make_authenticate conn).1
        (smb2_ntlmssp_make_authenticate conn).2 = .ok conn := by
  have e1 : smb2_ntlmssp_make_negotiate conn = smb2_ntlmssp_make_negotiate ⟨0, 0, 0, 0⟩ := rfl
  have e2 : smb2_ntlmssp_make_challenge conn = smb2_ntlmssp_make_challenge ⟨0, 0, 0, 0⟩ := rfl
  have e3 : smb2_ntlmssp_make_authenticate conn =
      smb2_ntlmssp_make_authenticate ⟨0, 0, 0, 0⟩ := rfl
  have hflags : read_le32 (smb2_ntlmssp_make_negotiate ⟨0, 0, 0, 0⟩).1
      offsetof_nn_negotiate_flags = SMB2_NTLMSSP_REQUEST_TARGET |||
        SMB2_NTLMSSP_NEGOTIATE_NTLM ||| SMB2_NTLMSSP_NEGOTIATE_ALWAYS_SIGN |||
        SMB2_NTLMSSP_NEGOTIATE_UNICODE := by decide
  have hval : SMB2_NTLMSSP_REQUEST_TARGET ||| SMB2_NTLMSSP_NEGOTIATE_NTLM |||
      SMB2_NTLMSSP_NEGOTIATE_ALWAYS_SIGN ||| SMB2_NTLMSSP_NEGOTIATE_UNICODE = 0xA0410000 := by
    decide
  rw [e1, e2, e3]
  refine ⟨?_, hval, ?_, ?_, ?_⟩
  · unfold smb2_ntlmssp_take_negotiate
    rw [hflags]
    have h1 : ¬ (smb2_ntlmssp_make_negotiate ⟨0, 0, 0, 0⟩).2 < sizeof_negotiate := by decide
    have h2 : ¬ ((smb2_ntlmssp_make_negotiate ⟨0, 0, 0, 0⟩).1.take 8 ≠
        SMB2_NTLMSSP_SIGNATURE.take 8) := by decide
    rw [if_neg h1, if_neg h2]
  · rw [hflags, hval]
  · unfold smb2_ntlmssp_take_challenge
    have h1 : ¬ (smb2_ntlmssp_make_challenge ⟨0, 0, 0, 0⟩).2 < sizeof_challenge := by decide
    have h2 : ¬ ((smb2_ntlmssp_make_challenge ⟨0, 0, 0, 0⟩).1.take 8 ≠
        SMB2_NTLMSSP_SIGNATURE.take 8) := by decide
    rw [if_neg h1, if_neg h2]
  · unfold smb2_ntlmssp_take_authenticate
    have h1 : ¬ (smb2_ntlmssp_make_authenticate ⟨0, 0, 0, 0⟩).2 < sizeof_authenticate := by
      decide
    have h2 : ¬ ((smb2_ntlmssp_make_authenticate ⟨0, 0, 0, 0⟩).1.take 8 ≠
        SMB2_NTLMSSP_SIGNATURE.take 8) := by decide
    rw [if_neg h1, if_neg h2]

/-! ## NTLMSSP records: layout -/

/-- Claim C11.  For every connection state, `makeNegotiate`, `makeChallenge` and
`makeAuthenticate` return records of exactly 40, 56 and 88 bytes; each starts with the
8 bytes `"NTLMSSP\0"` followed by the little-endian discriminant 1, 2, 3; every byte
outside the signature, the discriminant and the negotiate-flags field (offsets 12, 20
and 60) is zero; for Negotiate and Challenge the flags field holds exactly
`REQUEST_TARGET | NEGOTIATE_NTLM | NEGOTIATE_ALWAYS_SIGN | NEGOTIATE_UNICODE`
(0xA0410000, bytes `00 00 41 A0`). -/
theorem ntlmssp_make_layout (conn : smb2_connection) :
    ((smb2_ntlmssp_make_negotiate conn).2 = 40 ∧
      (smb2_ntlmssp_make_negotiate conn).1 =
        bytesOf "NTLMSSP\x00" ++ [1, 0, 0, 0] ++
          le32 (SMB2_NTLMSSP_REQUEST_TARGET ||| SMB2_NTLMSSP_NEGOTIATE_NTLM |||
            SMB2_NTLMSSP_NEGOTIATE_ALWAYS_SIGN ||| SMB2_NTLMSSP_NEGOTIATE_UNICODE) ++
          List.replicate 24 0) ∧
    ((smb2_ntlmssp_make_challenge conn).2 = 56 ∧
      (smb2_ntlmssp_make_challenge conn).1 =
        bytesOf "NTLMSSP\x00" ++ [2, 0, 0, 0] ++ List.replicate 8 0 ++
          le32 (SMB2_NTLMSSP_REQUEST_TARGET ||| SMB2_NTLMSSP_NEGOTIATE_NTLM |||
            SMB2_NTLMSSP_NEGOTIATE_ALWAYS_SIGN ||| SMB2_NTLMSSP_NEGOTIATE_UNICODE) ++
          List.replicate 32 0) ∧
    ((smb2_ntlmssp_make_authenticate conn).2 = 88 ∧
      (smb2_ntlmssp_make_authenticate conn).1 =
        bytesOf "NTLMSSP\x00" ++ [3, 0, 0, 0] ++ List.replicate 48 0 ++
          [0x97, 0x82, 0x08, 0xe2] ++ List.replicate 24 0) ∧
    (offsetof_nn_negotiate_flags = 12 ∧ offsetof_nc_negotiate_flags = 20 ∧
      offsetof_na_negotiate_flags = 60) ∧
    (SMB2_NTLMSSP_REQUEST_TARGET ||| SMB2_NTLMSSP_NEGOTIATE_NTLM |||
        SMB2_NTLMSSP_NEGOTIATE_ALWAYS_SIGN ||| SMB2_NTLMSSP_NEGOTIATE_UNICODE = 0xA0410000 ∧
      le32 0xA0410000 = [0x00, 0x00, 0x41, 0xA0] ∧
      read_le32 (smb2_ntlmssp_make_negotiate conn).1 offsetof_nn_negotiate_flags = 0xA0410000 ∧
      read_le32 (smb2_ntlmssp_make_challenge conn).1 offsetof_nc_negotiate_flags = 0xA0410000) := by
  have e1 : smb2_ntlmssp_make_negotiate conn = smb2_ntlmssp_make_negotiate ⟨0, 0, 0, 0⟩ := rfl
  have e2 : smb2_ntlmssp_make_challenge conn = smb2_ntlmssp_make_challenge ⟨0, 0, 0, 0⟩ := rfl
  have e3 : smb2_ntlmssp_make_authenticate conn =
      smb2_ntlmssp_make_authenticate ⟨0, 0, 0, 0⟩ := rfl
  rw [e1, e2, e3]
  decide

/-! ## DER codec: typed getters and constructed values -/

theorem get_constructed_wrong_tag (d : smb2_der) (h : d.d_next + 2 ≤ d.d_len)
    (ht : d.d_buf.getD d.d_next 0 &&& 0x20 = 0) :
    smb2_der_get_constructed d = (.error .WrongTag, d) := by
  unfold smb2_der_get_constructed
  rw [get_next_id_ok d h]
  simp only [ht, if_true]

theorem get_sequence_wrong_tag (d : smb2_der) (h : d.d_next + 2 ≤ d.d_len)
    (ht : d.d_buf.getD d.d_next 0 ≠ SMB2_DER_SEQUENCE) :
    smb2_der_get_sequence d = (.error .WrongTag, d) := by
  unfold smb2_der_get_sequence
  rw [get_next_id_ok d h]
  simp only [ne_eq, ht, not_false_eq_true, if_true]

theorem get_general_string_wrong_tag (d : smb2_der) (h : d.d_next + 2 ≤ d.d_len)
    (ht : d.d_buf.getD d.d_next 0 ≠ SMB2_DER_GENERAL_STRING) :
    smb2_der_get_general_string d = (.error .WrongTag, d) := by
  unfold smb2_der_get_general_string
  rw [get_next_id_ok d h]
  simp only [ne_eq, ht, not_false_eq_true, if_true]

/-- Claim C12.  For every buffer with at least 2 bytes at the cursor: if the next tag
byte lacks the constructed bit 0x20, `smb2_der_get_constructed` fails with `WrongTag`
and leaves the buffer as it was; if the bit is set and the TLV is well formed with
length byte `L` (high bit clear, payload inside the buffer), it reports that tag,
returns a Borrowed View of length `L` with cursor 0 whose bytes are exactly
`parent[cursor+2 .. cursor+2+L)`, and advances the parent cursor by `2 + L`. -/
theorem get_constructed_contract (d : smb2_der) (hhdr : d.d_next + 2 ≤ d.d_len)
    (hbyte : d.d_buf.getD (d.d_next + 1) 0 < 256) :
    (d.d_buf.getD d.d_next 0 &&& 0x20 = 0 →
      smb2_der_get_constructed d = (.error .WrongTag, d)) ∧
    (d.d_buf.getD d.d_next 0 &&& 0x20 ≠ 0 → d.d_buf.getD (d.d_next + 1) 0 &&& 0x80 = 0 →
      d.d_next + 2 + d.d_buf.getD (d.d_next + 1) 0 ≤ d.d_len →
      ∃ c, smb2_der_get_constructed d =
          (.ok (d.d_buf.getD d.d_next 0, c),
            { d with d_next := d.d_next + 2 + d.d_buf.getD (d.d_next + 1) 0 }) ∧
        c.d_len = d.d_buf.getD (d.d_next + 1) 0 ∧ c.d_next = 0 ∧ c.d_own_buf = false ∧
        c.d_buf.take c.d_len =
          (d.d_buf.drop (d.d_next + 2)).take (d.d_buf.getD (d.d_next + 1) 0)) := by
  refine ⟨get_constructed_wrong_tag d hhdr, ?_⟩
  intro hc hl hfit
  have hs := short_form_length _ hbyte hl
  have hx := extract_ok d hhdr hl (by rw [hs.1]; exact hfit)
  rw [hs.1] at hx
  refine ⟨smb2_der_new_from_buf (d.d_buf.drop (d.d_next + 2)) (d.d_buf.getD (d.d_next + 1) 0),
    ?_, rfl, rfl, rfl, rfl⟩
  unfold smb2_der_get_constructed
  rw [get_next_id_ok d hhdr]
  simp only [hc, if_false, hx]

/-- Claim C12 on the buffers `04 01 07` (primitive tag) and `A0 02 05 00 09`. -/
theorem get_constructed_contract_witness :
    smb2_der_get_constructed (smb2_der_new_from_buf [0x04, 1, 7] 3) =
      (.error .WrongTag, smb2_der_new_from_buf [0x04, 1, 7] 3) ∧
    smb2_der_get_constructed (smb2_der_new_from_buf [0xA0, 2, 5, 0, 9] 5) =
      (.ok (0xA0, smb2_der_new_from_buf [5, 0, 9] 2),
        { smb2_der_new_from_buf [0xA0, 2, 5, 0, 9] 5 with d_next := 4 }) :=
  ⟨(get_constructed_contract (smb2_der_new_from_buf [0x04, 1, 7] 3) (by decide)
      (by decide)).1 (by decide),
   by decide⟩

/-- Claim C13.  For every buffer with at least 2 bytes at the cursor, `getSequence`
fails when the next tag byte is not 0x30, `getOid` when it is not 0x06 and
`getGeneralString` when it is not 0x1B, each with `WrongTag` and each leaving the
cursor, bytes and length of the buffer unchanged. -/
theorem typed_getters_reject_other_tags (heap : List Nat) (d : smb2_der)
    (hhdr : d.d_next + 2 ≤ d.d_len) :
    (d.d_buf.getD d.d_next 0 ≠ 0x30 → smb2_der_get_sequence d = (.error .WrongTag, d)) ∧
    (d.d_buf.getD d.d_next 0 ≠ 0x06 → smb2_der_get_oid heap d = (.error .WrongTag, d)) ∧
    (d.d_buf.getD d.d_next 0 ≠ 0x1B →
      smb2_der_get_general_string d = (.error .WrongTag, d)) :=
  ⟨get_sequence_wrong_tag d hhdr,
   fun h => get_oid_wrong_tag heap d _ (get_next_id_ok d hhdr) h,
   get_general_string_wrong_tag d hhdr⟩

/-- Claim C13 on the buffer `04 01 07`, whose tag is none of 0x30, 0x06, 0x1B. -/
theorem typed_getters_reject_other_tags_witness :
    smb2_der_get_sequence (smb2_der_new_from_buf [0x04, 1, 7] 3) =
      (.error .WrongTag, smb2_der_new_from_buf [0x04, 1, 7] 3) ∧
    smb2_der_get_oid [] (smb2_der_new_from_buf [0x04, 1, 7] 3) =
      (.error .WrongTag, smb2_der_new_from_buf [0x04, 1, 7] 3) ∧
    smb2_der_get_general_string (smb2_der_new_from_buf [0x04, 1, 7] 3) =
      (.error .WrongTag, smb2_der_new_from_buf [0x04, 1, 7] 3) :=
  ⟨(typed_getters_reject_other_tags [] (smb2_der_new_from_buf [0x04, 1, 7] 3)
      (by decide)).1 (by decide),
   (typed_getters_reject_other_tags [] (smb2_der_new_from_buf [0x04, 1, 7] 3)
      (by decide)).2.1 (by decide),
   (typed_getters_reject_other_tags [] (smb2_der_new_from_buf [0x04, 1, 7] 3)
      (by decide)).2.2 (by decide)⟩

theorem add_whatever_take (d : smb2_der) (id : Nat) (buf : List Nat) (len : Nat) :
    smb2_der_add_whatever d id (buf.take len) len = smb2_der_add_whatever d id buf len := by
  unfold smb2_der_add_whatever
  rw [List.take_take, Nat.min_self]

/-- Claim C14.  When `id` has the constructed bit 0x20 set, `smb2_der_add_constructed`
gives the same result as `smb2_der_add_whatever` called with `id` and the child's
written bytes `child[0 .. child cursor)`; when the bit is clear, `d` is returned
unchanged.  `smb2_der_add_sequence` is `smb2_der_add_constructed` with tag 0x30. -/
theorem add_constructed_contract (d c : smb2_der) (id : Nat) :
    (id &&& 0x20 ≠ 0 →
      smb2_der_add_constructed d c id = smb2_der_add_whatever d id (writtenBytes c) c.d_next) ∧
    (id &&& 0x20 = 0 → smb2_der_add_constructed d c id = .ok d) ∧
    smb2_der_add_sequence d c = smb2_der_add_constructed d c 0x30 ∧
    smb2_der_add_sequence d c = smb2_der_add_whatever d 0x30 (writtenBytes c) c.d_next := by
  have h1 : ∀ t, t &&& 0x20 ≠ 0 →
      smb2_der_add_constructed d c t = smb2_der_add_whatever d t (writtenBytes c) c.d_next := by
    intro t ht
    unfold smb2_der_add_constructed
    rw [if_neg ht]
    exact (add_whatever_take d t c.d_buf c.d_next).symm
  refine ⟨h1 id, ?_, rfl, h1 0x30 (by decide)⟩
  intro h
  unfold smb2_der_add_constructed
  rw [if_pos h]

/-- Claim C14 on a child holding the TLV `04 01 07` and the tags 0x30 and 0x04. -/
theorem add_constructed_contract_witness :
    smb2_der_add_constructed smb2_der_new ⟨[0x04, 1, 7, 0], 4, 3, true⟩ 0x30 =
      smb2_der_add_whatever smb2_der_new 0x30 [0x04, 1, 7] 3 ∧
    smb2_der_add_constructed smb2_der_new ⟨[0x04, 1, 7, 0], 4, 3, true⟩ 0x04 =
      .ok smb2_der_new :=
  ⟨(add_constructed_contract smb2_der_new ⟨[0x04, 1, 7, 0], 4, 3, true⟩ 0x30).1 (by decide),
   (add_constructed_contract smb2_der_new ⟨[0x04, 1, 7, 0], 4, 3, true⟩ 0x04).2.1 (by decide)⟩

/-- Claim C15.  For every buffer `d` and string `s`, `smb2_der_add_oid` produces exactly
the result of `smb2_der_add_general_string`: one call of `smb2_der_add_whatever` with
tag 0x1B (GENERAL_STRING, not the OID tag 0x06) and the bytes of `s` up to its NUL.
On a well-formed Owned buffer and a NUL-free `s` the bytes appended are the tag 0x1B,
the byte `len & 0x7F` and the text of `s` itself. -/
theorem add_oid_is_general_string (d : smb2_der) (s : List Nat) :
    smb2_der_add_oid d s = smb2_der_add_general_string d s ∧
    smb2_der_add_oid d s = smb2_der_add_whatever d 0x1B s (strlen s) ∧
    SMB2_DER_GENERAL_STRING ≠ SMB2_DER_OID ∧
    (ownedWf d → (∀ b ∈ s, b ≠ 0) →
      ∃ d', smb2_der_add_oid d s = .ok d' ∧ d'.d_next = d.d_next + 2 + s.length ∧
        writtenBytes d' = writtenBytes d ++ [0x1B, s.length &&& 0x7F] ++ s) := by
  refine ⟨rfl, rfl, by decide, ?_⟩
  intro hwf hnul
  have hs := strlen_of_nul_free s hnul
  obtain ⟨d', h1, _, h3, h4⟩ :=
    add_whatever_owned d SMB2_DER_GENERAL_STRING s (strlen s) hwf (by rw [hs])
  rw [hs] at h3
  rw [hs, List.take_length] at h4
  exact ⟨d', h1, h3, h4⟩

/-- Claim C15 on the OID string "1.2.840" and a fresh Owned buffer: the bytes written
are `1B 07` followed by the ASCII text. -/
theorem add_oid_is_general_string_witness :
    (smb2_der_add_oid smb2_der_new (bytesOf "1.2.840")).map writtenBytes =
      .ok (0x1B :: 7 :: bytesOf "1.2.840") ∧
    smb2_der_add_oid smb2_der_new (bytesOf "1.2.840") =
      smb2_der_add_general_string smb2_der_new (bytesOf "1.2.840") :=
  ⟨by decide, (add_oid_is_general_string smb2_der_new (bytesOf "1.2.840")).1⟩

/-! ## DER codec: buffer growth -/

theorem doubled_shift (L : Nat) (j : Nat) : doubled (doubled L 1) j = doubled L (j + 1) := by
  induction j with
  | zero => rfl
  | succ j ih =>
    show (if doubled (doubled L 1) j = 0 then 1 else doubled (doubled L 1) j * 2) = _
    rw [ih]
    rfl

/-- The capacity the growth loop of an Owned buffer ends with is the first value of the
doubling sequence that fits `need`. -/
theorem add_whatever_grow_len (fuel : Nat) :
    ∀ (d : smb2_der) (need : Nat), d.d_own_buf = true → need < fuel + d.d_len →
      ∃ j d', add_whatever_grow fuel d need = .ok d' ∧ d'.d_len = doubled d.d_len j ∧
        need ≤ doubled d.d_len j ∧ ∀ i, i < j → doubled d.d_len i < need := by
  induction fuel with
  | zero =>
    intro d need _ hf
    exact ⟨0, d, rfl, rfl, by show need ≤ d.d_len; omega, fun i hi => absurd hi (by omega)⟩
  | succ fuel ih =>
    intro d need hown hf
    by_cases hfit : need ≤ d.d_len
    · exact ⟨0, d, add_whatever_grow_fits _ d need hfit, rfl, hfit,
        fun i hi => absurd hi (by omega)⟩
    · have hgt : need > d.d_len := by omega
      have hnew : d.d_len + 1 ≤ (if d.d_len = 0 then 1 else d.d_len * 2) := by
        split <;> omega
      obtain ⟨j, d', h1, h2, h3, h4⟩ :=
        ih { d with d_len := if d.d_len = 0 then 1 else d.d_len * 2,
                    d_buf := realloc d.d_buf (if d.d_len = 0 then 1 else d.d_len * 2) }
          need hown (by simp only; omega)
      have e1 : (if d.d_len = 0 then 1 else d.d_len * 2) = doubled d.d_len 1 := rfl
      simp only [e1, doubled_shift] at h2 h3 h4
      refine ⟨j + 1, d', ?_, h2, h3, ?_⟩
      · rw [add_whatever_grow, if_pos hgt, if_pos hown]
        exact h1
      · intro i hi
        cases i with
        | zero => exact hgt
        | succ i =>
          exact h4 i (by omega)

theorem add_whatever_grow_keeps_len (fuel : Nat) (d g : smb2_der) (need : Nat)
    (h : add_whatever_grow fuel d need = .ok g) (hfit : need ≤ d.d_len) : g = d := by
  rw [add_whatever_grow_fits fuel d need hfit] at h
  exact (Except.ok.inj h).symm

/-- Claim C17.  For a well-formed Owned buffer with capacity `L`, cursor `n` and a
payload of `k` bytes, `smb2_der_add_whatever` returns with: capacity `L` if
`n + 2 + k ≤ L`, otherwise the first value of the doubling sequence from `L` (1 after
0) that is at least `n + 2 + k`; the bytes before the old cursor unchanged; the bytes
at `[n, n+2+k)` equal to the tag, the length byte `k & 0x7F` (which is `k` for
`k ≤ 127`) and the payload; the cursor at `n + 2 + k`.  For a Borrowed buffer with
`n + 2 + k > L` the call fails with `BufferOverflow`. -/
theorem add_whatever_growth (d : smb2_der) (id : Nat) (buf : List Nat) (k : Nat) :
    (ownedWf d → k ≤ buf.length →
      ∃ j d', smb2_der_add_whatever d id buf k = .ok d' ∧
        d'.d_len = doubled d.d_len j ∧ d.d_next + 2 + k ≤ doubled d.d_len j ∧
        (∀ i, i < j → doubled d.d_len i < d.d_next + 2 + k) ∧
        (d.d_next + 2 + k ≤ d.d_len → d'.d_len = d.d_len) ∧
        d'.d_buf.take d.d_next = d.d_buf.take d.d_next ∧
        (d'.d_buf.drop d.d_next).take (2 + k) = id :: (k &&& 0x7F) :: buf.take k ∧
        (k ≤ 127 → k &&& 0x7F = k) ∧
        d'.d_next = d.d_next + 2 + k ∧ d'.d_own_buf = true ∧ d'.d_buf.length = d'.d_len) ∧
    (d.d_own_buf = false → d.d_len < d.d_next + 2 + k →
      smb2_der_add_whatever d id buf k = .error .BufferOverflow) := by
  constructor
  · intro hwf hk
    obtain ⟨d', h1, hwf', h3, h4⟩ := add_whatever_owned d id buf k hwf hk
    obtain ⟨j, g, g1, g2, g3, g4⟩ :=
      add_whatever_grow_len (d.d_next + 2 + k + 1) d (d.d_next + 2 + k) hwf.1 (by omega)
    have hd' : d'.d_len = g.d_len := by
      unfold smb2_der_add_whatever at h1
      rw [g1] at h1
      rw [← Except.ok.inj h1]
    have hn : (d.d_buf.take d.d_next).length = d.d_next := by
      rw [List.length_take, hwf.2.1]
      exact Nat.min_eq_left hwf.2.2
    have hw : d'.d_buf.take (d.d_next + (2 + k)) =
        d.d_buf.take d.d_next ++ (id :: (k &&& 0x7F) :: buf.take k) := by
      have : writtenBytes d' = d'.d_buf.take (d.d_next + (2 + k)) := by
        simp only [writtenBytes, smb2_der_get_buffer, h3, Nat.add_assoc]
      rw [← this, h4]
      simp [writtenBytes, smb2_der_get_buffer]
    refine ⟨j, d', h1, by rw [hd', g2], g3, g4, ?_, ?_, ?_, ?_, h3, hwf'.1, hwf'.2.1⟩
    · intro hfit
      rw [hd', add_whatever_grow_keeps_len _ d g _ g1 hfit]
    · have : d'.d_buf.take d.d_next = (d'.d_buf.take (d.d_next + (2 + k))).take d.d_next := by
        rw [List.take_take]
        congr 1
        omega
      rw [this, hw, List.take_left' hn]
    · rw [List.take_drop, hw, List.drop_left' hn]
    · intro hk'
      rw [and_0x7F_eq]
      omega
  · intro hown hlt
    unfold smb2_der_add_whatever
    rw [add_whatever_grow_borrowed _ d _ hlt hown]

/-- Claim C17 on an Owned buffer of capacity 4 with cursor 3 and a 6-byte payload (the
capacity becomes 16), and on a Borrowed buffer of the same shape. -/
theorem add_whatever_growth_witness :
    smb2_der_add_whatever ⟨[4, 1, 7, 0], 4, 3, true⟩ 0x04 [1, 2, 3, 4, 5, 6] 6 =
      .ok ⟨[4, 1, 7, 0x04, 6, 1, 2, 3, 4, 5, 6, 0, 0, 0, 0, 0], 16, 11, true⟩ ∧
    doubled 4 2 = 16 ∧
    smb2_der_add_whatever ⟨[4, 1, 7, 0], 4, 3, false⟩ 0x04 [1, 2, 3, 4, 5, 6] 6 =
      .error .BufferOverflow :=
  ⟨by decide, by decide,
   (add_whatever_growth ⟨[4, 1, 7, 0], 4, 3, false⟩ 0x04 [1, 2, 3, 4, 5, 6] 6).2
      (by decide) (by decide)⟩

/-! ## DER codec: lists of opaque TLVs -/

theorem addAll_owned (items : List (Nat × List Nat)) :
    ∀ d : smb2_der, ownedWf d → (∀ it ∈ items, it.2.length ≤ 127) →
      ∃ d', addAll d items = .ok d' ∧ ownedWf d' ∧
        writtenBytes d' = writtenBytes d ++ tlvBytes items ∧
        d'.d_next = d.d_next + (tlvBytes items).length := by
  induction items with
  | nil =>
    intro d hwf _
    exact ⟨d, rfl, hwf, by simp [tlvBytes], by simp [tlvBytes]⟩
  | cons it items ih =>
    intro d hwf hall
    obtain ⟨tag, payload⟩ := it
    have hp : payload.length ≤ 127 := hall (tag, payload) (List.mem_cons_self _ _)
    obtain ⟨d1, h1, wf1, n1, w1⟩ :=
      add_whatever_owned d tag payload payload.length hwf (le_refl _)
    have hm : payload.length &&& 0x7F = payload.length := by rw [and_0x7F_eq]; omega
    rw [hm, List.take_length] at w1
    obtain ⟨d2, h2, wf2, w2, n2⟩ :=
      ih d1 wf1 (fun it' hit => hall it' (List.mem_cons_of_mem _ hit))
    refine ⟨d2, ?_, wf2, ?_, ?_⟩
    · simp only [addAll, h1]
      exact h2
    · rw [w2, w1]
      simp [tlvBytes]
    · rw [n2, n1]
      simp [tlvBytes]
      omega

theorem get_whatever_at_tlv (d : smb2_der) (pre payload rest : List Nat) (tag : Nat)
    (hbuf : d.d_buf = pre ++ tag :: payload.length :: (payload ++ rest))
    (hpre : pre.length = d.d_next) (hl : payload.length < 128)
    (hfit : d.d_next + 2 + payload.length ≤ d.d_len) :
    smb2_der_get_whatever d =
      (.ok (tag, payload ++ rest, payload.length),
        { d with d_next := d.d_next + 2 + payload.length }) := by
  obtain ⟨_, h2⟩ := extract_at_tlv d pre (payload ++ rest) _ _ hbuf hpre hl hfit
  unfold smb2_der_get_whatever
  rw [h2]
  simp only
  rw [hbuf, drop_after_header _ _ _ _ _ hpre]

theorem getAll_tlvBytes (items : List (Nat × List Nat)) :
    ∀ (d : smb2_der) (pre rest : List Nat), d.d_buf = pre ++ (tlvBytes items ++ rest) →
      pre.length = d.d_next → d.d_len = d.d_next + (tlvBytes items).length →
      (∀ it ∈ items, it.2.length ≤ 127) →
      getAll items.length d =
        (.ok (items.map (fun it => (it.1, it.2, it.2.length))), { d with d_next := d.d_len }) := by
  induction items with
  | nil =>
    intro d pre rest _ _ hlen _
    have : d.d_len = d.d_next := by simpa [tlvBytes] using hlen
    have hd : ({ d with d_next := d.d_len } : smb2_der) = d := by
      obtain ⟨b, l, n, o⟩ := d
      simp only at this
      subst this
      rfl
    simp only [List.length_nil, getAll, List.map_nil, hd]
  | cons it items ih =>
    intro d pre rest hbuf hpre hlen hall
    obtain ⟨tag, payload⟩ := it
    have hp : payload.length ≤ 127 := hall (tag, payload) (List.mem_cons_self _ _)
    have hl' : (tlvBytes ((tag, payload) :: items)).length =
        2 + payload.length + (tlvBytes items).length := by
      simp [tlvBytes]; omega
    have hbuf' : d.d_buf = pre ++ tag :: payload.length ::
        (payload ++ (tlvBytes items ++ rest)) := by
      rw [hbuf]; simp [tlvBytes]
    have hg := get_whatever_at_tlv d pre payload (tlvBytes items ++ rest) tag hbuf' hpre
      (by omega) (by rw [hlen, hl']; omega)
    have hrec := ih { d with d_next := d.d_next + 2 + payload.length }
      (pre ++ tag :: payload.length :: payload) rest
      (by rw [hbuf']; simp) (by simp [hpre]; omega) (by simp only; rw [hlen, hl']; omega)
      (fun it' hit => hall it' (List.mem_cons_of_mem _ hit))
    simp only [List.length_cons, getAll, hg, hrec, List.map_cons]
    simp

/-- Claim C19.  For every list of (tag, payload) pairs with each payload at most 127
bytes: appending them in order to an empty Owned buffer with `smb2_der_add_whatever`
succeeds; wrapping what `smb2_der_get_buffer` exposes in a Borrowed View and calling
`smb2_der_get_whatever` once per pair returns exactly the same tags, payload bytes
and lengths in the same order; after that `smb2_der_get_next_id` reports `EndOfData`. -/
theorem opaque_list_roundtrip (items : List (Nat × List Nat))
    (hall : ∀ it ∈ items, it.2.length ≤ 127) :
    ∃ d, addAll smb2_der_new items = .ok d ∧ writtenBytes d = tlvBytes items ∧
      ∃ v, getAll items.length (viewOfWritten d) =
          (.ok (items.map (fun it => (it.1, it.2, it.2.length))), v) ∧
        smb2_der_get_next_id v = .error .EndOfData := by
  obtain ⟨d, h1, _, w, n⟩ := addAll_owned items smb2_der_new ownedWf_new hall
  rw [writtenBytes_new, List.nil_append] at w
  have hsplit := written_split d
  rw [w] at hsplit
  have hdec := getAll_tlvBytes items (viewOfWritten d) [] (d.d_buf.drop d.d_next)
    (by simpa [viewOfWritten, smb2_der_new_from_buf, smb2_der_get_buffer] using hsplit) rfl
    (by simp [viewOfWritten, smb2_der_new_from_buf, smb2_der_get_buffer, n, smb2_der_new])
    hall
  refine ⟨d, h1, w, _, hdec, ?_⟩
  unfold smb2_der_get_next_id
  rw [if_pos rfl]

/-- Claim C19 on the pairs `(0x04, [7, 9])`, `(0xA0, [])`, `(0x1B, "ab")`. -/
theorem opaque_list_roundtrip_witness :
    ∃ d, addAll smb2_der_new [(0x04, [7, 9]), (0xA0, []), (0x1B, [97, 98])] = .ok d ∧
      writtenBytes d = tlvBytes [(0x04, [7, 9]), (0xA0, []), (0x1B, [97, 98])] ∧
      ∃ v, getAll 3 (viewOfWritten d) =
          (.ok [(0x04, [7, 9], 2), (0xA0, [], 0), (0x1B, [97, 98], 2)], v) ∧
        smb2_der_get_next_id v = .error .EndOfData :=
  opaque_list_roundtrip [(0x04, [7, 9]), (0xA0, []), (0x1B, [97, 98])] (by decide)

/-! ## DER codec: the cursor after each operation -/

/-- The four ways `smb2_der_extract` can end, by the shape of the bytes at the cursor. -/
theorem extract_cases (d : smb2_der) :
    (d.d_len < d.d_next + 2 ∧
      smb2_der_extract d =
        (.error (if d.d_next = d.d_len then Smb2Error.EndOfData else Smb2Error.Truncated), d)) ∨
    (d.d_next + 2 ≤ d.d_len ∧ d.d_buf.getD (d.d_next + 1) 0 &&& 0x80 ≠ 0 ∧
      smb2_der_extract d = (.error .UnsupportedLongLength, { d with d_next := d.d_next + 2 })) ∨
    (d.d_next + 2 ≤ d.d_len ∧ d.d_buf.getD (d.d_next + 1) 0 &&& 0x80 = 0 ∧
      d.d_len < d.d_next + 2 + (d.d_buf.getD (d.d_next + 1) 0 &&& 0x7F) ∧
      smb2_der_extract d = (.error .Truncated, { d with d_next := d.d_next + 2 })) ∨
    (d.d_next + 2 ≤ d.d_len ∧ d.d_buf.getD (d.d_next + 1) 0 &&& 0x80 = 0 ∧
      d.d_next + 2 + (d.d_buf.getD (d.d_next + 1) 0 &&& 0x7F) ≤ d.d_len ∧
      smb2_der_extract d =
        (.ok (d.d_buf.getD d.d_next 0, d.d_buf.getD (d.d_next + 1) 0 &&& 0x7F),
          { d with d_next := d.d_next + 2 })) := by
  by_cases h : d.d_next + 2 ≤ d.d_len
  · by_cases hl : d.d_buf.getD (d.d_next + 1) 0 &&& 0x80 = 0
    · by_cases ht : d.d_next + 2 + (d.d_buf.getD (d.d_next + 1) 0 &&& 0x7F) ≤ d.d_len
      · exact Or.inr (Or.inr (Or.inr ⟨h, hl, ht, extract_ok d h hl ht⟩))
      · exact Or.inr (Or.inr (Or.inl ⟨h, hl, by omega, extract_truncated d h hl (by omega)⟩))
    · exact Or.inr (Or.inl ⟨h, hl, extract_long d h hl⟩)
  · exact Or.inl ⟨by omega, extract_short d (by omega)⟩

theorem get_whatever_of_extract_error (d d' : smb2_der) (e : Smb2Error)
    (h : smb2_der_extract d = (.error e, d')) : smb2_der_get_whatever d = (.error e, d') := by
  unfold smb2_der_get_whatever
  rw [h]

theorem get_whatever_of_extract_ok (d d' : smb2_der) (id len : Nat)
    (h : smb2_der_extract d = (.ok (id, len), d')) :
    smb2_der_get_whatever d =
      (.ok (id, d'.d_buf.drop d'.d_next, len), { d' with d_next := d'.d_next + len }) := by
  unfold smb2_der_get_whatever
  rw [h]

theorem get_general_string_short (d : smb2_der) (h : d.d_len < d.d_next + 2) :
    smb2_der_get_general_string d =
      (.error (if d.d_next = d.d_len then Smb2Error.EndOfData else Smb2Error.Truncated), d) := by
  unfold smb2_der_get_general_string
  rw [get_next_id_short d h]

theorem get_general_string_of_extract_error (d d' : smb2_der) (e : Smb2Error)
    (hh : d.d_next + 2 ≤ d.d_len) (ht : d.d_buf.getD d.d_next 0 = SMB2_DER_GENERAL_STRING)
    (h : smb2_der_extract d = (.error e, d')) :
    smb2_der_get_general_string d = (.error e, d') := by
  unfold smb2_der_get_general_string
  rw [get_next_id_ok d hh, ht]
  simp only [ne_eq, not_true_eq_false, if_false, h]

theorem get_general_string_of_extract_ok (d d' : smb2_der) (id len : Nat)
    (hh : d.d_next + 2 ≤ d.d_len) (ht : d.d_buf.getD d.d_next 0 = SMB2_DER_GENERAL_STRING)
    (h : smb2_der_extract d = (.ok (id, len), d')) :
    smb2_der_get_general_string d =
      (.ok ((d'.d_buf.drop d'.d_next).take len ++ [0]),
        { d' with d_next := d'.d_next + len }) := by
  unfold smb2_der_get_general_string
  rw [get_next_id_ok d hh, ht]
  simp only [ne_eq, not_true_eq_false, if_false, h]

theorem get_constructed_short (d : smb2_der) (h : d.d_len < d.d_next + 2) :
    smb2_der_get_constructed d =
      (.error (if d.d_next = d.d_len then Smb2Error.EndOfData else Smb2Error.Truncated), d) := by
  unfold smb2_der_get_constructed
  rw [get_next_id_short d h]

theorem get_constructed_of_extract_error (d d' : smb2_der) (e : Smb2Error)
    (hh : d.d_next + 2 ≤ d.d_len) (ht : d.d_buf.getD d.d_next 0 &&& 0x20 ≠ 0)
    (h : smb2_der_extract d = (.error e, d')) :
    smb2_der_get_constructed d = (.error e, d') := by
  unfold smb2_der_get_constructed
  rw [get_next_id_ok d hh]
  simp only [ht, if_false, h]

theorem get_constructed_of_extract_ok (d d' : smb2_der) (id len : Nat)
    (hh : d.d_next + 2 ≤ d.d_len) (ht : d.d_buf.getD d.d_next 0 &&& 0x20 ≠ 0)
    (h : smb2_der_extract d = (.ok (id, len), d')) :
    smb2_der_get_constructed d =
      (.ok (id, smb2_der_new_from_buf (d'.d_buf.drop d'.d_next) len),
        { d' with d_next := d'.d_next + len }) := by
  unfold smb2_der_get_constructed
  rw [get_next_id_ok d hh]
  simp only [ht, if_false, h]

theorem get_sequence_short (d : smb2_der) (h : d.d_len < d.d_next + 2) :
    smb2_der_get_sequence d =
      (.error (if d.d_next = d.d_len then Smb2Error.EndOfData else Smb2Error.Truncated), d) := by
  unfold smb2_der_get_sequence
  rw [get_next_id_short d h]

theorem get_sequence_of_constructed_error (d d' : smb2_der) (e : Smb2Error)
    (hh : d.d_next + 2 ≤ d.d_len) (ht : d.d_buf.getD d.d_next 0 = SMB2_DER_SEQUENCE)
    (h : smb2_der_get_constructed d = (.error e, d')) :
    smb2_der_get_sequence d = (.error e, d') := by
  unfold smb2_der_get_sequence
  rw [get_next_id_ok d hh, ht]
  simp only [ne_eq, not_true_eq_false, if_false, h]

theorem get_sequence_of_constructed_ok (d d' c : smb2_der) (id : Nat)
    (hh : d.d_next + 2 ≤ d.d_len) (ht : d.d_buf.getD d.d_next 0 = SMB2_DER_SEQUENCE)
    (h : smb2_der_get_constructed d = (.ok (id, c), d')) :
    smb2_der_get_sequence d = (.ok c, d') := by
  unfold smb2_der_get_sequence
  rw [get_next_id_ok d hh, ht]
  simp only [ne_eq, not_true_eq_false, if_false, h]

theorem sequence_tag_constructed (t : Nat) (h : t = SMB2_DER_SEQUENCE) : t &&& 0x20 ≠ 0 := by
  subst h
  decide

theorem get_oid_short (heap : List Nat) (d : smb2_der) (h : d.d_len < d.d_next + 2) :
    smb2_der_get_oid heap d =
      (.error (if d.d_next = d.d_len then Smb2Error.EndOfData else Smb2Error.Truncated), d) := by
  unfold smb2_der_get_oid
  rw [get_next_id_short d h]

theorem get_oid_of_extract_error (heap : List Nat) (d d' : smb2_der) (e : Smb2Error)
    (hh : d.d_next + 2 ≤ d.d_len) (ht : d.d_buf.getD d.d_next 0 = SMB2_DER_OID)
    (h : smb2_der_extract d = (.error e, d')) :
    smb2_der_get_oid heap d = (.error e, d') := by
  unfold smb2_der_get_oid
  rw [get_next_id_ok d hh, ht]
  simp only [ne_eq, not_true_eq_false, if_false, h]

/-- The OID loop moves the cursor forward, by at most the payload length. -/
theorem oid_loop_cursor (buf : List Nat) (len : Nat) :
    ∀ (next : Nat) (subid : Int) (str : List Nat) (stroff : Nat),
      next ≤ (oid_loop buf len next subid str stroff).2 ∧
      (oid_loop buf len next subid str stroff).2 ≤ next + len := by
  induction len with
  | zero => intro next subid str stroff; simp [oid_loop]
  | succ len ih =>
    intro next subid str stroff
    rw [oid_loop]
    simp only
    split
    · split
      · simp
      · rename_i str' stroff' _
        have := ih (next + 1) 0 str' stroff'
        omega
    · have := ih (next + 1)
        (wrapInt32 (subid * 128) + ((buf.getD next 0 &&& 0x7F : Nat) : Int)) str stroff
      omega

theorem oid_snprintf_error (str : List Nat) (stroff : Nat) (text : List Nat) (e : Smb2Error)
    (h : oid_snprintf str stroff text = .error e) : e = .OutOfBoundsWrite := by
  unfold oid_snprintf at h
  split at h
  · exact (Except.error.inj h).symm
  · cases h

/-- The only way the OID loop stops early is a store outside its block. -/
theorem oid_loop_error (buf : List Nat) (len : Nat) :
    ∀ (next : Nat) (subid : Int) (str : List Nat) (stroff : Nat) (e : Smb2Error),
      (oid_loop buf len next subid str stroff).1 = .error e → e = .OutOfBoundsWrite := by
  induction len with
  | zero => intro next subid str stroff e h; simp [oid_loop] at h
  | succ len ih =>
    intro next subid str stroff e h
    rw [oid_loop] at h
    simp only at h
    split at h
    · split at h
      · rename_i e' hs
        simp only at h
        rw [← Except.error.inj h]
        exact oid_snprintf_error _ _ _ _ hs
      · rename_i str' stroff' _
        exact ih _ _ _ _ _ h
    · exact ih _ _ _ _ _ h

/-- After a successful header extraction `smb2_der_get_oid` either returns a string or
stops at a store outside its block; in both cases only the cursor of the buffer has
changed, and it lies within the payload. -/
theorem get_oid_of_extract_ok (heap : List Nat) (d d' : smb2_der) (id len : Nat)
    (hh : d.d_next + 2 ≤ d.d_len) (ht : d.d_buf.getD d.d_next 0 = SMB2_DER_OID)
    (h : smb2_der_extract d = (.ok (id, len), d')) :
    ∃ r n, smb2_der_get_oid heap d = (r, { d' with d_next := n }) ∧
      d'.d_next ≤ n ∧ n ≤ d'.d_next + len ∧
      ((∃ str, r = .ok str) ∨ r = .error .OutOfBoundsWrite) := by
  have hc := oid_loop_cursor d'.d_buf len d'.d_next 0 heap 0
  unfold smb2_der_get_oid
  rw [get_next_id_ok d hh, ht]
  simp only [ne_eq, not_true_eq_false, if_false, h]
  cases hl : oid_loop d'.d_buf len d'.d_next 0 heap 0 with
  | mk r n =>
    rw [hl] at hc
    cases r with
    | error e =>
      have he : e = .OutOfBoundsWrite :=
        oid_loop_error d'.d_buf len d'.d_next 0 heap 0 e (by rw [hl])
      exact ⟨_, n, rfl, hc.1, hc.2, Or.inr (by rw [he])⟩
    | ok p =>
      obtain ⟨str, stroff⟩ := p
      simp only
      by_cases h0 : stroff > 0
      · by_cases h1 : stroff - 1 > SMB2_DER_OID_LEN
        · exact ⟨_, n, by rw [if_pos h0, if_pos h1], hc.1, hc.2, Or.inr rfl⟩
        · exact ⟨_, n, by rw [if_pos h0, if_neg h1], hc.1, hc.2, Or.inl ⟨_, rfl⟩⟩
      · exact ⟨_, n, by rw [if_neg h0], hc.1, hc.2, Or.inl ⟨_, rfl⟩⟩

/-- Claim C20.  For every buffer `d` and each of `getOpaque`, `getOid`,
`getGeneralString`, `getConstructed`, `getSequence`:
with fewer than 2 bytes at the cursor the call fails (`EndOfData` at the very end,
`Truncated` otherwise) and returns `d` itself; with a header present and a tag the
getter does not accept it fails with `WrongTag` and returns `d` itself; with an
accepted tag and a long-form length byte it fails with `UnsupportedLongLength`, and
with a short-form length exceeding the remaining bytes with `Truncated`, in both cases
returning `d` with the cursor advanced by exactly 2 and nothing else changed.  In the
one remaining case (accepted tag, payload inside the buffer) no getter returns a
failure: each returns a value, except that `getOid` may instead stop at a store
outside its string block. -/
theorem failed_decode_cursor (heap : List Nat) (d : smb2_der) :
    (d.d_len < d.d_next + 2 →
      smb2_der_get_whatever d =
        (.error (if d.d_next = d.d_len then Smb2Error.EndOfData else Smb2Error.Truncated), d) ∧
      smb2_der_get_oid heap d =
        (.error (if d.d_next = d.d_len then Smb2Error.EndOfData else Smb2Error.Truncated), d) ∧
      smb2_der_get_general_string d =
        (.error (if d.d_next = d.d_len then Smb2Error.EndOfData else Smb2Error.Truncated), d) ∧
      smb2_der_get_constructed d =
        (.error (if d.d_next = d.d_len then Smb2Error.EndOfData else Smb2Error.Truncated), d) ∧
      smb2_der_get_sequence d =
        (.error (if d.d_next = d.d_len then Smb2Error.EndOfData else Smb2Error.Truncated), d)) ∧
    (d.d_next + 2 ≤ d.d_len →
      (d.d_buf.getD d.d_next 0 ≠ 0x06 → smb2_der_get_oid heap d = (.error .WrongTag, d)) ∧
      (d.d_buf.getD d.d_next 0 ≠ 0x1B →
        smb2_der_get_general_string d = (.error .WrongTag, d)) ∧
      (d.d_buf.getD d.d_next 0 &&& 0x20 = 0 →
        smb2_der_get_constructed d = (.error .WrongTag, d)) ∧
      (d.d_buf.getD d.d_next 0 ≠ 0x30 → smb2_der_get_sequence d = (.error .WrongTag, d))) ∧
    (d.d_next + 2 ≤ d.d_len → d.d_buf.getD (d.d_next + 1) 0 &&& 0x80 ≠ 0 →
      smb2_der_get_whatever d =
        (.error .UnsupportedLongLength, { d with d_next := d.d_next + 2 }) ∧
      (d.d_buf.getD d.d_next 0 = 0x06 → smb2_der_get_oid heap d =
        (.error .UnsupportedLongLength, { d with d_next := d.d_next + 2 })) ∧
      (d.d_buf.getD d.d_next 0 = 0x1B → smb2_der_get_general_string d =
        (.error .UnsupportedLongLength, { d with d_next := d.d_next + 2 })) ∧
      (d.d_buf.getD d.d_next 0 &&& 0x20 ≠ 0 → smb2_der_get_constructed d =
        (.error .UnsupportedLongLength, { d with d_next := d.d_next + 2 })) ∧
      (d.d_buf.getD d.d_next 0 = 0x30 → smb2_der_get_sequence d =
        (.error .UnsupportedLongLength, { d with d_next := d.d_next + 2 }))) ∧
    (d.d_next + 2 ≤ d.d_len → d.d_buf.getD (d.d_next + 1) 0 &&& 0x80 = 0 →
      d.d_len < d.d_next + 2 + (d.d_buf.getD (d.d_next + 1) 0 &&& 0x7F) →
      smb2_der_get_whatever d = (.error .Truncated, { d with d_next := d.d_next + 2 }) ∧
      (d.d_buf.getD d.d_next 0 = 0x06 → smb2_der_get_oid heap d =
        (.error .Truncated, { d with d_next := d.d_next + 2 })) ∧
      (d.d_buf.getD d.d_next 0 = 0x1B → smb2_der_get_general_string d =
        (.error .Truncated, { d with d_next := d.d_next + 2 })) ∧
      (d.d_buf.getD d.d_next 0 &&& 0x20 ≠ 0 → smb2_der_get_constructed d =
        (.error .Truncated, { d with d_next := d.d_next + 2 })) ∧
      (d.d_buf.getD d.d_next 0 = 0x30 → smb2_der_get_sequence d =
        (.error .Truncated, { d with d_next := d.d_next + 2 }))) ∧
    (d.d_next + 2 ≤ d.d_len → d.d_buf.getD (d.d_next + 1) 0 &&& 0x80 = 0 →
      d.d_next + 2 + (d.d_buf.getD (d.d_next + 1) 0 &&& 0x7F) ≤ d.d_len →
      (∃ r, (smb2_der_get_whatever d).1 = .ok r) ∧
      (d.d_buf.getD d.d_next 0 = 0x06 →
        (∃ r, (smb2_der_get_oid heap d).1 = .ok r) ∨
        (smb2_der_get_oid heap d).1 = .error .OutOfBoundsWrite) ∧
      (d.d_buf.getD d.d_next 0 = 0x1B → ∃ r, (smb2_der_get_general_string d).1 = .ok r) ∧
      (d.d_buf.getD d.d_next 0 &&& 0x20 ≠ 0 → ∃ r, (smb2_der_get_constructed d).1 = .ok r) ∧
      (d.d_buf.getD d.d_next 0 = 0x30 → ∃ r, (smb2_der_get_sequence d).1 = .ok r)) := by
  refine ⟨?_, ?_, ?_, ?_, ?_⟩
  · intro h
    exact ⟨get_whatever_of_extract_error d d _ (extract_short d h), get_oid_short heap d h,
      get_general_string_short d h, get_constructed_short d h, get_sequence_short d h⟩
  · intro h
    exact ⟨fun ht => get_oid_wrong_tag heap d _ (get_next_id_ok d h) ht,
      get_general_string_wrong_tag d h, get_constructed_wrong_tag d h,
      get_sequence_wrong_tag d h⟩
  · intro h hl
    have hx := extract_long d h hl
    exact ⟨get_whatever_of_extract_error d _ _ hx,
      fun ht => get_oid_of_extract_error heap d _ _ h ht hx,
      fun ht => get_general_string_of_extract_error d _ _ h ht hx,
      fun ht => get_constructed_of_extract_error d _ _ h ht hx,
      fun ht => get_sequence_of_constructed_error d _ _ h ht
        (get_constructed_of_extract_error d _ _ h (sequence_tag_constructed _ ht) hx)⟩
  · intro h hl htr
    have hx := extract_truncated d h hl htr
    exact ⟨get_whatever_of_extract_error d _ _ hx,
      fun ht => get_oid_of_extract_error heap d _ _ h ht hx,
      fun ht => get_general_string_of_extract_error d _ _ h ht hx,
      fun ht => get_constructed_of_extract_error d _ _ h ht hx,
      fun ht => get_sequence_of_constructed_error d _ _ h ht
        (get_constructed_of_extract_error d _ _ h (sequence_tag_constructed _ ht) hx)⟩
  · intro h hl hfit
    have hx := extract_ok d h hl hfit
    refine ⟨⟨_, by rw [get_whatever_of_extract_ok d _ _ _ hx]⟩, ?_,
      fun ht => ⟨_, by rw [get_general_string_of_extract_ok d _ _ _ h ht hx]⟩,
      fun ht => ⟨_, by rw [get_constructed_of_extract_ok d _ _ _ h ht hx]⟩,
      fun ht => ⟨_, by
        rw [get_sequence_of_constructed_ok d _ _ _ h ht
          (get_constructed_of_extract_ok d _ _ _ h (sequence_tag_constructed _ ht) hx)]⟩⟩
    intro ht
    obtain ⟨r, n, hr, _, _, hcase⟩ := get_oid_of_extract_ok heap d _ _ _ h ht hx
    rw [hr]
    rcases hcase with ⟨str, hs⟩ | hs
    · exact Or.inl ⟨str, hs⟩
    · exact Or.inr hs

/-- Claim C20 on four buffers read with `getGeneralString`: empty, a wrong tag, a
long-form length byte and a payload longer than the rest. -/
theorem failed_decode_cursor_witness :
    smb2_der_get_general_string (smb2_der_new_from_buf [] 0) =
      (.error .EndOfData, smb2_der_new_from_buf [] 0) ∧
    smb2_der_get_general_string (smb2_der_new_from_buf [0x04, 1, 7] 3) =
      (.error .WrongTag, smb2_der_new_from_buf [0x04, 1, 7] 3) ∧
    smb2_der_get_general_string (smb2_der_new_from_buf [0x1B, 0x81, 7] 3) =
      (.error .UnsupportedLongLength,
        { smb2_der_new_from_buf [0x1B, 0x81, 7] 3 with d_next := 2 }) ∧
    smb2_der_get_general_string (smb2_der_new_from_buf [0x1B, 5, 7] 3) =
      (.error .Truncated, { smb2_der_new_from_buf [0x1B, 5, 7] 3 with d_next := 2 }) :=
  ⟨((failed_decode_cursor [] (smb2_der_new_from_buf [] 0)).1 (by decide)).2.2.1,
   ((failed_decode_cursor [] (smb2_der_new_from_buf [0x04, 1, 7] 3)).2.1
      (by decide)).2.1 (by decide),
   ((failed_decode_cursor [] (smb2_der_new_from_buf [0x1B, 0x81, 7] 3)).2.2.1
      (by decide) (by decide)).2.2.1 (by decide),
   ((failed_decode_cursor [] (smb2_der_new_from_buf [0x1B, 5, 7] 3)).2.2.2.1
      (by decide) (by decide) (by decide)).2.2.1 (by decide)⟩

theorem add_whatever_grow_cursor (fuel : Nat) :
    ∀ (d g : smb2_der) (need : Nat), add_whatever_grow fuel d need = .ok g →
      need < fuel + d.d_len → need ≤ g.d_len ∧ g.d_next = d.d_next := by
  induction fuel with
  | zero =>
    intro d g need h hf
    have : g = d := (Except.ok.inj h).symm
    subst this
    exact ⟨by omega, rfl⟩
  | succ fuel ih =>
    intro d g need h hf
    by_cases hfit : need ≤ d.d_len
    · have := add_whatever_grow_keeps_len _ d g need h hfit
      subst this
      exact ⟨hfit, rfl⟩
    · have hgt : need > d.d_len := by omega
      rw [add_whatever_grow, if_pos hgt] at h
      by_cases hown : d.d_own_buf = true
      · rw [if_pos hown] at h
        have hnew : d.d_len + 1 ≤ (if d.d_len = 0 then 1 else d.d_len * 2) := by
          split <;> omega
        simp only at h
        have := ih _ g need h (by simp only; omega)
        exact this
      · rw [if_neg hown] at h
        cases h

theorem add_whatever_cursor (d d' : smb2_der) (id : Nat) (buf : List Nat) (len : Nat)
    (h : smb2_der_add_whatever d id buf len = .ok d') : cursorInv d' := by
  unfold smb2_der_add_whatever at h
  cases hg : add_whatever_grow (d.d_next + 2 + len + 1) d (d.d_next + 2 + len) with
  | error e => rw [hg] at h; cases h
  | ok g =>
    rw [hg] at h
    have hc := add_whatever_grow_cursor _ d g _ hg (by omega)
    rw [← Except.ok.inj h]
    show g.d_next + 2 + len ≤ g.d_len
    rw [hc.2]
    exact hc.1

theorem add_constructed_cursor (d c d' : smb2_der) (id : Nat) (hd : cursorInv d)
    (h : smb2_der_add_constructed d c id = .ok d') : cursorInv d' := by
  unfold smb2_der_add_constructed at h
  split at h
  · rw [← Except.ok.inj h]; exact hd
  · exact add_whatever_cursor d d' id _ _ h

theorem extract_cursor (d : smb2_der) (hd : cursorInv d) :
    ∃ n, (smb2_der_extract d).2 = { d with d_next := n } ∧ n ≤ d.d_len := by
  unfold cursorInv at hd
  rcases extract_cases d with ⟨_, h⟩ | ⟨h1, _, h⟩ | ⟨h1, _, _, h⟩ | ⟨h1, _, _, h⟩
  · exact ⟨d.d_next, by rw [h], hd⟩
  · exact ⟨d.d_next + 2, by rw [h], h1⟩
  · exact ⟨d.d_next + 2, by rw [h], h1⟩
  · exact ⟨d.d_next + 2, by rw [h], h1⟩

theorem get_whatever_cursor (d : smb2_der) (hd : cursorInv d) :
    ∃ n, (smb2_der_get_whatever d).2 = { d with d_next := n } ∧ n ≤ d.d_len := by
  unfold cursorInv at hd
  rcases extract_cases d with ⟨_, h⟩ | ⟨h1, _, h⟩ | ⟨h1, _, _, h⟩ | ⟨h1, _, h2, h⟩
  · exact ⟨d.d_next, by rw [get_whatever_of_extract_error d _ _ h], hd⟩
  · exact ⟨d.d_next + 2, by rw [get_whatever_of_extract_error d _ _ h], h1⟩
  · exact ⟨d.d_next + 2, by rw [get_whatever_of_extract_error d _ _ h], h1⟩
  · exact ⟨_, by rw [get_whatever_of_extract_ok d _ _ _ h], h2⟩

theorem get_general_string_cursor (d : smb2_der) (hd : cursorInv d) :
    ∃ n, (smb2_der_get_general_string d).2 = { d with d_next := n } ∧ n ≤ d.d_len := by
  unfold cursorInv at hd
  by_cases hh : d.d_next + 2 ≤ d.d_len
  · by_cases ht : d.d_buf.getD d.d_next 0 = SMB2_DER_GENERAL_STRING
    · rcases extract_cases d with ⟨h0, _⟩ | ⟨h1, _, h⟩ | ⟨h1, _, _, h⟩ | ⟨h1, _, h2, h⟩
      · omega
      · exact ⟨_, by rw [get_general_string_of_extract_error d _ _ hh ht h], h1⟩
      · exact ⟨_, by rw [get_general_string_of_extract_error d _ _ hh ht h], h1⟩
      · exact ⟨_, by rw [get_general_string_of_extract_ok d _ _ _ hh ht h], h2⟩
    · exact ⟨d.d_next, by rw [get_general_string_wrong_tag d hh ht], hd⟩
  · exact ⟨d.d_next, by rw [get_general_string_short d (by omega)], hd⟩

theorem get_constructed_cursor (d : smb2_der) (hd : cursorInv d) :
    (∃ n, (smb2_der_get_constructed d).2 = { d with d_next := n } ∧ n ≤ d.d_len) ∧
    ∀ id c, (smb2_der_get_constructed d).1 = .ok (id, c) →
      c.d_next = 0 ∧ c.d_len + 2 ≤ d.d_len - d.d_next ∧ c.d_own_buf = false := by
  unfold cursorInv at hd
  by_cases hh : d.d_next + 2 ≤ d.d_len
  · by_cases ht : d.d_buf.getD d.d_next 0 &&& 0x20 = 0
    · rw [get_constructed_wrong_tag d hh ht]
      exact ⟨⟨d.d_next, rfl, hd⟩, fun id c h => by cases h⟩
    · rcases extract_cases d with ⟨h0, _⟩ | ⟨h1, _, h⟩ | ⟨h1, _, _, h⟩ | ⟨h1, _, h2, h⟩
      · omega
      · rw [get_constructed_of_extract_error d _ _ hh ht h]
        exact ⟨⟨_, rfl, h1⟩, fun id c h => by cases h⟩
      · rw [get_constructed_of_extract_error d _ _ hh ht h]
        exact ⟨⟨_, rfl, h1⟩, fun id c h => by cases h⟩
      · rw [get_constructed_of_extract_ok d _ _ _ hh ht h]
        refine ⟨⟨_, rfl, h2⟩, ?_⟩
        intro id c hc
        have := Except.ok.inj hc
        rw [← (Prod.mk.inj this).2]
        refine ⟨rfl, ?_, rfl⟩
        show (d.d_buf.getD (d.d_next + 1) 0 &&& 0x7F) + 2 ≤ d.d_len - d.d_next
        omega
  · rw [get_constructed_short d (by omega)]
    exact ⟨⟨d.d_next, rfl, hd⟩, fun id c h => by cases h⟩

theorem get_sequence_cursor (d : smb2_der) (hd : cursorInv d) :
    (∃ n, (smb2_der_get_sequence d).2 = { d with d_next := n } ∧ n ≤ d.d_len) ∧
    ∀ c, (smb2_der_get_sequence d).1 = .ok c →
      c.d_next = 0 ∧ c.d_len + 2 ≤ d.d_len - d.d_next ∧ c.d_own_buf = false := by
  have hd' := hd
  unfold cursorInv at hd'
  by_cases hh : d.d_next + 2 ≤ d.d_len
  · by_cases ht : d.d_buf.getD d.d_next 0 = SMB2_DER_SEQUENCE
    · obtain ⟨⟨n, hn, hle⟩, hv⟩ := get_constructed_cursor d hd
      cases hc : smb2_der_get_constructed d with
      | mk r d' =>
        rw [hc] at hn hv
        cases r with
        | error e =>
          rw [get_sequence_of_constructed_error d _ _ hh ht hc]
          exact ⟨⟨n, hn, hle⟩, fun c h => by cases h⟩
        | ok p =>
          obtain ⟨id, c⟩ := p
          rw [get_sequence_of_constructed_ok d _ _ _ hh ht hc]
          refine ⟨⟨n, hn, hle⟩, ?_⟩
          intro c' hc'
          rw [← Except.ok.inj hc']
          exact hv id c rfl
    · rw [get_sequence_wrong_tag d hh ht]
      exact ⟨⟨d.d_next, rfl, hd'⟩, fun c h => by cases h⟩
  · rw [get_sequence_short d (by omega)]
    exact ⟨⟨d.d_next, rfl, hd'⟩, fun c h => by cases h⟩

theorem get_oid_cursor (heap : List Nat) (d : smb2_der) (hd : cursorInv d) :
    ∃ n, (smb2_der_get_oid heap d).2 = { d with d_next := n } ∧ n ≤ d.d_len := by
  unfold cursorInv at hd
  by_cases hh : d.d_next + 2 ≤ d.d_len
  · by_cases ht : d.d_buf.getD d.d_next 0 = SMB2_DER_OID
    · rcases extract_cases d with ⟨h0, _⟩ | ⟨h1, _, h⟩ | ⟨h1, _, _, h⟩ | ⟨h1, _, h2, h⟩
      · omega
      · exact ⟨_, by rw [get_oid_of_extract_error heap d _ _ hh ht h], h1⟩
      · exact ⟨_, by rw [get_oid_of_extract_error heap d _ _ hh ht h], h1⟩
      · obtain ⟨r, n, hr, _, hn, _⟩ := get_oid_of_extract_ok heap d _ _ _ hh ht h
        refine ⟨n, by rw [hr], ?_⟩
        simp only at hn
        omega
    · exact ⟨d.d_next, by rw [get_oid_wrong_tag heap d _ (get_next_id_ok d hh) ht], hd⟩
  · exact ⟨d.d_next, by rw [get_oid_short heap d (by omega)], hd⟩

theorem cursorInv_of_cursor (d d' : smb2_der) (n : Nat) (h : d' = { d with d_next := n })
    (hn : n ≤ d.d_len) : cursorInv d' := by
  subst h
  exact hn

/-- Claim C18.  For every DER buffer state with `cursor ≤ length`, each of `setOffset`,
`rewind`, `extractTLV`, `getConstructed`, `getSequence`, `getOid`, `getGeneralString`,
`getOpaque`, `addOpaque`, `addConstructed`, `addSequence`, `addGeneralString` and
`addOid` leaves the buffer, and any Borrowed View it returns, in a state with
`cursor ≤ length`, whether it succeeds or fails (a failed `add` or `setOffset` ends
the process with the buffer as it was; `peekTag` has no effect on the buffer);
`setOffset` fails with `Truncated` exactly when the requested offset exceeds the
length.  For `getOid` the statement covers the state at a store outside its string
block as well. -/
theorem cursor_invariant (heap : List Nat) (d : smb2_der) (hd : cursorInv d) :
    (∀ off, (smb2_der_set_off d off = .error .Truncated ↔ d.d_len < off) ∧
      (d.d_len < off ∨ ∃ d', smb2_der_set_off d off = .ok d' ∧ cursorInv d')) ∧
    cursorInv (smb2_der_rewind d) ∧
    cursorInv (smb2_der_extract d).2 ∧
    (cursorInv (smb2_der_get_constructed d).2 ∧
      ∀ id c, (smb2_der_get_constructed d).1 = .ok (id, c) → cursorInv c) ∧
    (cursorInv (smb2_der_get_sequence d).2 ∧
      ∀ c, (smb2_der_get_sequence d).1 = .ok c → cursorInv c) ∧
    cursorInv (smb2_der_get_oid heap d).2 ∧
    cursorInv (smb2_der_get_general_string d).2 ∧
    cursorInv (smb2_der_get_whatever d).2 ∧
    (∀ id buf len d', smb2_der_add_whatever d id buf len = .ok d' → cursorInv d') ∧
    (∀ c id d', smb2_der_add_constructed d c id = .ok d' → cursorInv d') ∧
    (∀ c d', smb2_der_add_sequence d c = .ok d' → cursorInv d') ∧
    (∀ s d', smb2_der_add_general_string d s = .ok d' → cursorInv d') ∧
    (∀ s d', smb2_der_add_oid d s = .ok d' → cursorInv d') := by
  refine ⟨?_, ?_, ?_, ⟨?_, ?_⟩, ⟨?_, ?_⟩, ?_, ?_, ?_, ?_, ?_, ?_, ?_, ?_⟩
  · intro off
    unfold smb2_der_set_off
    by_cases h : off > d.d_len
    · rw [if_pos h]
      exact ⟨⟨fun _ => h, fun _ => rfl⟩, Or.inl h⟩
    · rw [if_neg h]
      refine ⟨⟨fun c => Except.noConfusion c, fun c => absurd c h⟩, Or.inr ⟨_, rfl, ?_⟩⟩
      show off ≤ d.d_len
      omega
  · show 0 ≤ d.d_len
    omega
  · obtain ⟨n, h, hn⟩ := extract_cursor d hd
    exact cursorInv_of_cursor d _ n h hn
  · obtain ⟨n, h, hn⟩ := (get_constructed_cursor d hd).1
    exact cursorInv_of_cursor d _ n h hn
  · intro id c hc
    have := (get_constructed_cursor d hd).2 id c hc
    show c.d_next ≤ c.d_len
    omega
  · obtain ⟨n, h, hn⟩ := (get_sequence_cursor d hd).1
    exact cursorInv_of_cursor d _ n h hn
  · intro c hc
    have := (get_sequence_cursor d hd).2 c hc
    show c.d_next ≤ c.d_len
    omega
  · obtain ⟨n, h, hn⟩ := get_oid_cursor heap d hd
    exact cursorInv_of_cursor d _ n h hn
  · obtain ⟨n, h, hn⟩ := get_general_string_cursor d hd
    exact cursorInv_of_cursor d _ n h hn
  · obtain ⟨n, h, hn⟩ := get_whatever_cursor d hd
    exact cursorInv_of_cursor d _ n h hn
  · intro id buf len d' h
    exact add_whatever_cursor d d' id buf len h
  · intro c id d' h
    exact add_constructed_cursor d c d' id hd h
  · intro c d' h
    exact add_constructed_cursor d c d' _ hd h
  · intro s d' h
    exact add_whatever_cursor d d' _ _ _ h
  · intro s d' h
    exact add_whatever_cursor d d' _ _ _ h

/-- Claim C18 on the buffer `30 02 04 00` with the cursor at 0. -/
theorem cursor_invariant_witness :
    cursorInv (smb2_der_new_from_buf [0x30, 2, 4, 0] 4) ∧
    (smb2_der_set_off (smb2_der_new_from_buf [0x30, 2, 4, 0] 4) 5 = .error .Truncated ↔
      (smb2_der_new_from_buf [0x30, 2, 4, 0] 4).d_len < 5) ∧
    cursorInv (smb2_der_get_sequence (smb2_der_new_from_buf [0x30, 2, 4, 0] 4)).2 ∧
    cursorInv (smb2_der_get_oid [] (smb2_der_new_from_buf [0x30, 2, 4, 0] 4)).2 :=
  ⟨by decide,
   ((cursor_invariant [] (smb2_der_new_from_buf [0x30, 2, 4, 0] 4) (by decide)).1 5).1,
   (cursor_invariant [] (smb2_der_new_from_buf [0x30, 2, 4, 0] 4) (by decide)).2.2.2.2.1.1,
   (cursor_invariant [] (smb2_der_new_from_buf [0x30, 2, 4, 0] 4) (by decide)).2.2.2.2.2.1⟩

/-! ## DER codec: the diagnostic traversal -/

theorem print_indent_loop_succ (heap : List Nat) (fuel : Nat) (d : smb2_der) :
    print_indent_loop heap (fuel + 1) d =
      match smb2_der_get_next_id d with
      | .error _ => some (.ok d)
      | .ok id =>
        if id = SMB2_DER_OID then
          match smb2_der_get_oid heap d with
          | (.error .OutOfBoundsWrite, _) => some (.error .OutOfBoundsWrite)
          | (_, d) => print_indent_loop heap fuel d
        else if id = SMB2_DER_GENERAL_STRING then
          print_indent_loop heap fuel (smb2_der_get_general_string d).2
        else if id = SMB2_DER_SEQUENCE then
          match smb2_der_get_sequence d with
          | (.error _, d) => print_indent_loop heap fuel d
          | (.ok c, d) =>
            match smb2_der_print_indent heap fuel c with
            | none => none
            | some (.error e) => some (.error e)
            | some (.ok _) => print_indent_loop heap fuel d
        else if id &&& 0x20 ≠ 0 then
          match smb2_der_get_constructed d with
          | (.error _, d) => print_indent_loop heap fuel d
          | (.ok (_, c), d) =>
            match smb2_der_print_indent heap fuel c with
            | none => none
            | some (.error e) => some (.error e)
            | some (.ok _) => print_indent_loop heap fuel d
        else
          print_indent_loop heap fuel (smb2_der_get_whatever d).2 := by
  rw [print_indent_loop]

theorem print_indent_succ (heap : List Nat) (fuel : Nat) (d : smb2_der) :
    smb2_der_print_indent heap (fuel + 1) d =
      match smb2_der_set_off d 0 with
      | .error e => some (.error e)
      | .ok d' =>
        match print_indent_loop heap fuel d' with
        | none => none
        | some (.error e) => some (.error e)
        | some (.ok d'') => some (smb2_der_set_off d'' (smb2_der_get_off d)) := by
  rw [smb2_der_print_indent]

theorem get_whatever_advance (d : smb2_der) (hh : d.d_next + 2 ≤ d.d_len) :
    ∃ n, (smb2_der_get_whatever d).2 = { d with d_next := n } ∧ d.d_next + 2 ≤ n ∧
      n ≤ d.d_len := by
  rcases extract_cases d with ⟨h0, _⟩ | ⟨h1, _, h⟩ | ⟨h1, _, _, h⟩ | ⟨h1, _, h2, h⟩
  · omega
  · exact ⟨_, by rw [get_whatever_of_extract_error d _ _ h], le_refl _, h1⟩
  · exact ⟨_, by rw [get_whatever_of_extract_error d _ _ h], le_refl _, h1⟩
  · exact ⟨d.d_next + 2 + (d.d_buf.getD (d.d_next + 1) 0 &&& 0x7F), by rw [get_whatever_of_extract_ok d _ _ _ h],
      by omega, h2⟩

theorem get_general_string_advance (d : smb2_der) (hh : d.d_next + 2 ≤ d.d_len)
    (ht : d.d_buf.getD d.d_next 0 = SMB2_DER_GENERAL_STRING) :
    ∃ n, (smb2_der_get_general_string d).2 = { d with d_next := n } ∧ d.d_next + 2 ≤ n ∧
      n ≤ d.d_len := by
  rcases extract_cases d with ⟨h0, _⟩ | ⟨h1, _, h⟩ | ⟨h1, _, _, h⟩ | ⟨h1, _, h2, h⟩
  · omega
  · exact ⟨_, by rw [get_general_string_of_extract_error d _ _ hh ht h], le_refl _, h1⟩
  · exact ⟨_, by rw [get_general_string_of_extract_error d _ _ hh ht h], le_refl _, h1⟩
  · exact ⟨d.d_next + 2 + (d.d_buf.getD (d.d_next + 1) 0 &&& 0x7F),
      by rw [get_general_string_of_extract_ok d _ _ _ hh ht h], by omega, h2⟩

theorem get_constructed_advance (d : smb2_der) (hh : d.d_next + 2 ≤ d.d_len)
    (ht : d.d_buf.getD d.d_next 0 &&& 0x20 ≠ 0) :
    ∃ r n, smb2_der_get_constructed d = (r, { d with d_next := n }) ∧ d.d_next + 2 ≤ n ∧
      n ≤ d.d_len ∧
      ∀ id c, r = .ok (id, c) → c.d_next = 0 ∧ c.d_len + 2 ≤ d.d_len - d.d_next := by
  rcases extract_cases d with ⟨h0, _⟩ | ⟨h1, _, h⟩ | ⟨h1, _, _, h⟩ | ⟨h1, _, h2, h⟩
  · omega
  · exact ⟨_, _, get_constructed_of_extract_error d _ _ hh ht h, le_refl _, h1,
      fun id c hc => Except.noConfusion hc⟩
  · exact ⟨_, _, get_constructed_of_extract_error d _ _ hh ht h, le_refl _, h1,
      fun id c hc => Except.noConfusion hc⟩
  · refine ⟨_, d.d_next + 2 + (d.d_buf.getD (d.d_next + 1) 0 &&& 0x7F),
      get_constructed_of_extract_ok d _ _ _ hh ht h, by omega, h2, ?_⟩
    intro id c hc
    have := Except.ok.inj hc
    rw [← (Prod.mk.inj this).2]
    refine ⟨rfl, ?_⟩
    show (d.d_buf.getD (d.d_next + 1) 0 &&& 0x7F) + 2 ≤ d.d_len - d.d_next
    omega

theorem get_sequence_advance (d : smb2_der) (hh : d.d_next + 2 ≤ d.d_len)
    (ht : d.d_buf.getD d.d_next 0 = SMB2_DER_SEQUENCE) :
    ∃ r n, smb2_der_get_sequence d = (r, { d with d_next := n }) ∧ d.d_next + 2 ≤ n ∧
      n ≤ d.d_len ∧ ∀ c, r = .ok c → c.d_next = 0 ∧ c.d_len + 2 ≤ d.d_len - d.d_next := by
  obtain ⟨r, n, hr, h1, h2, hv⟩ :=
    get_constructed_advance d hh (sequence_tag_constructed _ ht)
  cases r with
  | error e =>
    exact ⟨_, n, get_sequence_of_constructed_error d _ _ hh ht hr, h1, h2,
      fun c hc => Except.noConfusion hc⟩
  | ok p =>
    obtain ⟨id, c⟩ := p
    refine ⟨_, n, get_sequence_of_constructed_ok d _ _ _ hh ht hr, h1, h2, ?_⟩
    intro c' hc'
    rw [← Except.ok.inj hc']
    exact hv id c rfl

theorem get_oid_advance (heap : List Nat) (d : smb2_der) (hh : d.d_next + 2 ≤ d.d_len)
    (ht : d.d_buf.getD d.d_next 0 = SMB2_DER_OID) :
    ∃ r n, smb2_der_get_oid heap d = (r, { d with d_next := n }) ∧ d.d_next + 2 ≤ n ∧
      n ≤ d.d_len := by
  rcases extract_cases d with ⟨h0, _⟩ | ⟨h1, _, h⟩ | ⟨h1, _, _, h⟩ | ⟨h1, _, h2, h⟩
  · omega
  · exact ⟨_, _, get_oid_of_extract_error heap d _ _ hh ht h, le_refl _, h1⟩
  · exact ⟨_, _, get_oid_of_extract_error heap d _ _ hh ht h, le_refl _, h1⟩
  · obtain ⟨r, n, hr, hn1, hn2, _⟩ := get_oid_of_extract_ok heap d _ _ _ hh ht h
    refine ⟨r, n, hr, ?_, ?_⟩
    · simp only at hn1; omega
    · simp only at hn2; omega

/-- The traversal always ends, given the iterations `smb2_der_print` allots: the loop
either stops at a store outside the string block of `smb2_der_get_oid` or returns the
buffer with only its cursor moved; `smb2_der_print_indent` either stops in the same
way or returns the buffer exactly as it was. -/
theorem print_indent_total (heap : List Nat) (fuel : Nat) :
    (∀ d : smb2_der, cursorInv d → d.d_len - d.d_next + 1 ≤ fuel →
      print_indent_loop heap fuel d = some (.error .OutOfBoundsWrite) ∨
      ∃ n, n ≤ d.d_len ∧ print_indent_loop heap fuel d = some (.ok { d with d_next := n })) ∧
    (∀ d : smb2_der, cursorInv d → d.d_len + 2 ≤ fuel →
      smb2_der_print_indent heap fuel d = some (.error .OutOfBoundsWrite) ∨
      smb2_der_print_indent heap fuel d = some (.ok d)) := by
  induction fuel with
  | zero =>
    exact ⟨fun d _ h => absurd h (by omega), fun d _ h => absurd h (by omega)⟩
  | succ fuel ih =>
    obtain ⟨ihl, ihp⟩ := ih
    have hcont : ∀ (d : smb2_der) (n : Nat), d.d_len - d.d_next + 1 ≤ fuel + 1 →
        d.d_next + 2 ≤ n → n ≤ d.d_len →
        print_indent_loop heap fuel { d with d_next := n } = some (.error .OutOfBoundsWrite) ∨
        ∃ m, m ≤ d.d_len ∧
          print_indent_loop heap fuel { d with d_next := n } = some (.ok { d with d_next := m }) := by
      intro d n hf h1 h2
      exact ihl { d with d_next := n } h2 (by simp only; omega)
    have hchild : ∀ (d c : smb2_der), cursorInv d → d.d_len - d.d_next + 1 ≤ fuel + 1 →
        c.d_next = 0 → c.d_len + 2 ≤ d.d_len - d.d_next →
        smb2_der_print_indent heap fuel c = some (.error .OutOfBoundsWrite) ∨
        smb2_der_print_indent heap fuel c = some (.ok c) := by
      intro d c hd hf hc0 hcl
      exact ihp c (by unfold cursorInv; omega) (by omega)
    constructor
    · intro d hd hf
      rw [print_indent_loop_succ]
      by_cases hh : d.d_next + 2 ≤ d.d_len
      · rw [get_next_id_ok d hh]
        simp only
        by_cases t1 : d.d_buf.getD d.d_next 0 = SMB2_DER_OID
        · rw [if_pos t1]
          obtain ⟨r, n, hr, h1, h2⟩ := get_oid_advance heap d hh t1
          rw [hr]
          cases r with
          | ok s => exact hcont d n hf h1 h2
          | error e =>
            cases e <;> first | exact Or.inl rfl | exact hcont d n hf h1 h2
        · rw [if_neg t1]
          by_cases t2 : d.d_buf.getD d.d_next 0 = SMB2_DER_GENERAL_STRING
          · rw [if_pos t2]
            obtain ⟨n, hn, h1, h2⟩ := get_general_string_advance d hh t2
            rw [hn]
            exact hcont d n hf h1 h2
          · rw [if_neg t2]
            by_cases t3 : d.d_buf.getD d.d_next 0 = SMB2_DER_SEQUENCE
            · rw [if_pos t3]
              obtain ⟨r, n, hr, h1, h2, hv⟩ := get_sequence_advance d hh t3
              rw [hr]
              cases r with
              | error e => exact hcont d n hf h1 h2
              | ok c =>
                simp only
                have hc := hv c rfl
                rcases hchild d c hd hf hc.1 hc.2 with hp | hp
                · rw [hp]; exact Or.inl rfl
                · rw [hp]; exact hcont d n hf h1 h2
            · rw [if_neg t3]
              by_cases t4 : d.d_buf.getD d.d_next 0 &&& 0x20 ≠ 0
              · rw [if_pos t4]
                obtain ⟨r, n, hr, h1, h2, hv⟩ := get_constructed_advance d hh t4
                rw [hr]
                cases r with
                | error e => exact hcont d n hf h1 h2
                | ok p =>
                  obtain ⟨id, c⟩ := p
                  simp only
                  have hc := hv id c rfl
                  rcases hchild d c hd hf hc.1 hc.2 with hp | hp
                  · rw [hp]; exact Or.inl rfl
                  · rw [hp]; exact hcont d n hf h1 h2
              · rw [if_neg t4]
                obtain ⟨n, hn, h1, h2⟩ := get_whatever_advance d hh
                rw [hn]
                exact hcont d n hf h1 h2
      · rw [get_next_id_short d (by omega)]
        exact Or.inr ⟨d.d_next, hd, rfl⟩
    · intro d hd hf
      rw [print_indent_succ]
      have h0 : smb2_der_set_off d 0 = .ok { d with d_next := 0 } := by
        unfold smb2_der_set_off
        rw [if_neg (by omega)]
      rw [h0]
      simp only
      rcases ihl { d with d_next := 0 } (by unfold cursorInv; simp) (by simp only; omega) with
        hp | ⟨n, hn, hp⟩
      · rw [hp]; exact Or.inl rfl
      · rw [hp]
        simp only
        refine Or.inr ?_
        unfold smb2_der_set_off smb2_der_get_off
        have : ¬ d.d_next > d.d_len := by unfold cursorInv at hd; omega
        simp only [this, if_false]

/-- On every buffer with `cursor ≤ length`, `smb2_der_print` ends: it either stops at a
store outside the string block of `smb2_der_get_oid`, or returns the buffer with its
cursor, bytes and length as they were. -/
theorem print_restores_or_stops (heap : List Nat) (d : smb2_der) (hd : cursorInv d) :
    smb2_der_print heap d = some (.error .OutOfBoundsWrite) ∨
    smb2_der_print heap d = some (.ok d) :=
  (print_indent_total heap (d.d_len + 2)).2 d hd (le_refl _)

set_option maxRecDepth 1000000 in
/-- Claim C16 at its failing input: the buffer is one OID TLV of 65 one-byte
components (`06 41` followed by 65 bytes `64`), cursor 0.  Its text `2.20.100. ...`
passes 256 characters, so inside the traversal `smb2_der_get_oid` calls `snprintf`
with `str + 257` and a wrapped-around size: the traversal stops at a store outside the
257-byte block instead of returning with the cursor restored.  A buffer of
malformed but harmless TLVs, read from cursor 7, is returned unchanged. -/
theorem print_oid_overflow_stops :
    cursorInv (smb2_der_new_from_buf ([0x06, 65] ++ List.replicate 65 100) 67) ∧
    smb2_der_print (List.replicate 257 0)
        (smb2_der_new_from_buf ([0x06, 65] ++ List.replicate 65 100) 67) =
      some (.error .OutOfBoundsWrite) ∧
    smb2_der_print (List.replicate 257 0)
        { smb2_der_new_from_buf
            [0x30, 10, 0x1B, 3, 49, 46, 50, 0x1B, 3, 49, 46, 51, 0x04, 0x80, 0x06, 1] 16 with
          d_next := 7 } =
      some (.ok { smb2_der_new_from_buf
            [0x30, 10, 0x1B, 3, 49, 46, 50, 0x1B, 3, 49, 46, 51, 0x04, 0x80, 0x06, 1] 16 with
          d_next := 7 }) := by
  decide

/-- One iteration of the traversal loop with a header at the cursor: unless it stops at a
store outside the string block of `smb2_der_get_oid` (its own or one met in a child
view), the loop goes on from a cursor at least 2 further, still inside the buffer. -/
theorem print_indent_loop_step (heap : List Nat) (fuel : Nat) (d : smb2_der)
    (hh : d.d_next + 2 ≤ d.d_len) (hf : d.d_len - d.d_next ≤ fuel) :
    print_indent_loop heap (fuel + 1) d = some (.error .OutOfBoundsWrite) ∨
    ∃ n, d.d_next + 2 ≤ n ∧ n ≤ d.d_len ∧
      print_indent_loop heap (fuel + 1) d = print_indent_loop heap fuel { d with d_next := n } := by
  have hchild : ∀ c : smb2_der, c.d_next = 0 → c.d_len + 2 ≤ d.d_len - d.d_next →
      smb2_der_print_indent heap fuel c = some (.error .OutOfBoundsWrite) ∨
      smb2_der_print_indent heap fuel c = some (.ok c) := by
    intro c hc0 hcl
    exact (print_indent_total heap fuel).2 c (by unfold cursorInv; omega) (by omega)
  rw [print_indent_loop_succ, get_next_id_ok d hh]
  simp only
  by_cases t1 : d.d_buf.getD d.d_next 0 = SMB2_DER_OID
  · rw [if_pos t1]
    obtain ⟨r, n, hr, h1, h2⟩ := get_oid_advance heap d hh t1
    rw [hr]
    cases r with
    | ok s => exact Or.inr ⟨n, h1, h2, rfl⟩
    | error e =>
      cases e <;> first | exact Or.inl rfl | exact Or.inr ⟨n, h1, h2, rfl⟩
  · rw [if_neg t1]
    by_cases t2 : d.d_buf.getD d.d_next 0 = SMB2_DER_GENERAL_STRING
    · rw [if_pos t2]
      obtain ⟨n, hn, h1, h2⟩ := get_general_string_advance d hh t2
      rw [hn]
      exact Or.inr ⟨n, h1, h2, rfl⟩
    · rw [if_neg t2]
      by_cases t3 : d.d_buf.getD d.d_next 0 = SMB2_DER_SEQUENCE
      · rw [if_pos t3]
        obtain ⟨r, n, hr, h1, h2, hv⟩ := get_sequence_advance d hh t3
        rw [hr]
        cases r with
        | error e => exact Or.inr ⟨n, h1, h2, rfl⟩
        | ok c =>
          simp only
          have hc := hv c rfl
          rcases hchild c hc.1 hc.2 with hp | hp
          · rw [hp]; exact Or.inl rfl
          · rw [hp]; exact Or.inr ⟨n, h1, h2, rfl⟩
      · rw [if_neg t3]
        by_cases t4 : d.d_buf.getD d.d_next 0 &&& 0x20 ≠ 0
        · rw [if_pos t4]
          obtain ⟨r, n, hr, h1, h2, hv⟩ := get_constructed_advance d hh t4
          rw [hr]
          cases r with
          | error e => exact Or.inr ⟨n, h1, h2, rfl⟩
          | ok p =>
            obtain ⟨id, c⟩ := p
            simp only
            have hc := hv id c rfl
            rcases hchild c hc.1 hc.2 with hp | hp
            · rw [hp]; exact Or.inl rfl
            · rw [hp]; exact Or.inr ⟨n, h1, h2, rfl⟩
        · rw [if_neg t4]
          obtain ⟨n, hn, h1, h2⟩ := get_whatever_advance d hh
          rw [hn]
          exact Or.inr ⟨n, h1, h2, rfl⟩

theorem print_indent_loop_stop (heap : List Nat) (fuel : Nat) (d : smb2_der)
    (h : d.d_len < d.d_next + 2) : print_indent_loop heap (fuel + 1) d = some (.ok d) := by
  rw [print_indent_loop_succ, get_next_id_short d h]

/-- Claim C21.  For every buffer with `cursor ≤ length`, whatever its bytes, the
traversal ends: `smb2_der_print_indent` yields an outcome for every bound of at least
`d_len + 2` steps (the bound `smb2_der_print` uses), and so does its loop from any
cursor.  Each loop iteration either stops (fewer than 2 bytes left) or goes on from a
cursor at least 2 further; each nested call is on a view with cursor 0 that is
strictly shorter than its parent (a failed getter gives no view and no nested call).
The outcome is the unchanged buffer, or the stop at a store outside the string block
of `smb2_der_get_oid`. -/
theorem print_indent_terminates (heap : List Nat) (d : smb2_der) (hd : cursorInv d) :
    (∀ fuel, d.d_len + 2 ≤ fuel →
      smb2_der_print_indent heap fuel d = some (.ok d) ∨
      smb2_der_print_indent heap fuel d = some (.error .OutOfBoundsWrite)) ∧
    (∃ r, smb2_der_print heap d = some r) ∧
    (∀ fuel, d.d_len - d.d_next + 1 ≤ fuel → ∃ r, print_indent_loop heap fuel d = some r) ∧
    (d.d_len < d.d_next + 2 → ∀ fuel, print_indent_loop heap (fuel + 1) d = some (.ok d)) ∧
    (d.d_next + 2 ≤ d.d_len → ∀ fuel, d.d_len - d.d_next ≤ fuel →
      print_indent_loop heap (fuel + 1) d = some (.error .OutOfBoundsWrite) ∨
      ∃ n, d.d_next + 2 ≤ n ∧ n ≤ d.d_len ∧
        print_indent_loop heap (fuel + 1) d =
          print_indent_loop heap fuel { d with d_next := n }) ∧
    (∀ c, (smb2_der_get_sequence d).1 = .ok c → c.d_next = 0 ∧ c.d_len < d.d_len) ∧
    (∀ id c, (smb2_der_get_constructed d).1 = .ok (id, c) →
      c.d_next = 0 ∧ c.d_len < d.d_len) := by
  refine ⟨?_, ?_, ?_, ?_, ?_, ?_, ?_⟩
  · intro fuel hf
    exact ((print_indent_total heap fuel).2 d hd hf).symm
  · rcases print_restores_or_stops heap d hd with h | h
    · exact ⟨_, h⟩
    · exact ⟨_, h⟩
  · intro fuel hf
    rcases (print_indent_total heap fuel).1 d hd hf with h | ⟨n, _, h⟩
    · exact ⟨_, h⟩
    · exact ⟨_, h⟩
  · intro h fuel
    exact print_indent_loop_stop heap fuel d h
  · intro hh fuel hf
    exact print_indent_loop_step heap fuel d hh hf
  · intro c hc
    have := (get_sequence_cursor d hd).2 c hc
    unfold cursorInv at hd
    exact ⟨this.1, by omega⟩
  · intro id c hc
    have := (get_constructed_cursor d hd).2 id c hc
    unfold cursorInv at hd
    exact ⟨this.1, by omega⟩

set_option maxRecDepth 100000 in
/-- Claim C21 on a buffer of adversarial bytes: a SEQUENCE holding a constructed value
with a long-form length, then a truncated general string. -/
theorem print_indent_terminates_witness :
    cursorInv (smb2_der_new_from_buf [0x30, 4, 0xA0, 0x85, 0x06, 0x01, 0x1B, 0x7F, 0x41] 9) ∧
    smb2_der_print []
        (smb2_der_new_from_buf [0x30, 4, 0xA0, 0x85, 0x06, 0x01, 0x1B, 0x7F, 0x41] 9) =
      some (.ok (smb2_der_new_from_buf [0x30, 4, 0xA0, 0x85, 0x06, 0x01, 0x1B, 0x7F, 0x41] 9)) ∧
    ∃ r, smb2_der_print []
        (smb2_der_new_from_buf [0x30, 4, 0xA0, 0x85, 0x06, 0x01, 0x1B, 0x7F, 0x41] 9) = some r :=
  ⟨by decide, by decide,
   (print_indent_terminates []
      (smb2_der_new_from_buf [0x30, 4, 0xA0, 0x85, 0x06, 0x01, 0x1B, 0x7F, 0x41] 9)
      (by decide)).2.1⟩

end Smb2
